import Mathlib

/-!
Shallow embedding of the AI navigation core of the repository:
the grid navmesh (`src/navmesh/navmesh.ts`), the path follower
(`src/enemies/ai/path-follower.ts`), and the combat states
(`patrol-state.ts`, `alert-state.ts`, `attack-state.ts`).

World coordinates are exact rationals.  The A* cost values, which in the
source are real numbers of the form `a + b*sqrt 2 + sqrt c` (step costs 1 and
sqrt 2, Euclidean heuristic `sqrt (dx^2 + dz^2)`), are represented exactly by
their rational coefficients and compared by an exact sign procedure, so every
definition is executable.  The JavaScript `Map` (string keys `"gx,gz"`, which
are in bijection with integer pairs) is modelled by an insertion-ordered
association list with the exact `Map.set` / `Map.delete` semantics.
-/

namespace Nav

/- Core marks the rational-arithmetic primitives irreducible for the
elaborator; restore default transparency locally so that concrete instances
evaluate by `decide`. -/
attribute [local semireducible] Rat.add Rat.mul Rat.sub Rat.inv


/-- Rectangular room `{x, z, width, depth}` from the level schema. -/
structure RoomDef where
  x : ℚ
  z : ℚ
  width : ℚ
  depth : ℚ
deriving Repr, DecidableEq

/-- Rectangular door opening `{x, z, width}` from the level schema. -/
structure DoorDef where
  x : ℚ
  z : ℚ
  width : ℚ
deriving Repr, DecidableEq

/-- Circular-footprint prop `{x, z, scale?}` from the level schema. -/
structure PropDef where
  x : ℚ
  z : ℚ
  scale : Option ℚ
deriving Repr, DecidableEq

/-- Level schema fragment consumed by `NavMesh.build` (`props` is optional in
the source: `if (level.props)`). -/
structure LevelSchema where
  rooms : List RoomDef
  doors : List DoorDef
  props : Option (List PropDef)
deriving Repr, DecidableEq

/-- Grid cell: `{walkable: boolean, propBlocked?: boolean}`. The optional
field is `none` when absent, exactly as in the TypeScript object literals. -/
structure GridCell where
  walkable : Bool
  propBlocked : Option Bool
deriving Repr, DecidableEq

/-- Simplified waypoint `{x, z}` in world space. -/
structure PathPoint where
  x : ℚ
  z : ℚ
deriving Repr, DecidableEq

/-- Lookup in an insertion-ordered association list (JS `Map.get`).
Keys `(gx, gz) : ℤ × ℤ` stand for the source's strings `"gx,gz"`;
the string encoding is injective, so the two key types are interchangeable. -/
def mapGet {α : Type} : List ((ℤ × ℤ) × α) → (ℤ × ℤ) → Option α
  | [], _ => none
  | p :: rest, k => if p.1 = k then some p.2 else mapGet rest k

/-- JS `Map.set`: overwrite the value at an existing key in place (the entry
keeps its position), or append a fresh entry at the end. -/
def mapSet {α : Type} : List ((ℤ × ℤ) × α) → (ℤ × ℤ) → α → List ((ℤ × ℤ) × α)
  | [], k, v => [(k, v)]
  | p :: rest, k, v => if p.1 = k then (k, v) :: rest else p :: mapSet rest k v

/-- JS `Map.delete`: remove the entry with the given key, if present. -/
def mapDelete {α : Type} : List ((ℤ × ℤ) × α) → (ℤ × ℤ) → List ((ℤ × ℤ) × α)
  | [], _ => []
  | p :: rest, k => if p.1 = k then rest else p :: mapDelete rest k

/-- The cell size constant `CELL_SIZE = 0.5`. -/
def CELL_SIZE : ℚ := 1/2

/-- The prop blocking radius constant `PROP_BLOCK_RADIUS = 0.6`. -/
def PROP_BLOCK_RADIUS : ℚ := 3/5

/-- The door clearance margin constant `DOOR_CLEAR_MARGIN = 0.3`. -/
def DOOR_CLEAR_MARGIN : ℚ := 3/10

/-- The mutable fields of the `NavMesh` class. -/
structure NavMesh where
  grid : List ((ℤ × ℤ) × GridCell)
  minX : ℚ
  maxX : ℚ
  minZ : ℚ
  maxZ : ℚ
  cellSize : ℚ
deriving Repr, DecidableEq

/-- A freshly constructed `NavMesh` (field initializers of the class). -/
def NavMesh.init : NavMesh :=
  { grid := [], minX := 0, maxX := 0, minZ := 0, maxZ := 0, cellSize := CELL_SIZE }

/-- `worldToGrid`: `gx = floor((x - minX) / cellSize)`, likewise for `z`. -/
def NavMesh.worldToGrid (nm : NavMesh) (x z : ℚ) : ℤ × ℤ :=
  (⌊(x - nm.minX) / nm.cellSize⌋, ⌊(z - nm.minZ) / nm.cellSize⌋)

/-- `gridToWorld`: the world-space center of cell `(gx, gz)`. -/
def NavMesh.gridToWorld (nm : NavMesh) (gx gz : ℤ) : PathPoint :=
  ⟨nm.minX + ((gx : ℚ) + 1/2) * nm.cellSize, nm.minZ + ((gz : ℚ) + 1/2) * nm.cellSize⟩

/-- `getCell`: map lookup. -/
def NavMesh.getCell (nm : NavMesh) (gx gz : ℤ) : Option GridCell :=
  mapGet nm.grid (gx, gz)

/-- `isWalkable`: `cell?.walkable === true`; an absent cell is non-walkable. -/
def NavMesh.isWalkable (nm : NavMesh) (gx gz : ℤ) : Bool :=
  match nm.getCell gx gz with
  | some c => c.walkable
  | none => false

/-- `isBuilt`: `grid.size > 0`. -/
def NavMesh.isBuilt (nm : NavMesh) : Bool :=
  !nm.grid.isEmpty

/-- The integer range `a, a+1, ..., b` (empty when `b < a`), i.e. the index
sequence of `for (let g = a; g <= b; g++)`. -/
def intRange (a b : ℤ) : List ℤ :=
  (List.range (b + 1 - a).toNat).map (fun i => a + (i : ℤ))

/-- The double cell loop shared by the grid passes:
`for (gx = g0.1; gx <= g1.1; gx++) for (gz = g0.2; gz <= g1.2; gz++)`
folding a per-cell grid update. -/
def cellFold (g0 g1 : ℤ × ℤ)
    (f : List ((ℤ × ℤ) × GridCell) → ℤ → ℤ → List ((ℤ × ℤ) × GridCell))
    (init : List ((ℤ × ℤ) × GridCell)) : List ((ℤ × ℤ) × GridCell) :=
  (intRange g0.1 g1.1).foldl (fun acc gx =>
    (intRange g0.2 g1.2).foldl (fun acc gz => f acc gx gz) acc) init

/-- The per-cell body of the room pass: mark the cell walkable when its
center falls inside the room rectangle and it is not already prop-blocked. -/
def markRoomStep (nm : NavMesh) (xMin xMax zMin zMax : ℚ)
    (acc : List ((ℤ × ℤ) × GridCell)) (gx gz : ℤ) : List ((ℤ × ℤ) × GridCell) :=
  let c := nm.gridToWorld gx gz
  if xMin ≤ c.x ∧ c.x ≤ xMax ∧ zMin ≤ c.z ∧ c.z ≤ zMax then
    match mapGet acc (gx, gz) with
    | some cell =>
      if cell.propBlocked = some true then acc
      else mapSet acc (gx, gz) ⟨true, none⟩
    | none => mapSet acc (gx, gz) ⟨true, none⟩
  else acc

/-- `markRoomWalkable`: mark every cell whose center falls inside the room
rectangle as walkable, unless the cell is already prop-blocked. -/
def markRoomWalkable (nm : NavMesh) (room : RoomDef) : NavMesh :=
  let hw := room.width / 2
  let hd := room.depth / 2
  let xMin := room.x - hw
  let xMax := room.x + hw
  let zMin := room.z - hd
  let zMax := room.z + hd
  let g := cellFold (nm.worldToGrid xMin zMin) (nm.worldToGrid xMax zMax)
    (markRoomStep nm xMin xMax zMin zMax) nm.grid
  { nm with grid := g }

/-- The per-cell body of the door pass: force-mark the cell walkable when its
center falls inside the widened door box. -/
def markDoorStep (nm : NavMesh) (xMin xMax zMin zMax : ℚ)
    (acc : List ((ℤ × ℤ) × GridCell)) (gx gz : ℤ) : List ((ℤ × ℤ) × GridCell) :=
  let c := nm.gridToWorld gx gz
  if xMin ≤ c.x ∧ c.x ≤ xMax ∧ zMin ≤ c.z ∧ c.z ≤ zMax then
    mapSet acc (gx, gz) ⟨true, none⟩
  else acc

/-- `markDoorWalkable`: force-mark every cell whose center falls inside the
door opening widened by `DOOR_CLEAR_MARGIN` as walkable. -/
def markDoorWalkable (nm : NavMesh) (door : DoorDef) : NavMesh :=
  let halfW := door.width / 2 + DOOR_CLEAR_MARGIN
  let xMin := door.x - halfW
  let xMax := door.x + halfW
  let zMin := door.z - halfW
  let zMax := door.z + halfW
  let g := cellFold (nm.worldToGrid xMin zMin) (nm.worldToGrid xMax zMax)
    (markDoorStep nm xMin xMax zMin zMax) nm.grid
  { nm with grid := g }

/-- The per-cell body of the prop pass: block the cell when its center lies
within the scaled prop radius of the prop position. -/
def blockPropStep (nm : NavMesh) (px pz radius : ℚ)
    (acc : List ((ℤ × ℤ) × GridCell)) (gx gz : ℤ) : List ((ℤ × ℤ) × GridCell) :=
  let c := nm.gridToWorld gx gz
  let dx := c.x - px
  let dz := c.z - pz
  if dx * dx + dz * dz ≤ radius * radius then
    mapSet acc (gx, gz) ⟨false, some true⟩
  else acc

/-- `blockProp`: block every cell whose center lies within the scaled prop
radius of the prop position. -/
def blockProp (nm : NavMesh) (prop : PropDef) : NavMesh :=
  let scale := prop.scale.getD 1
  let radius := PROP_BLOCK_RADIUS * scale
  let xMin := prop.x - radius
  let xMax := prop.x + radius
  let zMin := prop.z - radius
  let zMax := prop.z + radius
  let g := cellFold (nm.worldToGrid xMin zMin) (nm.worldToGrid xMax zMax)
    (blockPropStep nm prop.x prop.z radius) nm.grid
  { nm with grid := g }

/-- One step of the bounds fold of `build`: the state is the `first` flag
together with the running `(minX, maxX, minZ, maxZ)`. -/
def boundsStep (st : Bool × ℚ × ℚ × ℚ × ℚ) (room : RoomDef) : Bool × ℚ × ℚ × ℚ × ℚ :=
  let hw := room.width / 2
  let hd := room.depth / 2
  let rxMin := room.x - hw
  let rxMax := room.x + hw
  let rzMin := room.z - hd
  let rzMax := room.z + hd
  if st.1 then (false, rxMin, rxMax, rzMin, rzMax)
  else (false, min st.2.1 rxMin, max st.2.2.1 rxMax,
        min st.2.2.2.1 rzMin, max st.2.2.2.2 rzMax)

/-- The bounds pass of `build`: fold over the rooms with the `first` flag,
then add the fixed padding `pad = 2` on every side. -/
def computeBounds (nm : NavMesh) (rooms : List RoomDef) : NavMesh :=
  let s := rooms.foldl boundsStep (true, nm.minX, nm.maxX, nm.minZ, nm.maxZ)
  { nm with minX := s.2.1 - 2, maxX := s.2.2.1 + 2,
            minZ := s.2.2.2.1 - 2, maxZ := s.2.2.2.2 + 2 }

/-- The marking passes of `build` after the bounds are fixed: rooms, then
doors, then props. -/
def buildMarks (nm : NavMesh) (level : LevelSchema) : NavMesh :=
  let nm2 := level.rooms.foldl markRoomWalkable nm
  let nm3 := level.doors.foldl markDoorWalkable nm2
  match level.props with
  | some props => props.foldl blockProp nm3
  | none => nm3

/-- `build(level)`: clear the grid, recompute padded bounds from the rooms,
then mark rooms, doors, and finally props, in that order. -/
def build (nm : NavMesh) (level : LevelSchema) : NavMesh :=
  buildMarks (computeBounds { nm with grid := [] } level.rooms) level

/-- The per-cell body of `unblockAt`: re-open the cell when it is currently
`propBlocked` and its center lies within the radius of the point. -/
def unblockStep (nm : NavMesh) (x z radius : ℚ)
    (acc : List ((ℤ × ℤ) × GridCell)) (gx gz : ℤ) : List ((ℤ × ℤ) × GridCell) :=
  match mapGet acc (gx, gz) with
  | some cell =>
    if cell.propBlocked = some true then
      let c := nm.gridToWorld gx gz
      let dx := c.x - x
      let dz := c.z - z
      if dx * dx + dz * dz ≤ radius * radius then
        mapSet acc (gx, gz) ⟨true, none⟩
      else acc
    else acc
  | none => acc

/-- `unblockAt(x, z, radius)`: re-open every `propBlocked` cell whose center
lies within `radius` of the point. -/
def unblockAt (nm : NavMesh) (x z radius : ℚ) : NavMesh :=
  let xMin := x - radius
  let xMax := x + radius
  let zMin := z - radius
  let zMax := z + radius
  let g := cellFold (nm.worldToGrid xMin zMin) (nm.worldToGrid xMax zMax)
    (unblockStep nm x z radius) nm.grid
  { nm with grid := g }

/-- A sequence of `unblockAt` calls applied in order. -/
def applyUnblocks (nm : NavMesh) (ops : List (ℚ × ℚ × ℚ)) : NavMesh :=
  ops.foldl (fun nm o => unblockAt nm o.1 o.2.1 o.2.2) nm

/-- The scan order of the expanding Chebyshev ring search in
`nearestWalkable`: for each radius `r = 1..20`, offsets `(dgx, dgz)` in the
nested-loop order, keeping only ring cells (`|dgx| = r` or `|dgz| = r`). -/
def ringOffsets : List (ℤ × ℤ) :=
  (List.range 20).flatMap (fun rp =>
    let r : ℤ := (rp : ℤ) + 1
    (intRange (-r) r).flatMap (fun dgx =>
      (intRange (-r) r).filterMap (fun dgz =>
        if |dgx| ≠ r ∧ |dgz| ≠ r then none else some (dgx, dgz))))

/-- `nearestWalkable(x, z)`: the same point if its cell is walkable, else the
center of the first walkable cell found on expanding rings up to radius 20,
else `null`. -/
def NavMesh.nearestWalkable (nm : NavMesh) (x z : ℚ) : Option PathPoint :=
  let s := nm.worldToGrid x z
  if nm.isWalkable s.1 s.2 then some ⟨x, z⟩
  else
    match ringOffsets.find? (fun d => nm.isWalkable (s.1 + d.1) (s.2 + d.2)) with
    | some d => some (nm.gridToWorld (s.1 + d.1) (s.2 + d.2))
    | none => none

/-- Exact representation of a real number of the form `a + b * sqrt 2`
(the accumulated A* path costs: orthogonal steps contribute to `a`,
diagonal steps to `b`). -/
structure Q2 where
  a : ℚ
  b : ℚ
deriving Repr, DecidableEq

/-- Addition on `Q2`. -/
def Q2.add (p q : Q2) : Q2 := ⟨p.a + q.a, p.b + q.b⟩

/-- Subtraction on `Q2`. -/
def Q2.sub (p q : Q2) : Q2 := ⟨p.a - q.a, p.b - q.b⟩

/-- Multiplication on `Q2`: `(a + b√2)(c + d√2) = (ac + 2bd) + (ad + bc)√2`. -/
def Q2.mul (p q : Q2) : Q2 := ⟨p.a * q.a + 2 * p.b * q.b, p.a * q.b + p.b * q.a⟩

/-- The rational `q` as an element of `Q2`. -/
def Q2.ofRat (q : ℚ) : Q2 := ⟨q, 0⟩

/-- Exact sign (`-1`, `0`, `1`) of the real number `a + b * sqrt 2`. -/
def Q2.sign (p : Q2) : ℤ :=
  if 0 ≤ p.a ∧ 0 ≤ p.b then (if p.a = 0 ∧ p.b = 0 then 0 else 1)
  else if p.a ≤ 0 ∧ p.b ≤ 0 then -1
  else if 0 < p.a then
    (if 2 * p.b ^ 2 < p.a ^ 2 then 1 else if p.a ^ 2 = 2 * p.b ^ 2 then 0 else -1)
  else
    (if p.a ^ 2 < 2 * p.b ^ 2 then 1 else if p.a ^ 2 = 2 * p.b ^ 2 then 0 else -1)

/-- Exact sign of the real number `α + β * sqrt c` for `α, β : Q2` and a
nonnegative rational radicand `c` (a value in the field `ℚ(√2, √c)`). -/
def q2rsign (al be : Q2) (c : ℚ) : ℤ :=
  if c ≤ 0 then al.sign
  else
    let sa := al.sign
    let sb := be.sign
    if sb = 0 then sa
    else if sa = 0 then sb
    else if sa = sb then sa
    else
      let d := (al.mul al).sub ((be.mul be).mul (Q2.ofRat c))
      if sa = 1 then d.sign else -d.sign

/-- Exact representation of a real number of the form `q + sqrt r` with
`q : Q2` and a nonnegative rational radicand `r`: the `f = g + h` values of
A* nodes (`g` a sum of step costs, `h = sqrt (dx^2 + dz^2)`). -/
structure FVal where
  q : Q2
  r : ℚ
deriving Repr, DecidableEq

/-- Exact sign of the real difference `f - g` of two `FVal`s, i.e. of
`(f.q - g.q) + sqrt f.r - sqrt g.r`. -/
def fCmpSign (f g : FVal) : ℤ :=
  let d := f.q.sub g.q
  let su := q2rsign d ⟨1, 0⟩ f.r
  if su < 0 then -1
  else if su = 0 then (if 0 < g.r then -1 else 0)
  else q2rsign (((d.mul d).add (Q2.ofRat f.r)).sub (Q2.ofRat g.r)) (d.add d) f.r

/-- The comparison `f < g` on A* f-values (`Number` comparison in the source,
decided exactly here). -/
def FVal.lt (f g : FVal) : Bool := fCmpSign f g < 0

/-- The comparison `g < g'` on accumulated costs. -/
def Q2.lt (p q : Q2) : Bool := (p.sub q).sign < 0

/-- The transient A* search node `{gx, gz, g, h, f, parent}`.  The heuristic
`h = sqrt (dx^2 + dz^2)` is stored by its radicand `hrad = dx^2 + dz^2`;
`f` is the exact value `g + h`.  The source's `parent` object reference is
stored as the parent's key: a node is only ever referenced as a parent after
it has been popped, so its final value is found in the closed map. -/
structure PathNode where
  gx : ℤ
  gz : ℤ
  g : Q2
  hrad : ℚ
  f : FVal
  parent : Option (ℤ × ℤ)
deriving Repr, DecidableEq

/-- The radicand of the Euclidean heuristic between two cells. -/
def heuristicRad (gx gz endGx endGz : ℤ) : ℚ :=
  (((endGx - gx) ^ 2 + (endGz - gz) ^ 2 : ℤ) : ℚ)

/-- The neighbor direction table of `findPath`; the first four entries cost 1,
the last four cost `sqrt 2`. -/
def dirs : List (ℤ × ℤ) :=
  [(0, -1), (1, 0), (0, 1), (-1, 0), (1, -1), (1, 1), (-1, 1), (-1, -1)]

/-- The open-set scan `for (const n of open.values())` keeping the first
strictly smallest `f` (initial `bestF = Infinity`, so the first entry is
always taken). -/
def pickBest (opn : List ((ℤ × ℤ) × PathNode)) : Option PathNode :=
  opn.foldl (fun best p =>
    match best with
    | none => some p.2
    | some b => if p.2.f.lt b.f then some p.2 else best) none

/-- Neighbor expansion of the popped node `cur`: skip closed or non-walkable
cells; insert new open nodes, or relax existing ones when the tentative `g`
is smaller. -/
def expand (nm : NavMesh) (endGx endGz : ℤ) (cur : PathNode)
    (closed : List ((ℤ × ℤ) × PathNode)) (opn : List ((ℤ × ℤ) × PathNode)) :
    List ((ℤ × ℤ) × PathNode) :=
  dirs.enum.foldl (fun op (i, d) =>
    let ngx := cur.gx + d.1
    let ngz := cur.gz + d.2
    if (mapGet closed (ngx, ngz)).isSome then op
    else if ¬ nm.isWalkable ngx ngz then op
    else
      let cost : Q2 := if i < 4 then ⟨1, 0⟩ else ⟨0, 1⟩
      let g := cur.g.add cost
      match mapGet op (ngx, ngz) with
      | none =>
        let hr := heuristicRad ngx ngz endGx endGz
        mapSet op (ngx, ngz) ⟨ngx, ngz, g, hr, ⟨g, hr⟩, some (cur.gx, cur.gz)⟩
      | some nb =>
        if g.lt nb.g then
          mapSet op (ngx, ngz) { nb with g := g, f := ⟨g, nb.hrad⟩, parent := some (cur.gx, cur.gz) }
        else op) opn

/-- The parent-pointer walk of `reconstructPath` (`path.unshift` builds the
list front-to-back, modelled by consing onto the accumulator).  The fuel only
bounds the walk length; the parent chain of a goal node is acyclic and no
longer than the closed map, so the fuel used by `findPath` never runs out. -/
def walkParents (nm : NavMesh) (closed : List ((ℤ × ℤ) × PathNode)) :
    ℕ → PathNode → List PathPoint → List PathPoint
  | 0, _, acc => acc
  | fuel + 1, n, acc =>
    let acc2 := nm.gridToWorld n.gx n.gz :: acc
    match n.parent with
    | none => acc2
    | some pk =>
      match mapGet closed pk with
      | none => acc2
      | some pn => walkParents nm closed fuel pn acc2

/-- `simplifyPath`: drop interior points whose consecutive segment vectors
have cross product of magnitude at most `0.01`. -/
def simplifyPath (path : List PathPoint) : List PathPoint :=
  if path.length ≤ 2 then path
  else
    let d0 : PathPoint := ⟨0, 0⟩
    let front := (List.range (path.length - 2)).foldl (fun out j =>
      let i := j + 1
      let prev := path.getD (i - 1) d0
      let curr := path.getD i d0
      let next := path.getD (i + 1) d0
      let dx1 := curr.x - prev.x
      let dz1 := curr.z - prev.z
      let dx2 := next.x - curr.x
      let dz2 := next.z - curr.z
      let cross := dx1 * dz2 - dz1 * dx2
      if |cross| > 1/100 then out ++ [curr] else out) [path.getD 0 d0]
    front ++ [path.getD (path.length - 1) d0]

/-- `reconstructPath`: walk the parent chain from the goal node, then
simplify. -/
def reconstructPath (nm : NavMesh) (closed : List ((ℤ × ℤ) × PathNode))
    (node : PathNode) : List PathPoint :=
  simplifyPath (walkParents nm closed (closed.length + 1) node [])

/-- The main A* loop `while (open.size > 0)`.  Each iteration closes a fresh
walkable key, so the number of iterations is bounded by the grid size; the
fuel supplied by `findPath` (`grid.length + 1`) therefore never runs out. -/
def astarLoop (nm : NavMesh) (endGx endGz : ℤ) :
    ℕ → List ((ℤ × ℤ) × PathNode) → List ((ℤ × ℤ) × PathNode) → List PathPoint
  | 0, _, _ => []
  | fuel + 1, opn, closed =>
    if opn.isEmpty then []
    else
      match pickBest opn with
      | none => []
      | some cur =>
        let ck := (cur.gx, cur.gz)
        let op2 := mapDelete opn ck
        let closed2 := mapSet closed ck cur
        if cur.gx = endGx ∧ cur.gz = endGz then reconstructPath nm closed2 cur
        else astarLoop nm endGx endGz fuel (expand nm endGx endGz cur closed2 op2) closed2

/-- `findPath(fromX, fromZ, toX, toZ)`: snap both endpoints, return `[]` on a
failed snap, the single snapped destination when both endpoints share a cell,
and otherwise the simplified A* path. -/
def NavMesh.findPath (nm : NavMesh) (fromX fromZ toX toZ : ℚ) : List PathPoint :=
  match nm.nearestWalkable fromX fromZ, nm.nearestWalkable toX toZ with
  | some s, some e =>
    let sg := nm.worldToGrid s.x s.z
    let eg := nm.worldToGrid e.x e.z
    if sg = eg then [e]
    else
      let hr := heuristicRad sg.1 sg.2 eg.1 eg.2
      let startNode : PathNode := ⟨sg.1, sg.2, ⟨0, 0⟩, hr, ⟨⟨0, 0⟩, hr⟩, none⟩
      astarLoop nm eg.1 eg.2 (nm.grid.length + 1) [((sg.1, sg.2), startNode)] []
  | _, _ => []

/-! ### Path follower (`path-follower.ts`)

The follower's control flow compares only squared distances and exact
rationals; the square root appears solely when producing the normalized
direction components `dx / len` (and in dead `len < 0.01` guards that sit
behind a squared-distance check of a larger radius).  The embedding is
therefore parameterized by an abstract square-root evaluation `sq : ℚ → ℚ`;
all theorems below hold for every `sq`, which shows the claimed properties
are independent of the numeric square root. -/

/-- The arrival radius constant `PATH_ARRIVE_RADIUS = 0.5`. -/
def PATH_ARRIVE_RADIUS : ℚ := 1/2

/-- The recompute throttle constant `RECOMPUTE_PATH_INTERVAL = 0.5`. -/
def RECOMPUTE_PATH_INTERVAL : ℚ := 1/2

/-- Cached path and state for path following
(`{path, index, lastRecomputeTime}`). -/
structure PFState where
  path : List PathPoint
  index : ℕ
  lastRecomputeTime : ℚ
deriving Repr, DecidableEq

/-- The fresh state object `{ path: [], index: 0, lastRecomputeTime: 0 }`
created by `pathState ?? {...}`. -/
def freshPF : PFState := ⟨[], 0, 0⟩

/-- The recompute condition of `getMoveDirection`:
`path.length === 0 || index >= path.length || now - lastRecomputeTime > 0.5`. -/
def needRecompute (s : PFState) (now : ℚ) : Bool :=
  decide (s.path.length = 0) || decide (s.path.length ≤ s.index) ||
    decide (RECOMPUTE_PATH_INTERVAL < now - s.lastRecomputeTime)

/-- The waypoint-advance loop: `while (index < path.length)` increment the
index while the waypoint lies within the arrival radius of the position.
The fuel passed by `getMoveDirection` (`path.length + 1`) always suffices,
because the loop stops once the index reaches the path length. -/
def advanceIndex (path : List PathPoint) (posX posZ : ℚ) : ℕ → ℕ → ℕ
  | i, 0 => i
  | i, fuel + 1 =>
    match path.get? i with
    | none => i
    | some pt =>
      if (pt.x - posX) * (pt.x - posX) + (pt.z - posZ) * (pt.z - posZ) <
          PATH_ARRIVE_RADIUS * PATH_ARRIVE_RADIUS then
        advanceIndex path posX posZ (i + 1) fuel
      else i

/-- Result of `getMoveDirection`: `dir` is `none` for a `null` return, and
`st` is the final contents of the `PathFollowState` object the call used
(the caller's object when one was passed — it is mutated in place — or the
freshly created one). A returned direction `(dx, dz)` stands for the
normalized vector `(dx/len, dz/len)` computed with the abstract `sq`. -/
structure GMDOut where
  dir : Option (ℚ × ℚ)
  st : PFState
deriving Repr, DecidableEq

/-- The direct-movement fallback block of `getMoveDirection` (no navmesh, or
recompute produced an empty path): normalized vector straight to the target,
`null` when degenerate.  `distSq` is the squared distance to the target. -/
def gmdDirect (sq : ℚ → ℚ) (dx dz distSq : ℚ) (st : PFState) : GMDOut :=
  let len := sq distSq
  if len < 1/100 then ⟨none, st⟩
  else ⟨some (dx / len, dz / len), st⟩

/-- The waypoint-following block of `getMoveDirection`: advance the index
past reached waypoints, then either treat the true target directly (end of
path) or head for the current waypoint. -/
def gmdRest (sq : ℚ → ℚ) (posX posZ dx dz distSq : ℚ) (st : PFState) : GMDOut :=
  let idx := advanceIndex st.path posX posZ st.index (st.path.length + 1)
  let st2 : PFState := { st with index := idx }
  if st2.path.length ≤ st2.index then
    let len := sq distSq
    if len < PATH_ARRIVE_RADIUS then ⟨none, st2⟩
    else ⟨some (dx / len, dz / len), st2⟩
  else
    match st2.path.get? st2.index with
    | none => ⟨none, st2⟩
    | some pt =>
      let toPx := pt.x - posX
      let toPz := pt.z - posZ
      let len := sq (toPx * toPx + toPz * toPz)
      if len < 1/100 then ⟨none, st2⟩
      else ⟨some (toPx / len, toPz / len), st2⟩

/-- `getMoveDirection(navMesh, pos, targetX, targetZ, pathState, now)`. -/
def getMoveDirection (sq : ℚ → ℚ) (nav : Option NavMesh) (posX posZ targetX targetZ : ℚ)
    (pathState : Option PFState) (now : ℚ) : GMDOut :=
  let dx := targetX - posX
  let dz := targetZ - posZ
  let distSq := dx * dx + dz * dz
  if distSq < PATH_ARRIVE_RADIUS * PATH_ARRIVE_RADIUS then
    ⟨none, pathState.getD freshPF⟩
  else
    match nav with
    | none => gmdDirect sq dx dz distSq (pathState.getD freshPF)
    | some nm =>
      if nm.isBuilt = false then gmdDirect sq dx dz distSq (pathState.getD freshPF)
      else
        let state0 := pathState.getD freshPF
        if needRecompute state0 now then
          let path := nm.findPath posX posZ targetX targetZ
          let state1 : PFState := ⟨path, 0, now⟩
          if path.isEmpty then gmdDirect sq dx dz distSq state1
          else gmdRest sq posX posZ dx dz distSq state1
        else gmdRest sq posX posZ dx dz distSq state0

/-- The caller-visible path state after a call: callers run
`if (result) pathState = result.pathState`, and when `null` is returned they
keep their reference to the state object, which `getMoveDirection` may have
mutated in place (a caller that passed `null` keeps `null`). -/
def keepState (orig : Option PFState) (o : GMDOut) : Option PFState :=
  match o.dir with
  | some _ => some o.st
  | none =>
    match orig with
    | some _ => some o.st
    | none => none

/-- One `getMoveDirection` call site: position, target and clock value. -/
structure CallIn where
  posX : ℚ
  posZ : ℚ
  targetX : ℚ
  targetZ : ℚ
  now : ℚ
deriving Repr, DecidableEq

/-- `findPath` is invoked to overwrite the cached path exactly when the call
is not an early arrival return, the grid is built, and the recompute
condition holds on the state object (a `none` state behaves as the fresh
object with an empty cached path). -/
def recomputeEvent (nm : NavMesh) (c : CallIn) (s : Option PFState) : Bool :=
  let dx := c.targetX - c.posX
  let dz := c.targetZ - c.posZ
  decide (¬ (dx * dx + dz * dz < PATH_ARRIVE_RADIUS * PATH_ARRIVE_RADIUS)) &&
    nm.isBuilt && needRecompute (s.getD freshPF) c.now

/-- The caller-visible path state after a sequence of `getMoveDirection`
calls against the navmesh `nm`, threading the state as the call sites do. -/
def stateAfter (sq : ℚ → ℚ) (nm : NavMesh) (calls : List CallIn) (s : Option PFState) :
    Option PFState :=
  calls.foldl (fun s c =>
    keepState s (getMoveDirection sq (some nm) c.posX c.posZ c.targetX c.targetZ s c.now)) s

/-- The cached path is exhausted: the waypoint index is at or beyond the
path length (a `none` state counts as the fresh empty-path object). -/
def exhausted (s : Option PFState) : Prop :=
  (s.getD freshPF).path.length ≤ (s.getD freshPF).index

/-! ### Combat states (`patrol-state.ts` part, `alert-state.ts`, `attack-state.ts`)

Calls into the agent manager and the agent's model/transform are recorded as
an effect trace.  Per-frame perception, player position, repulsion force,
fire-cooldown permission (`enemy.canFire`, defined outside this core) and the
random draws are inputs. -/

/-- Externally supplied perception snapshot. -/
structure Perception where
  canSeePlayer : Bool
  canHearPlayer : Bool
  distanceToPlayer : ℚ
deriving Repr, DecidableEq

/-- The agent fields this core reads or writes. -/
structure Enemy where
  posX : ℚ
  posZ : ℚ
  lastKnownPlayerPos : Option PathPoint
  lastFireTime : ℚ
  waypoints : List PathPoint
deriving Repr, DecidableEq

/-- Observable calls a state makes on the manager, the model and the agent
transform, in program order. -/
inductive Eff where
  | play (anim : String)
  | playForce (anim : String)
  | lookAt (x z : ℚ)
  | fireAtPlayer
  | syncPhysics
  | propagateAlert
  | transition (target : String)
deriving Repr, DecidableEq

/-- Per-frame external inputs of an attack-state `update`. -/
structure FrameIn where
  perception : Option Perception
  playerPosX : ℚ
  playerPosZ : ℚ
  repulsionX : ℚ
  repulsionZ : ℚ
  navMesh : Option NavMesh
  now : ℚ
  canFire : Bool
  strafeRand : ℚ
deriving Repr, DecidableEq

/-- The constant `PATROL_SPEED = 1.8` (patrol state). -/
def PATROL_SPEED : ℚ := 9/5

/-- The constant `ALERT_DURATION = 2.0` (alert state). -/
def ALERT_DURATION : ℚ := 2

/-- The constant `PREFERRED_RANGE = 8` (attack state). -/
def PREFERRED_RANGE : ℚ := 8

/-- The constant `MOVE_SPEED = 2` (attack state). -/
def MOVE_SPEED : ℚ := 2

/-- The constant `LOSE_SIGHT_TIMEOUT = 3` (attack state). -/
def LOSE_SIGHT_TIMEOUT : ℚ := 3

/-- The constant `SHOOT_ANIM_MIN_DURATION = 0.25` (attack state). -/
def SHOOT_ANIM_MIN_DURATION : ℚ := 1/4

/-- The constant `CHASE_ARRIVE_RADIUS = 1` (attack state). -/
def CHASE_ARRIVE_RADIUS : ℚ := 1

/-- Closure state of the patrol behavior module. -/
structure PatrolSt where
  waypointIndex : ℕ
  seenPlayerTimer : ℚ
  pathState : Option PFState
deriving Repr, DecidableEq

/-- Closure state of the alert behavior module. -/
structure AlertSt where
  timer : ℚ
  seenPlayerTimer : ℚ
  pathState : Option PFState
deriving Repr, DecidableEq

/-- Closure state of the attack behavior module. -/
structure AttackSt where
  lostSightTimer : ℚ
  strafeDir : ℚ
  strafeTimer : ℚ
  shootDisplayTimer : ℚ
  pathState : Option PFState
deriving Repr, DecidableEq

/-- The patrol state's `enter(enemy)`: bail out on an empty waypoint list,
else reset the waypoint index and path cache, play `walk`, and face the
first waypoint. -/
def patrolEnter (e : Enemy) (s : PatrolSt) : PatrolSt × List Eff :=
  match e.waypoints with
  | [] => (s, [])
  | w :: _ =>
    ({ s with waypointIndex := 0, pathState := none },
     [Eff.play "walk", Eff.lookAt w.x w.z])

/-- The alert state's `enter(enemy)`: refill the alert timer, reset the path
cache, play `alert`, face the last known player position when one exists,
and propagate the alert. -/
def alertEnter (e : Enemy) (s : AlertSt) : AlertSt × List Eff :=
  ({ s with timer := ALERT_DURATION, pathState := none },
   [Eff.play "alert"] ++
     (match e.lastKnownPlayerPos with
      | some p => [Eff.lookAt p.x p.z]
      | none => []) ++
     [Eff.propagateAlert])

/-- The attack state's `enter(enemy)`: reset the lose-sight timer and path
cache, draw the strafe direction (`Math.random() > 0.5 ? 1 : -1`) and the
strafe re-pick timer (`1 + Math.random() * 2`), play `shoot`, and propagate
the alert. -/
def attackEnter (rand1 rand2 : ℚ) (_e : Enemy) (s : AttackSt) : AttackSt × List Eff :=
  ({ s with lostSightTimer := 0, pathState := none,
            strafeDir := if rand1 > 1/2 then 1 else -1,
            strafeTimer := 1 + rand2 * 2 },
   [Eff.play "shoot", Eff.propagateAlert])

/-- The three movement branches of the attack state's seen-player logic. -/
inductive AttackBranch where
  | approach
  | retreat
  | strafe
deriving Repr, DecidableEq

/-- The branch conditional of the attack state's movement section:
`dist > PREFERRED_RANGE + 2` approaches, else `dist < PREFERRED_RANGE - 2`
retreats, else strafes. -/
def attackBranchOf (dist : ℚ) : AttackBranch :=
  if dist > PREFERRED_RANGE + 2 then .approach
  else if dist < PREFERRED_RANGE - 2 then .retreat
  else .strafe

/-- The movement section of the attack state while the player is seen,
dispatching on `attackBranchOf dist`. -/
def attackMove (sq : ℚ → ℚ) (fin : FrameIn) (dt : ℚ) (e : Enemy) (s : AttackSt)
    (dist : ℚ) : Enemy × AttackSt :=
  match attackBranchOf dist with
  | .approach =>
    let r := getMoveDirection sq fin.navMesh e.posX e.posZ fin.playerPosX fin.playerPosZ
      s.pathState fin.now
    (match r.dir with
     | some d =>
       ({ e with posX := e.posX + (d.1 + fin.repulsionX * (4/5)) * MOVE_SPEED * dt,
                 posZ := e.posZ + (d.2 + fin.repulsionZ * (4/5)) * MOVE_SPEED * dt },
        { s with pathState := keepState s.pathState r })
     | none => (e, { s with pathState := keepState s.pathState r }))
  | .retreat =>
    let awayX := e.posX - (fin.playerPosX - e.posX)
    let awayZ := e.posZ - (fin.playerPosZ - e.posZ)
    let r := getMoveDirection sq fin.navMesh e.posX e.posZ awayX awayZ s.pathState fin.now
    (match r.dir with
     | some d =>
       ({ e with posX := e.posX + (d.1 + fin.repulsionX * (4/5)) * MOVE_SPEED * (1/2) * dt,
                 posZ := e.posZ + (d.2 + fin.repulsionZ * (4/5)) * MOVE_SPEED * (1/2) * dt },
        { s with pathState := keepState s.pathState r })
     | none => (e, { s with pathState := keepState s.pathState r }))
  | .strafe =>
    let s0 : AttackSt := { s with pathState := none }
    let tx := fin.playerPosX - e.posX
    let tz := fin.playerPosZ - e.posZ
    let len := sq (tx * tx + tz * tz)
    let tpx := tx / len
    let tpz := tz / len
    let st := s0.strafeTimer - dt
    let s1 : AttackSt :=
      if st ≤ 0 then
        { s0 with strafeDir := -s0.strafeDir, strafeTimer := 1 + fin.strafeRand * 2 }
      else { s0 with strafeTimer := st }
    let rightX := -tpz
    let rightZ := tpx
    ({ e with
       posX := e.posX + (rightX * s1.strafeDir * (1/2) + fin.repulsionX * (4/5)) * MOVE_SPEED * dt,
       posZ := e.posZ + (rightZ * s1.strafeDir * (1/2) + fin.repulsionZ * (4/5)) * MOVE_SPEED * dt },
     s1)

/-- The attack state's `update` body while `perception?.canSeePlayer`:
reset the lose-sight timer, refresh the last known position, face the
player, run the fire-cooldown/animation logic, move by range band, and sync
the physics body. -/
def attackSeen (sq : ℚ → ℚ) (fin : FrameIn) (dt : ℚ) (e : Enemy) (s : AttackSt)
    (p : Perception) : Enemy × AttackSt × List Eff :=
  let s0 : AttackSt := { s with lostSightTimer := 0 }
  let e0 : Enemy := { e with lastKnownPlayerPos := some ⟨fin.playerPosX, fin.playerPosZ⟩ }
  let effs0 := [Eff.lookAt fin.playerPosX fin.playerPosZ]
  let s1 : AttackSt :=
    if s0.shootDisplayTimer > 0 then { s0 with shootDisplayTimer := s0.shootDisplayTimer - dt }
    else s0
  let fired :=
    if fin.canFire then
      ({ e0 with lastFireTime := fin.now },
       { s1 with shootDisplayTimer := SHOOT_ANIM_MIN_DURATION },
       effs0 ++ [Eff.playForce "shoot", Eff.fireAtPlayer])
    else (e0, s1, effs0)
  let moved := attackMove sq fin dt fired.1 fired.2.1 p.distanceToPlayer
  (moved.1, moved.2,
   fired.2.2 ++ (if moved.2.shootDisplayTimer ≤ 0 then [Eff.play "walk"] else []) ++
     [Eff.syncPhysics])

/-- The attack state's `update` body while the player is not seen:
accumulate the lose-sight timer, chase the last known position when beyond
the chase arrival radius, and transition to `alert` once the timer reaches
the timeout. -/
def attackUnseen (sq : ℚ → ℚ) (fin : FrameIn) (dt : ℚ) (e : Enemy) (s : AttackSt) :
    Enemy × AttackSt × List Eff :=
  let s1 : AttackSt := { s with lostSightTimer := s.lostSightTimer + dt }
  let chased : Enemy × AttackSt × List Eff :=
    match e.lastKnownPlayerPos with
    | some target =>
      let dx := target.x - e.posX
      let dz := target.z - e.posZ
      let dist := sq (dx * dx + dz * dz)
      let inner : Enemy × AttackSt × List Eff :=
        if dist > CHASE_ARRIVE_RADIUS then
          let r := getMoveDirection sq fin.navMesh e.posX e.posZ target.x target.z
            s1.pathState fin.now
          match r.dir with
          | some d =>
            ({ e with posX := e.posX + (d.1 + fin.repulsionX * (4/5)) * MOVE_SPEED * dt,
                      posZ := e.posZ + (d.2 + fin.repulsionZ * (4/5)) * MOVE_SPEED * dt },
             { s1 with pathState := keepState s1.pathState r },
             [Eff.play "walk", Eff.lookAt (e.posX + d.1) (e.posZ + d.2)])
          | none =>
            (e, { s1 with pathState := keepState s1.pathState r }, [Eff.play "walk"])
        else (e, s1, [])
      (inner.1, inner.2.1, inner.2.2 ++ [Eff.syncPhysics])
    | none => (e, s1, [])
  (chased.1, chased.2.1,
   chased.2.2 ++
     (if chased.2.1.lostSightTimer ≥ LOSE_SIGHT_TIMEOUT then [Eff.transition "alert"] else []))

/-- The hearing block at the end of the attack state's `update`: refresh the
last known player position and reset the lose-sight timer. -/
def attackHear (fin : FrameIn) (out : Enemy × AttackSt × List Eff) :
    Enemy × AttackSt × List Eff :=
  ({ out.1 with lastKnownPlayerPos := some ⟨fin.playerPosX, fin.playerPosZ⟩ },
   { out.2.1 with lostSightTimer := 0 }, out.2.2)

/-- The attack state's full `update(enemy, dt)`: the seen/unseen body
followed by the hearing block (`perception?.canHearPlayer` is falsy when the
perception snapshot is absent, so the block runs only in the `some` case). -/
def attackUpdate (sq : ℚ → ℚ) (fin : FrameIn) (dt : ℚ) (e : Enemy) (s : AttackSt) :
    Enemy × AttackSt × List Eff :=
  match fin.perception with
  | some p =>
    let stepped :=
      if p.canSeePlayer then attackSeen sq fin dt e s p else attackUnseen sq fin dt e s
    if p.canHearPlayer then attackHear fin stepped else stepped
  | none => attackUnseen sq fin dt e s

/-- Run a sequence of attack-state updates, collecting each frame's effect
trace. -/
def runAttack (sq : ℚ → ℚ) : List (FrameIn × ℚ) → Enemy → AttackSt →
    Enemy × AttackSt × List (List Eff)
  | [], e, s => (e, s, [])
  | f :: rest, e, s =>
    let step := attackUpdate sq f.1 f.2 e s
    let tail := runAttack sq rest step.1 step.2.1
    (tail.1, tail.2.1, step.2.2 :: tail.2.2)

/-- A frame in which the player is neither seen nor heard (including an
absent perception snapshot). -/
def noSeeHear (fin : FrameIn) : Prop :=
  match fin.perception with
  | some p => p.canSeePlayer = false ∧ p.canHearPlayer = false
  | none => True

/-- The sum of the `dt` arguments of a frame sequence. -/
def sumDts (frames : List (FrameIn × ℚ)) : ℚ :=
  (frames.map (fun f => f.2)).sum

/-- A transition to the named state occurs somewhere in a run's effect
traces. -/
def transitioned (out : List (List Eff)) (target : String) : Prop :=
  ∃ l ∈ out, Eff.transition target ∈ l

/-! ### Concrete instances used by witnesses and counterexamples -/

/-- A level with a single 2x2 room at the origin. -/
def lvl2 : LevelSchema := ⟨[⟨0, 0, 2, 2⟩], [], none⟩

/-- The navmesh built from `lvl2`. -/
def nm2 : NavMesh := build NavMesh.init lvl2

/-- A level with a single 4x4 room at the origin. -/
def lvl4 : LevelSchema := ⟨[⟨0, 0, 4, 4⟩], [], none⟩

/-- The navmesh built from `lvl4`. -/
def nm4 : NavMesh := build NavMesh.init lvl4

/-- A level with a 2x2 room at the origin and a door far outside the room
bounds (at `x = 100`). -/
def lvlFarDoor : LevelSchema := ⟨[⟨0, 0, 2, 2⟩], [⟨100, 0, 1⟩], none⟩

/-- The navmesh built from `lvlFarDoor`. -/
def nmFarDoor : NavMesh := build NavMesh.init lvlFarDoor

/-- A nondegenerate square-root evaluation for concrete runs: its exact
values are irrelevant to the proved properties, but `q + 1 ≥ 1` on the
nonnegative arguments that occur keeps every length guard on its live
branch. -/
def sqOne : ℚ → ℚ := fun q => q + 1

/-- First call of the concrete follower trace. -/
def pfCall1 : CallIn := ⟨0, 0, 2, 0, 1⟩

/-- Second call of the concrete follower trace (0.2 s later, standing on the
final waypoint). -/
def pfCall2 : CallIn := ⟨3/4, -7/10, 2, 0, 6/5⟩

/-- Third call of the concrete follower trace (0.4 s after the first). -/
def pfCall3 : CallIn := ⟨3/4, -7/10, 2, 0, 7/5⟩

/-- A frame with no perception snapshot, no navmesh, and no player contact. -/
def quietFrame : FrameIn := ⟨none, 0, 0, 0, 0, none, 0, false, 0⟩

/-- An enemy at the origin with nothing known. -/
def enemy0 : Enemy := ⟨0, 0, none, 0, []⟩

/-- An enemy at the origin with one patrol waypoint. -/
def enemy1 : Enemy := ⟨0, 0, none, 0, [⟨5, 0⟩]⟩

/-- An attack-state closure with a cleared lose-sight timer. -/
def attackSt0 : AttackSt := ⟨0, 1, 1, 0, none⟩

/-- The invariant carried through the marking passes of `build`: the bound
fields agree with the bounds navmesh `B`, and every walkable cell's center
(computed from `B`) lies inside the box `[B.minX, B.maxX] x [B.minZ, B.maxZ]`. -/
def InPaddedBox (B : NavMesh) (nmc : NavMesh) : Prop :=
  nmc.minX = B.minX ∧ nmc.maxX = B.maxX ∧ nmc.minZ = B.minZ ∧ nmc.maxZ = B.maxZ ∧
  nmc.cellSize = B.cellSize ∧
  ∀ (k : ℤ × ℤ) (c : GridCell), mapGet nmc.grid k = some c → c.walkable = true →
    B.minX ≤ (B.gridToWorld k.1 k.2).x ∧ (B.gridToWorld k.1 k.2).x ≤ B.maxX ∧
    B.minZ ≤ (B.gridToWorld k.1 k.2).z ∧ (B.gridToWorld k.1 k.2).z ≤ B.maxZ

/-- Every cell ever stored by the grid passes is either an open cell
`{walkable: true}` or a prop-blocked cell `{walkable: false, propBlocked:
true}`; this is the shape invariant of all grids reachable by `build`
followed by `unblockAt` calls. -/
def CellsOK (nm : NavMesh) : Prop :=
  ∀ (k : ℤ × ℤ) (c : GridCell), mapGet nm.grid k = some c →
    c = ⟨true, none⟩ ∨ c = ⟨false, some true⟩

/-! ### Claim C1: real denotations of the exact cost representations -/

/-- The real number denoted by a `Q2` value. -/
noncomputable def Q2.toReal (p : Q2) : ℝ := (p.a : ℝ) + (p.b : ℝ) * Real.sqrt 2

/-- The real number denoted by an `FVal` value (meaningful for a nonnegative
radicand). -/
noncomputable def FVal.toReal (f : FVal) : ℝ := f.q.toReal + Real.sqrt (f.r : ℝ)
/-- Cost of one grid step as a real number: 1 for an orthogonal move, `sqrt 2`
for a diagonal move (the step costs of `findPath`). -/
noncomputable def stepCostR (u v : ℤ × ℤ) : ℝ :=
  if u.1 = v.1 ∨ u.2 = v.2 then 1 else Real.sqrt 2

/-- Total cost of a grid path: the sum of its step costs. -/
noncomputable def pathCostR : List (ℤ × ℤ) → ℝ
  | [] => 0
  | [_] => 0
  | u :: v :: rest => stepCostR u v + pathCostR (v :: rest)

/-- A path in the 8-connected walkable-cell graph: a nonempty list of walkable
cells in which each consecutive displacement is one of the 8 neighbor
offsets. -/
def IsGridPath (nm : NavMesh) (l : List (ℤ × ℤ)) : Prop :=
  l ≠ [] ∧ (∀ u ∈ l, nm.isWalkable u.1 u.2 = true) ∧
  l.Chain' (fun u v => (v.1 - u.1, v.2 - u.2) ∈ dirs)

/-- Two cells lying in the same connected component of the 8-connected
walkable-cell graph, witnessed by a connecting grid path. -/
def SameComponent (nm : NavMesh) (s e : ℤ × ℤ) : Prop :=
  ∃ l, IsGridPath nm l ∧ l.head? = some s ∧ l.getLast? = some e

/-- The parent chain of an A* node resolved through the closed map (the
source's `reconstructPath` follows the `parent` object references; every node
referenced as a parent has been popped, hence stored in the closed map).  The
cell list is accumulated front to back, ending at the node's own cell. -/
inductive IsSpine (closed : List ((ℤ × ℤ) × PathNode)) : PathNode → List (ℤ × ℤ) → Prop
  | base (n : PathNode) (h : n.parent = none) : IsSpine closed n [(n.gx, n.gz)]
  | step (n : PathNode) (pk : ℤ × ℤ) (pn : PathNode) (cells : List (ℤ × ℤ))
      (h : n.parent = some pk) (hlook : mapGet closed pk = some pn)
      (hprev : IsSpine closed pn cells) : IsSpine closed n (cells ++ [(n.gx, n.gz)])

/-- An A* node together with a realizing grid path from the start cell: the
node's parent chain is a grid path whose total cost is exactly the node's
`g` value. -/
def SpineOK (nm : NavMesh) (closed : List ((ℤ × ℤ) × PathNode)) (sg : ℤ × ℤ)
    (cells : List (ℤ × ℤ)) (n : PathNode) : Prop :=
  IsSpine closed n cells ∧ IsGridPath nm cells ∧ cells.head? = some sg ∧
  cells.getLast? = some (n.gx, n.gz) ∧ pathCostR cells = n.g.toReal ∧
  cells.length ≤ closed.length + 1

/-- The A* loop invariant: keys agree with node coordinates, all entries are
walkable, keys are duplicate-free, the open and closed maps are key-disjoint,
open radicands and `f` values are consistent, the goal is never closed while
the loop runs, every open node is realized by a parent-chain grid path, every
closed node's `g` is a lower bound on the cost of every grid path to it, every
closed node's neighbors are closed or open with a relaxed bound, and the start
cell is closed (or the loop is in its initial state). -/
structure AInv (nm : NavMesh) (sg eg : ℤ × ℤ)
    (opn closed : List ((ℤ × ℤ) × PathNode)) : Prop where
  keyO : ∀ p ∈ opn, (p.2.gx, p.2.gz) = p.1
  keyC : ∀ p ∈ closed, (p.2.gx, p.2.gz) = p.1
  walkO : ∀ p ∈ opn, nm.isWalkable p.1.1 p.1.2 = true
  walkC : ∀ p ∈ closed, nm.isWalkable p.1.1 p.1.2 = true
  ndO : (opn.map Prod.fst).Nodup
  ndC : (closed.map Prod.fst).Nodup
  disj : ∀ k, mapGet opn k = none ∨ mapGet closed k = none
  hradO : ∀ p ∈ opn, p.2.hrad = heuristicRad p.1.1 p.1.2 eg.1 eg.2
  fO : ∀ p ∈ opn, p.2.f = ⟨p.2.g, p.2.hrad⟩
  goalC : mapGet closed eg = none
  chainO : ∀ p ∈ opn, ∃ cells, SpineOK nm closed sg cells p.2
  optC : ∀ p ∈ closed, ∀ l, IsGridPath nm l → l.head? = some sg →
    l.getLast? = some p.1 → p.2.g.toReal ≤ pathCostR l
  edge : ∀ p ∈ closed, ∀ d ∈ dirs,
    nm.isWalkable (p.1.1 + d.1) (p.1.2 + d.2) = true →
    (mapGet closed (p.1.1 + d.1, p.1.2 + d.2)).isSome = true ∨
    ∃ nb, mapGet opn (p.1.1 + d.1, p.1.2 + d.2) = some nb ∧
      nb.g.toReal ≤ p.2.g.toReal + stepCostR p.1 (p.1.1 + d.1, p.1.2 + d.2)
  start : (mapGet closed sg).isSome = true ∨
    (closed = [] ∧ ∃ n0, opn = [(sg, n0)] ∧ n0.g = (⟨0, 0⟩ : Q2))

/-- The per-direction body of `expand` (the loop `for (let i = 0; ...)` over
the 8 neighbors), as a named function of the fold state. -/
def expandStep (nm : NavMesh) (endGx endGz : ℤ) (cur : PathNode)
    (closed : List ((ℤ × ℤ) × PathNode)) (op : List ((ℤ × ℤ) × PathNode))
    (b : ℕ × (ℤ × ℤ)) : List ((ℤ × ℤ) × PathNode) :=
  let i := b.1
  let d := b.2
  let ngx := cur.gx + d.1
  let ngz := cur.gz + d.2
  if (mapGet closed (ngx, ngz)).isSome then op
  else if ¬ nm.isWalkable ngx ngz then op
  else
    let cost : Q2 := if i < 4 then ⟨1, 0⟩ else ⟨0, 1⟩
    let g := cur.g.add cost
    match mapGet op (ngx, ngz) with
    | none =>
      let hr := heuristicRad ngx ngz endGx endGz
      mapSet op (ngx, ngz) ⟨ngx, ngz, g, hr, ⟨g, hr⟩, some (cur.gx, cur.gz)⟩
    | some nb =>
      if g.lt nb.g then
        mapSet op (ngx, ngz)
          { nb with g := g, f := ⟨g, nb.hrad⟩, parent := some (cur.gx, cur.gz) }
      else op

/-- The open-map invariant carried through the neighbor expansion: keys match
node coordinates, entries are walkable and key-disjoint from the closed map,
radicands and `f` values are consistent, and every node is realized by a
parent-chain grid path from the start cell. -/
def OInv (nm : NavMesh) (sg eg : ℤ × ℤ) (cl : List ((ℤ × ℤ) × PathNode))
    (op : List ((ℤ × ℤ) × PathNode)) : Prop :=
  (∀ p ∈ op, (p.2.gx, p.2.gz) = p.1) ∧
  (∀ p ∈ op, nm.isWalkable p.1.1 p.1.2 = true) ∧
  ((op.map Prod.fst).Nodup) ∧
  (∀ k, mapGet op k = none ∨ mapGet cl k = none) ∧
  (∀ p ∈ op, p.2.hrad = heuristicRad p.1.1 p.1.2 eg.1 eg.2) ∧
  (∀ p ∈ op, p.2.f = FVal.mk p.2.g p.2.hrad) ∧
  (∀ p ∈ op, ∃ cells, IsSpine cl p.2 cells ∧ IsGridPath nm cells ∧
    cells.head? = some sg ∧ cells.getLast? = some (p.2.gx, p.2.gz) ∧
    pathCostR cells = p.2.g.toReal ∧ cells.length ≤ cl.length + 1)

/-! ### Association-list lemmas -/

theorem foldl_preserve {α β : Type} (P : α → Prop) (f : α → β → α)
    (h : ∀ a b, P a → P (f a b)) : ∀ (l : List β) (a : α), P a → P (l.foldl f a) := by
  intro l
  induction l with
  | nil => intro a ha; simpa using ha
  | cons b t ih => intro a ha; simpa using ih (f a b) (h a b ha)

theorem mapGet_mapSet {α : Type} (m : List ((ℤ × ℤ) × α)) (k k2 : ℤ × ℤ) (v : α) :
    mapGet (mapSet m k v) k2 = if k2 = k then some v else mapGet m k2 := by
  induction m with
  | nil =>
    by_cases h : k2 = k
    · subst h; simp [mapSet, mapGet]
    · have h2 : ¬ k = k2 := fun hh => h hh.symm
      simp [mapSet, mapGet, h, h2]
  | cons p t ih =>
    simp only [mapSet]
    by_cases hp : p.1 = k
    · simp only [hp, if_true]
      by_cases h2 : k2 = k
      · subst h2; simp [mapGet]
      · have h3 : ¬ k = k2 := fun hh => h2 hh.symm
        have h4 : ¬ p.1 = k2 := hp ▸ h3
        simp [mapGet, h2, h3, h4]
    · simp only [hp, if_false]
      by_cases h2 : p.1 = k2
      · have hk2 : ¬ k2 = k := fun hh => hp (h2.trans hh)
        simp [mapGet, h2, hk2]
      · simp [mapGet, h2, ih]

theorem cellFold_preserve (P : List ((ℤ × ℤ) × GridCell) → Prop) (g0 g1 : ℤ × ℤ)
    (f : List ((ℤ × ℤ) × GridCell) → ℤ → ℤ → List ((ℤ × ℤ) × GridCell))
    (h : ∀ acc gx gz, P acc → P (f acc gx gz)) (init : List ((ℤ × ℤ) × GridCell))
    (hinit : P init) : P (cellFold g0 g1 f init) := by
  refine foldl_preserve P _ ?_ _ init hinit
  intro acc gx hacc
  exact foldl_preserve P _ (fun a gz ha => h a gx gz ha) _ acc hacc

/-! ### Claim C3: `unblockAt` re-opens only prop-blocked cells in radius -/

/-- Claim C3.  For every grid, point and radius, `unblockAt` either leaves a
cell exactly as it was, or the cell previously had `propBlocked = true`, its
world-space center lies within Euclidean distance `r` of the point, and the
cell is now `{walkable: true}`.  In particular cells blocked by static
geometry (not `propBlocked`) are never changed. -/
theorem c3_unblockAt_only_reopens_propBlocked (nm : NavMesh) (x z r : ℚ) (k : ℤ × ℤ) :
    mapGet (unblockAt nm x z r).grid k = mapGet nm.grid k ∨
    (∃ c, mapGet nm.grid k = some c ∧ c.propBlocked = some true ∧
      ((nm.gridToWorld k.1 k.2).x - x) * ((nm.gridToWorld k.1 k.2).x - x) +
        ((nm.gridToWorld k.1 k.2).z - z) * ((nm.gridToWorld k.1 k.2).z - z) ≤ r * r ∧
      mapGet (unblockAt nm x z r).grid k = some ⟨true, none⟩) := by
  have step : ∀ (acc : List ((ℤ × ℤ) × GridCell)) (gx gz : ℤ),
      (∀ k2 : ℤ × ℤ,
        mapGet acc k2 = mapGet nm.grid k2 ∨
        (∃ c, mapGet nm.grid k2 = some c ∧ c.propBlocked = some true ∧
          ((nm.gridToWorld k2.1 k2.2).x - x) * ((nm.gridToWorld k2.1 k2.2).x - x) +
            ((nm.gridToWorld k2.1 k2.2).z - z) * ((nm.gridToWorld k2.1 k2.2).z - z) ≤ r * r ∧
          mapGet acc k2 = some ⟨true, none⟩)) →
      (∀ k2 : ℤ × ℤ,
        mapGet (unblockStep nm x z r acc gx gz) k2 = mapGet nm.grid k2 ∨
        (∃ c, mapGet nm.grid k2 = some c ∧ c.propBlocked = some true ∧
          ((nm.gridToWorld k2.1 k2.2).x - x) * ((nm.gridToWorld k2.1 k2.2).x - x) +
            ((nm.gridToWorld k2.1 k2.2).z - z) * ((nm.gridToWorld k2.1 k2.2).z - z) ≤ r * r ∧
          mapGet (unblockStep nm x z r acc gx gz) k2 = some ⟨true, none⟩)) := by
    intro acc gx gz hacc k2
    unfold unblockStep
    cases hc : mapGet acc (gx, gz) with
    | none => exact hacc k2
    | some cell =>
      by_cases hpb : cell.propBlocked = some true
      · simp only [hpb, if_true]
        by_cases hd : ((nm.gridToWorld gx gz).x - x) * ((nm.gridToWorld gx gz).x - x) +
            ((nm.gridToWorld gx gz).z - z) * ((nm.gridToWorld gx gz).z - z) ≤ r * r
        · simp only [hd, if_true]
          rw [mapGet_mapSet]
          by_cases hk : k2 = (gx, gz)
          · subst hk
            simp only [if_pos rfl]
            rcases hacc (gx, gz) with h1 | ⟨c, hcold, hcpb, hdist, hcur⟩
            · exact Or.inr ⟨cell, h1 ▸ hc, hpb, by simpa using hd, rfl⟩
            · rw [hcur] at hc
              cases hc
              simp at hpb
          · simp only [if_neg hk]
            exact hacc k2
        · simp only [hd, if_false]
          exact hacc k2
      · simp only [hpb, if_false]
        exact hacc k2
  have main := cellFold_preserve (fun acc => ∀ k2 : ℤ × ℤ,
      mapGet acc k2 = mapGet nm.grid k2 ∨
      (∃ c, mapGet nm.grid k2 = some c ∧ c.propBlocked = some true ∧
        ((nm.gridToWorld k2.1 k2.2).x - x) * ((nm.gridToWorld k2.1 k2.2).x - x) +
          ((nm.gridToWorld k2.1 k2.2).z - z) * ((nm.gridToWorld k2.1 k2.2).z - z) ≤ r * r ∧
        mapGet acc k2 = some ⟨true, none⟩))
    (nm.worldToGrid (x - r) (z - r)) (nm.worldToGrid (x + r) (z + r))
    (unblockStep nm x z r) step nm.grid (fun _ => Or.inl rfl)
  exact main k

/-! ### Claim C10: `build` is independent of the prior navmesh state -/

theorem foldl_cellSize {β : Type} (f : NavMesh → β → NavMesh)
    (hf : ∀ nm b, (f nm b).cellSize = nm.cellSize) :
    ∀ (l : List β) (nm : NavMesh), (l.foldl f nm).cellSize = nm.cellSize := by
  intro l
  induction l with
  | nil => intro nm; rfl
  | cons b t ih => intro nm; rw [List.foldl_cons, ih (f nm b), hf]

theorem build_cellSize (nm : NavMesh) (level : LevelSchema) :
    (build nm level).cellSize = nm.cellSize := by
  unfold build buildMarks
  cases level.props with
  | none =>
    simp only
    rw [foldl_cellSize markDoorWalkable (fun _ _ => rfl),
        foldl_cellSize markRoomWalkable (fun _ _ => rfl)]
    rfl
  | some props =>
    simp only
    rw [foldl_cellSize blockProp (fun _ _ => rfl),
        foldl_cellSize markDoorWalkable (fun _ _ => rfl),
        foldl_cellSize markRoomWalkable (fun _ _ => rfl)]
    rfl

theorem unblockAt_cellSize (nm : NavMesh) (x z r : ℚ) :
    (unblockAt nm x z r).cellSize = nm.cellSize := rfl

theorem applyUnblocks_cellSize (nm : NavMesh) (ops : List (ℚ × ℚ × ℚ)) :
    (applyUnblocks nm ops).cellSize = nm.cellSize := by
  induction ops generalizing nm with
  | nil => rfl
  | cons o t ih =>
    have h1 : applyUnblocks nm (o :: t) = applyUnblocks (unblockAt nm o.1 o.2.1 o.2.2) t := rfl
    rw [h1, ih, unblockAt_cellSize]

theorem boundsStep_first (q : ℚ × ℚ × ℚ × ℚ) (room : RoomDef) :
    boundsStep (true, q) room =
      (false, room.x - room.width / 2, room.x + room.width / 2,
       room.z - room.depth / 2, room.z + room.depth / 2) := by
  simp [boundsStep]

theorem computeBounds_indep (nm1 nm2 : NavMesh) (h : nm1.grid = nm2.grid)
    (hcs : nm1.cellSize = nm2.cellSize) (r : RoomDef) (rest : List RoomDef) :
    computeBounds nm1 (r :: rest) = computeBounds nm2 (r :: rest) := by
  unfold computeBounds
  simp only [List.foldl_cons, boundsStep_first]
  cases nm1
  cases nm2
  simp only at h hcs
  simp [h, hcs]

theorem build_state_independent (level : LevelSchema) (h : level.rooms ≠ [])
    (nm1 nm2 : NavMesh) (hcs : nm1.cellSize = nm2.cellSize) :
    build nm1 level = build nm2 level := by
  obtain ⟨r, rest, hr⟩ := List.exists_cons_of_ne_nil h
  unfold build
  have hb : computeBounds { nm1 with grid := [] } level.rooms =
      computeBounds { nm2 with grid := [] } level.rooms := by
    rw [hr]
    exact computeBounds_indep { nm1 with grid := [] } { nm2 with grid := [] } rfl hcs r rest
  rw [hb]

/-- Claim C10.  For a level with a nonempty room list, the navmesh produced
by `build(level)` does not depend on the prior state: building after an
earlier build of any level followed by any sequence of `unblockAt` calls
yields exactly the grid and bounds of building on a fresh navmesh, and in
particular `build(level); build(level)` equals a single `build(level)`. -/
theorem c10_build_independent_of_prior_state (level level2 : LevelSchema)
    (ops : List (ℚ × ℚ × ℚ)) (h : level.rooms ≠ []) :
    build (applyUnblocks (build NavMesh.init level2) ops) level = build NavMesh.init level ∧
    build (build NavMesh.init level) level = build NavMesh.init level := by
  constructor
  · apply build_state_independent level h
    rw [applyUnblocks_cellSize, build_cellSize]
  · apply build_state_independent level h
    rw [build_cellSize]

/-- Witness for claim C10 at the concrete one-room level `lvl2`. -/
theorem c10_witness :
    build (applyUnblocks (build NavMesh.init lvl2) []) lvl2 = build NavMesh.init lvl2 ∧
    build (build NavMesh.init lvl2) lvl2 = build NavMesh.init lvl2 :=
  c10_build_independent_of_prior_state lvl2 lvl2 [] (by decide)

/-! ### Claim C5: walkable cell centers versus the padded room bounding box -/

theorem foldl_preserve_mem {α β : Type} (P : α → Prop) (f : α → β → α) :
    ∀ (l : List β), (∀ a b, b ∈ l → P a → P (f a b)) → ∀ a, P a → P (l.foldl f a) := by
  intro l
  induction l with
  | nil => intro _ a ha; simpa using ha
  | cons b t ih =>
    intro h a ha
    simp only [List.foldl_cons]
    exact ih (fun a2 b2 hb2 ha2 => h a2 b2 (List.mem_cons_of_mem b hb2) ha2) (f a b)
      (h a b (List.mem_cons_self b t) ha)

theorem boundsStep_fst (st : Bool × ℚ × ℚ × ℚ × ℚ) (room : RoomDef) :
    (boundsStep st room).1 = false := by
  by_cases h : st.1 <;> simp [boundsStep, h]

theorem boundsFold_le (l : List RoomDef) :
    ∀ st : Bool × ℚ × ℚ × ℚ × ℚ, st.1 = false →
      (l.foldl boundsStep st).2.1 ≤ st.2.1 ∧ st.2.2.1 ≤ (l.foldl boundsStep st).2.2.1 ∧
      (l.foldl boundsStep st).2.2.2.1 ≤ st.2.2.2.1 ∧
      st.2.2.2.2 ≤ (l.foldl boundsStep st).2.2.2.2 := by
  induction l with
  | nil =>
    intro st _
    exact ⟨le_refl _, le_refl _, le_refl _, le_refl _⟩
  | cons r t ih =>
    intro st h
    simp only [List.foldl_cons]
    obtain ⟨b1, b2, b3, b4⟩ := ih (boundsStep st r) (boundsStep_fst st r)
    have hp1 : (boundsStep st r).2.1 = min st.2.1 (r.x - r.width / 2) := by
      simp [boundsStep, h]
    have hp2 : (boundsStep st r).2.2.1 = max st.2.2.1 (r.x + r.width / 2) := by
      simp [boundsStep, h]
    have hp3 : (boundsStep st r).2.2.2.1 = min st.2.2.2.1 (r.z - r.depth / 2) := by
      simp [boundsStep, h]
    have hp4 : (boundsStep st r).2.2.2.2 = max st.2.2.2.2 (r.z + r.depth / 2) := by
      simp [boundsStep, h]
    refine ⟨le_trans b1 ?_, le_trans ?_ b2, le_trans b3 ?_, le_trans ?_ b4⟩
    · rw [hp1]; exact min_le_left _ _
    · rw [hp2]; exact le_max_left _ _
    · rw [hp3]; exact min_le_left _ _
    · rw [hp4]; exact le_max_left _ _

theorem boundsFold_mem (l : List RoomDef) :
    ∀ (st : Bool × ℚ × ℚ × ℚ × ℚ) (room : RoomDef), room ∈ l →
      (l.foldl boundsStep st).2.1 ≤ room.x - room.width / 2 ∧
      room.x + room.width / 2 ≤ (l.foldl boundsStep st).2.2.1 ∧
      (l.foldl boundsStep st).2.2.2.1 ≤ room.z - room.depth / 2 ∧
      room.z + room.depth / 2 ≤ (l.foldl boundsStep st).2.2.2.2 := by
  induction l with
  | nil => intro st room h; simp at h
  | cons r t ih =>
    intro st room hmem
    simp only [List.foldl_cons]
    rcases List.mem_cons.mp hmem with he | ht
    · subst he
      have hcont : (boundsStep st room).2.1 ≤ room.x - room.width / 2 ∧
          room.x + room.width / 2 ≤ (boundsStep st room).2.2.1 ∧
          (boundsStep st room).2.2.2.1 ≤ room.z - room.depth / 2 ∧
          room.z + room.depth / 2 ≤ (boundsStep st room).2.2.2.2 := by
        by_cases h : st.1 <;>
          simp [boundsStep, h, min_le_right, le_max_right]
      obtain ⟨a1, a2, a3, a4⟩ := hcont
      obtain ⟨b1, b2, b3, b4⟩ := boundsFold_le t (boundsStep st room) (boundsStep_fst st room)
      exact ⟨le_trans b1 a1, le_trans a2 b2, le_trans b3 a3, le_trans a4 b4⟩
    · exact ih (boundsStep st r) room ht

theorem computeBounds_contains (nm : NavMesh) (rooms : List RoomDef) (room : RoomDef)
    (h : room ∈ rooms) :
    (computeBounds nm rooms).minX ≤ room.x - room.width / 2 ∧
    room.x + room.width / 2 ≤ (computeBounds nm rooms).maxX ∧
    (computeBounds nm rooms).minZ ≤ room.z - room.depth / 2 ∧
    room.z + room.depth / 2 ≤ (computeBounds nm rooms).maxZ := by
  obtain ⟨a1, a2, a3, a4⟩ :=
    boundsFold_mem rooms (true, nm.minX, nm.maxX, nm.minZ, nm.maxZ) room h
  unfold computeBounds
  simp only
  exact ⟨by linarith, by linarith, by linarith, by linarith⟩

theorem gridToWorld_congr (nm1 nm2 : NavMesh) (h1 : nm1.minX = nm2.minX)
    (h2 : nm1.minZ = nm2.minZ) (h3 : nm1.cellSize = nm2.cellSize) (gx gz : ℤ) :
    nm1.gridToWorld gx gz = nm2.gridToWorld gx gz := by
  unfold NavMesh.gridToWorld
  rw [h1, h2, h3]

theorem markRoom_inPaddedBox (B : NavMesh) (room : RoomDef)
    (hbox : B.minX ≤ room.x - room.width / 2 ∧ room.x + room.width / 2 ≤ B.maxX ∧
      B.minZ ≤ room.z - room.depth / 2 ∧ room.z + room.depth / 2 ≤ B.maxZ)
    (nmc : NavMesh) (hQ : InPaddedBox B nmc) : InPaddedBox B (markRoomWalkable nmc room) := by
  obtain ⟨f1, f2, f3, f4, f5, hwalk⟩ := hQ
  refine ⟨f1, f2, f3, f4, f5, ?_⟩
  have hgw : ∀ gx gz, nmc.gridToWorld gx gz = B.gridToWorld gx gz :=
    gridToWorld_congr nmc B f1 f3 f5
  show ∀ (k : ℤ × ℤ) (c : GridCell),
      mapGet (cellFold (nmc.worldToGrid (room.x - room.width / 2) (room.z - room.depth / 2))
        (nmc.worldToGrid (room.x + room.width / 2) (room.z + room.depth / 2))
        (markRoomStep nmc (room.x - room.width / 2) (room.x + room.width / 2)
          (room.z - room.depth / 2) (room.z + room.depth / 2)) nmc.grid) k = some c →
      c.walkable = true → _
  refine cellFold_preserve (fun acc => ∀ (k : ℤ × ℤ) (c : GridCell),
    mapGet acc k = some c → c.walkable = true →
    B.minX ≤ (B.gridToWorld k.1 k.2).x ∧ (B.gridToWorld k.1 k.2).x ≤ B.maxX ∧
    B.minZ ≤ (B.gridToWorld k.1 k.2).z ∧ (B.gridToWorld k.1 k.2).z ≤ B.maxZ) _ _ _
    ?_ nmc.grid hwalk
  intro acc gx gz hacc k c hk hcw
  unfold markRoomStep at hk
  by_cases hg : room.x - room.width / 2 ≤ (nmc.gridToWorld gx gz).x ∧
      (nmc.gridToWorld gx gz).x ≤ room.x + room.width / 2 ∧
      room.z - room.depth / 2 ≤ (nmc.gridToWorld gx gz).z ∧
      (nmc.gridToWorld gx gz).z ≤ room.z + room.depth / 2
  · rw [if_pos hg] at hk
    have hin : B.minX ≤ (B.gridToWorld gx gz).x ∧ (B.gridToWorld gx gz).x ≤ B.maxX ∧
        B.minZ ≤ (B.gridToWorld gx gz).z ∧ (B.gridToWorld gx gz).z ≤ B.maxZ := by
      rw [← hgw gx gz]
      obtain ⟨g1, g2, g3, g4⟩ := hg
      obtain ⟨x1, x2, x3, x4⟩ := hbox
      exact ⟨le_trans x1 g1, le_trans g2 x2, le_trans x3 g3, le_trans g4 x4⟩
    cases hmc : mapGet acc (gx, gz) with
    | some cell =>
      simp only [hmc] at hk
      by_cases hpb : cell.propBlocked = some true
      · rw [if_pos hpb] at hk
        exact hacc k c hk hcw
      · rw [if_neg hpb, mapGet_mapSet] at hk
        by_cases hke : k = (gx, gz)
        · subst hke
          exact hin
        · rw [if_neg hke] at hk
          exact hacc k c hk hcw
    | none =>
      simp only [hmc] at hk
      rw [mapGet_mapSet] at hk
      by_cases hke : k = (gx, gz)
      · subst hke
        exact hin
      · rw [if_neg hke] at hk
        exact hacc k c hk hcw
  · rw [if_neg hg] at hk
    exact hacc k c hk hcw

theorem markDoor_inPaddedBox (B : NavMesh) (door : DoorDef)
    (hbox : B.minX ≤ door.x - (door.width / 2 + DOOR_CLEAR_MARGIN) ∧
      door.x + (door.width / 2 + DOOR_CLEAR_MARGIN) ≤ B.maxX ∧
      B.minZ ≤ door.z - (door.width / 2 + DOOR_CLEAR_MARGIN) ∧
      door.z + (door.width / 2 + DOOR_CLEAR_MARGIN) ≤ B.maxZ)
    (nmc : NavMesh) (hQ : InPaddedBox B nmc) : InPaddedBox B (markDoorWalkable nmc door) := by
  obtain ⟨f1, f2, f3, f4, f5, hwalk⟩ := hQ
  refine ⟨f1, f2, f3, f4, f5, ?_⟩
  have hgw : ∀ gx gz, nmc.gridToWorld gx gz = B.gridToWorld gx gz :=
    gridToWorld_congr nmc B f1 f3 f5
  show ∀ (k : ℤ × ℤ) (c : GridCell),
      mapGet (cellFold
        (nmc.worldToGrid (door.x - (door.width / 2 + DOOR_CLEAR_MARGIN))
          (door.z - (door.width / 2 + DOOR_CLEAR_MARGIN)))
        (nmc.worldToGrid (door.x + (door.width / 2 + DOOR_CLEAR_MARGIN))
          (door.z + (door.width / 2 + DOOR_CLEAR_MARGIN)))
        (markDoorStep nmc (door.x - (door.width / 2 + DOOR_CLEAR_MARGIN))
          (door.x + (door.width / 2 + DOOR_CLEAR_MARGIN))
          (door.z - (door.width / 2 + DOOR_CLEAR_MARGIN))
          (door.z + (door.width / 2 + DOOR_CLEAR_MARGIN))) nmc.grid) k = some c →
      c.walkable = true → _
  refine cellFold_preserve (fun acc => ∀ (k : ℤ × ℤ) (c : GridCell),
    mapGet acc k = some c → c.walkable = true →
    B.minX ≤ (B.gridToWorld k.1 k.2).x ∧ (B.gridToWorld k.1 k.2).x ≤ B.maxX ∧
    B.minZ ≤ (B.gridToWorld k.1 k.2).z ∧ (B.gridToWorld k.1 k.2).z ≤ B.maxZ) _ _ _
    ?_ nmc.grid hwalk
  intro acc gx gz hacc k c hk hcw
  unfold markDoorStep at hk
  by_cases hg : door.x - (door.width / 2 + DOOR_CLEAR_MARGIN) ≤ (nmc.gridToWorld gx gz).x ∧
      (nmc.gridToWorld gx gz).x ≤ door.x + (door.width / 2 + DOOR_CLEAR_MARGIN) ∧
      door.z - (door.width / 2 + DOOR_CLEAR_MARGIN) ≤ (nmc.gridToWorld gx gz).z ∧
      (nmc.gridToWorld gx gz).z ≤ door.z + (door.width / 2 + DOOR_CLEAR_MARGIN)
  · rw [if_pos hg, mapGet_mapSet] at hk
    by_cases hke : k = (gx, gz)
    · subst hke
      rw [← hgw gx gz]
      obtain ⟨g1, g2, g3, g4⟩ := hg
      obtain ⟨x1, x2, x3, x4⟩ := hbox
      exact ⟨le_trans x1 g1, le_trans g2 x2, le_trans x3 g3, le_trans g4 x4⟩
    · rw [if_neg hke] at hk
      exact hacc k c hk hcw
  · rw [if_neg hg] at hk
    exact hacc k c hk hcw

theorem blockProp_inPaddedBox (B : NavMesh) (prop : PropDef) (nmc : NavMesh)
    (hQ : InPaddedBox B nmc) : InPaddedBox B (blockProp nmc prop) := by
  obtain ⟨f1, f2, f3, f4, f5, hwalk⟩ := hQ
  refine ⟨f1, f2, f3, f4, f5, ?_⟩
  show ∀ (k : ℤ × ℤ) (c : GridCell),
      mapGet (cellFold
        (nmc.worldToGrid (prop.x - PROP_BLOCK_RADIUS * prop.scale.getD 1)
          (prop.z - PROP_BLOCK_RADIUS * prop.scale.getD 1))
        (nmc.worldToGrid (prop.x + PROP_BLOCK_RADIUS * prop.scale.getD 1)
          (prop.z + PROP_BLOCK_RADIUS * prop.scale.getD 1))
        (blockPropStep nmc prop.x prop.z (PROP_BLOCK_RADIUS * prop.scale.getD 1)) nmc.grid)
        k = some c → c.walkable = true → _
  refine cellFold_preserve (fun acc => ∀ (k : ℤ × ℤ) (c : GridCell),
    mapGet acc k = some c → c.walkable = true →
    B.minX ≤ (B.gridToWorld k.1 k.2).x ∧ (B.gridToWorld k.1 k.2).x ≤ B.maxX ∧
    B.minZ ≤ (B.gridToWorld k.1 k.2).z ∧ (B.gridToWorld k.1 k.2).z ≤ B.maxZ) _ _ _
    ?_ nmc.grid hwalk
  intro acc gx gz hacc k c hk hcw
  unfold blockPropStep at hk
  by_cases hg : ((nmc.gridToWorld gx gz).x - prop.x) * ((nmc.gridToWorld gx gz).x - prop.x) +
      ((nmc.gridToWorld gx gz).z - prop.z) * ((nmc.gridToWorld gx gz).z - prop.z) ≤
      PROP_BLOCK_RADIUS * prop.scale.getD 1 * (PROP_BLOCK_RADIUS * prop.scale.getD 1)
  · rw [if_pos hg, mapGet_mapSet] at hk
    by_cases hke : k = (gx, gz)
    · subst hke
      rw [if_pos rfl] at hk
      cases hk
      cases hcw
    · rw [if_neg hke] at hk
      exact hacc k c hk hcw
  · rw [if_neg hg] at hk
    exact hacc k c hk hcw

/-- Counterexample to claim C5 as stated: in `lvlFarDoor` (one room around
the origin, one door at `x = 100`), the built grid contains the walkable
cell `(204, 4)` whose world-space center has `x = 397/4`, far beyond the
padded bounding box of the rooms (`maxX = 3`). -/
theorem c5_counterexample :
    mapGet nmFarDoor.grid (204, 4) = some ⟨true, none⟩ ∧
    nmFarDoor.maxX = 3 ∧ (nmFarDoor.gridToWorld 204 4).x = 397 / 4 ∧
    ¬ (nmFarDoor.gridToWorld 204 4).x ≤ nmFarDoor.maxX := by
  refine ⟨by decide, by decide, by decide, by decide⟩

/-- Claim C5, amended.  Cells marked by the room pass always have centers in
the padded bounding box; door-pass cells lie in the door's widened box, so
the claim holds under the additional hypothesis (violated by
`c5_counterexample`) that every door's widened box lies inside the padded
bounding box: then every walkable cell of the built grid has its world-space
center inside the padded bounding box. -/
theorem foldl_keepFields {β : Type} (f : NavMesh → β → NavMesh)
    (hf : ∀ nm b, (f nm b).minX = nm.minX ∧ (f nm b).maxX = nm.maxX ∧
      (f nm b).minZ = nm.minZ ∧ (f nm b).maxZ = nm.maxZ ∧ (f nm b).cellSize = nm.cellSize) :
    ∀ (l : List β) (nm : NavMesh), (l.foldl f nm).minX = nm.minX ∧
      (l.foldl f nm).maxX = nm.maxX ∧ (l.foldl f nm).minZ = nm.minZ ∧
      (l.foldl f nm).maxZ = nm.maxZ ∧ (l.foldl f nm).cellSize = nm.cellSize := by
  intro l
  induction l with
  | nil => intro nm; exact ⟨rfl, rfl, rfl, rfl, rfl⟩
  | cons b t ih =>
    intro nm
    obtain ⟨i1, i2, i3, i4, i5⟩ := ih (f nm b)
    obtain ⟨j1, j2, j3, j4, j5⟩ := hf nm b
    rw [List.foldl_cons]
    exact ⟨i1.trans j1, i2.trans j2, i3.trans j3, i4.trans j4, i5.trans j5⟩

theorem build_fields (nm0 : NavMesh) (level : LevelSchema) :
    (build nm0 level).minX = (computeBounds { nm0 with grid := [] } level.rooms).minX ∧
    (build nm0 level).maxX = (computeBounds { nm0 with grid := [] } level.rooms).maxX ∧
    (build nm0 level).minZ = (computeBounds { nm0 with grid := [] } level.rooms).minZ ∧
    (build nm0 level).maxZ = (computeBounds { nm0 with grid := [] } level.rooms).maxZ ∧
    (build nm0 level).cellSize = (computeBounds { nm0 with grid := [] } level.rooms).cellSize := by
  unfold build buildMarks
  have hR := foldl_keepFields markRoomWalkable (fun _ _ => ⟨rfl, rfl, rfl, rfl, rfl⟩)
    level.rooms (computeBounds { nm0 with grid := [] } level.rooms)
  have hD := foldl_keepFields markDoorWalkable (fun _ _ => ⟨rfl, rfl, rfl, rfl, rfl⟩)
    level.doors (level.rooms.foldl markRoomWalkable
      (computeBounds { nm0 with grid := [] } level.rooms))
  obtain ⟨r1, r2, r3, r4, r5⟩ := hR
  obtain ⟨d1, d2, d3, d4, d5⟩ := hD
  cases level.props with
  | none =>
    exact ⟨d1.trans r1, d2.trans r2, d3.trans r3, d4.trans r4, d5.trans r5⟩
  | some props =>
    have hP := foldl_keepFields blockProp (fun _ _ => ⟨rfl, rfl, rfl, rfl, rfl⟩)
      props (level.doors.foldl markDoorWalkable (level.rooms.foldl markRoomWalkable
        (computeBounds { nm0 with grid := [] } level.rooms)))
    obtain ⟨p1, p2, p3, p4, p5⟩ := hP
    exact ⟨(p1.trans d1).trans r1, (p2.trans d2).trans r2, (p3.trans d3).trans r3,
           (p4.trans d4).trans r4, (p5.trans d5).trans r5⟩

/-- Claim C5, amended.  Cells marked by the room pass always have centers in
the padded bounding box; door-pass cells lie in the door's widened box, so
the claim holds under the additional hypothesis (violated by
`c5_counterexample`) that every door's widened box lies inside the padded
bounding box: then every walkable cell of the built grid has its world-space
center inside the padded bounding box. -/
theorem c5_walkable_centers_in_padded_box (level : LevelSchema) (nm0 : NavMesh)
    (hdoors : ∀ d ∈ level.doors,
      (build nm0 level).minX ≤ d.x - (d.width / 2 + DOOR_CLEAR_MARGIN) ∧
      d.x + (d.width / 2 + DOOR_CLEAR_MARGIN) ≤ (build nm0 level).maxX ∧
      (build nm0 level).minZ ≤ d.z - (d.width / 2 + DOOR_CLEAR_MARGIN) ∧
      d.z + (d.width / 2 + DOOR_CLEAR_MARGIN) ≤ (build nm0 level).maxZ)
    (k : ℤ × ℤ) (c : GridCell) (hc : mapGet (build nm0 level).grid k = some c)
    (hw : c.walkable = true) :
    (build nm0 level).minX ≤ ((build nm0 level).gridToWorld k.1 k.2).x ∧
    ((build nm0 level).gridToWorld k.1 k.2).x ≤ (build nm0 level).maxX ∧
    (build nm0 level).minZ ≤ ((build nm0 level).gridToWorld k.1 k.2).z ∧
    ((build nm0 level).gridToWorld k.1 k.2).z ≤ (build nm0 level).maxZ := by
  obtain ⟨b1, b2, b3, b4, b5⟩ := build_fields nm0 level
  have hdoorsB : ∀ d ∈ level.doors,
      (computeBounds { nm0 with grid := [] } level.rooms).minX ≤
        d.x - (d.width / 2 + DOOR_CLEAR_MARGIN) ∧
      d.x + (d.width / 2 + DOOR_CLEAR_MARGIN) ≤
        (computeBounds { nm0 with grid := [] } level.rooms).maxX ∧
      (computeBounds { nm0 with grid := [] } level.rooms).minZ ≤
        d.z - (d.width / 2 + DOOR_CLEAR_MARGIN) ∧
      d.z + (d.width / 2 + DOOR_CLEAR_MARGIN) ≤
        (computeBounds { nm0 with grid := [] } level.rooms).maxZ := by
    intro d hd
    obtain ⟨h1, h2, h3, h4⟩ := hdoors d hd
    rw [b1] at h1
    rw [b2] at h2
    rw [b3] at h3
    rw [b4] at h4
    exact ⟨h1, h2, h3, h4⟩
  have hQ0 : InPaddedBox (computeBounds { nm0 with grid := [] } level.rooms)
      (computeBounds { nm0 with grid := [] } level.rooms) := by
    refine ⟨rfl, rfl, rfl, rfl, rfl, ?_⟩
    intro k2 c2 hk2 _
    rw [show (computeBounds { nm0 with grid := [] } level.rooms).grid = [] from rfl] at hk2
    cases hk2
  have hQ : InPaddedBox (computeBounds { nm0 with grid := [] } level.rooms) (build nm0 level) := by
    unfold build buildMarks
    have hR := foldl_preserve_mem
      (InPaddedBox (computeBounds { nm0 with grid := [] } level.rooms)) markRoomWalkable
      level.rooms
      (fun nmc room hmem hq =>
        markRoom_inPaddedBox _ room
          (computeBounds_contains { nm0 with grid := [] } level.rooms room hmem) nmc hq)
      _ hQ0
    have hD := foldl_preserve_mem
      (InPaddedBox (computeBounds { nm0 with grid := [] } level.rooms)) markDoorWalkable
      level.doors
      (fun nmc door hmem hq => markDoor_inPaddedBox _ door (hdoorsB door hmem) nmc hq)
      _ hR
    cases level.props with
    | none => exact hD
    | some props =>
      exact foldl_preserve (InPaddedBox (computeBounds { nm0 with grid := [] } level.rooms))
        blockProp (fun nmc prop hq => blockProp_inPaddedBox _ prop nmc hq) props _ hD
  obtain ⟨q1, q2, q3, q4, q5, hwalk⟩ := hQ
  have hgw : (build nm0 level).gridToWorld k.1 k.2 =
      (computeBounds { nm0 with grid := [] } level.rooms).gridToWorld k.1 k.2 :=
    gridToWorld_congr _ _ q1 q3 q5 k.1 k.2
  rw [hgw, b1, b2, b3, b4]
  exact hwalk k c hc hw

/-- Witness for the amended claim C5 on the doorless level `lvl2` at the
walkable cell `(4, 4)`. -/
theorem c5_witness :
    nm2.minX ≤ (nm2.gridToWorld 4 4).x ∧ (nm2.gridToWorld 4 4).x ≤ nm2.maxX ∧
    nm2.minZ ≤ (nm2.gridToWorld 4 4).z ∧ (nm2.gridToWorld 4 4).z ≤ nm2.maxZ :=
  c5_walkable_centers_in_padded_box lvl2 NavMesh.init
    (fun d hd => absurd hd (List.not_mem_nil d)) (4, 4) ⟨true, none⟩ (by decide) rfl

/-! ### Claim C9: `findPath` with both endpoints in the same cell -/

/-- Claim C9.  When `nearestWalkable` is defined at `p`, `findPath(p, p)`
returns the single waypoint `nearestWalkable(p)`; more generally, whenever
the two snapped endpoints fall in the same grid cell, `findPath` returns
exactly the snapped destination point. -/
theorem c9_findPath_same_cell (nm : NavMesh) :
    (∀ (x z : ℚ) (p : PathPoint), nm.nearestWalkable x z = some p →
      nm.findPath x z x z = [p]) ∧
    (∀ (fx fz tx tz : ℚ) (s e : PathPoint),
      nm.nearestWalkable fx fz = some s → nm.nearestWalkable tx tz = some e →
      nm.worldToGrid s.x s.z = nm.worldToGrid e.x e.z →
      nm.findPath fx fz tx tz = [e]) := by
  have general : ∀ (fx fz tx tz : ℚ) (s e : PathPoint),
      nm.nearestWalkable fx fz = some s → nm.nearestWalkable tx tz = some e →
      nm.worldToGrid s.x s.z = nm.worldToGrid e.x e.z →
      nm.findPath fx fz tx tz = [e] := by
    intro fx fz tx tz s e hs he hcell
    unfold NavMesh.findPath
    rw [hs, he]
    simp [hcell]
  exact ⟨fun x z p hp => general x z x z p p hp hp rfl, general⟩

set_option maxRecDepth 8000 in
/-- Witness for claim C9: on `nm4`, the point `(1/10, 1/10)` lies in a
walkable cell, so it snaps to itself and `findPath` of the identical pair
returns exactly it. -/
theorem c9_witness : nm4.findPath (1/10) (1/10) (1/10) (1/10) = [⟨1/10, 1/10⟩] :=
  (c9_findPath_same_cell nm4).1 (1/10) (1/10) ⟨1/10, 1/10⟩ (by decide)

/-! ### Claim C4: cells of returned paths -/

theorem mapGet_mem {α : Type} (m : List ((ℤ × ℤ) × α)) (k : ℤ × ℤ) (v : α)
    (h : mapGet m k = some v) : (k, v) ∈ m := by
  induction m with
  | nil => cases h
  | cons p t ih =>
    unfold mapGet at h
    by_cases hk : p.1 = k
    · subst hk
      rw [if_pos rfl] at h
      injection h with hv
      subst hv
      simp
    · rw [if_neg hk] at h
      exact List.mem_cons_of_mem p (ih h)

theorem mem_mapSet {α : Type} (m : List ((ℤ × ℤ) × α)) (k : ℤ × ℤ) (v : α)
    (p : (ℤ × ℤ) × α) (h : p ∈ mapSet m k v) : p ∈ m ∨ p = (k, v) := by
  induction m with
  | nil =>
    simp [mapSet] at h
    exact Or.inr h
  | cons q t ih =>
    unfold mapSet at h
    by_cases hq : q.1 = k
    · rw [if_pos hq] at h
      rcases List.mem_cons.mp h with h1 | h2
      · exact Or.inr h1
      · exact Or.inl (List.mem_cons_of_mem q h2)
    · rw [if_neg hq] at h
      rcases List.mem_cons.mp h with h1 | h2
      · exact Or.inl (h1 ▸ List.mem_cons_self q t)
      · rcases ih h2 with h3 | h4
        · exact Or.inl (List.mem_cons_of_mem q h3)
        · exact Or.inr h4

theorem mem_mapDelete {α : Type} (m : List ((ℤ × ℤ) × α)) (k : ℤ × ℤ)
    (p : (ℤ × ℤ) × α) (h : p ∈ mapDelete m k) : p ∈ m := by
  induction m with
  | nil => cases h
  | cons q t ih =>
    unfold mapDelete at h
    by_cases hq : q.1 = k
    · rw [if_pos hq] at h
      exact List.mem_cons_of_mem q h
    · rw [if_neg hq] at h
      rcases List.mem_cons.mp h with h1 | h2
      · exact h1 ▸ List.mem_cons_self q t
      · exact List.mem_cons_of_mem q (ih h2)

theorem getD_mem (l : List PathPoint) (i : ℕ) (hi : i < l.length) (d : PathPoint) :
    l.getD i d ∈ l := by
  rw [List.getD_eq_getElem l d hi]
  exact List.getElem_mem hi

theorem simplifyPath_subset (l : List PathPoint) (w : PathPoint)
    (hw : w ∈ simplifyPath l) : w ∈ l := by
  unfold simplifyPath at hw
  by_cases hlen : l.length ≤ 2
  · rw [if_pos hlen] at hw
    exact hw
  · rw [if_neg hlen] at hw
    push_neg at hlen
    have hfront : ∀ w2 ∈ (List.range (l.length - 2)).foldl (fun out j =>
        let i := j + 1
        let prev := l.getD (i - 1) ⟨0, 0⟩
        let curr := l.getD i ⟨0, 0⟩
        let next := l.getD (i + 1) ⟨0, 0⟩
        let dx1 := curr.x - prev.x
        let dz1 := curr.z - prev.z
        let dx2 := next.x - curr.x
        let dz2 := next.z - curr.z
        let cross := dx1 * dz2 - dz1 * dx2
        if |cross| > 1/100 then out ++ [curr] else out) [l.getD 0 ⟨0, 0⟩],
        w2 ∈ l := by
      refine foldl_preserve_mem (fun out => ∀ w2 ∈ out, w2 ∈ l) _ (List.range (l.length - 2))
        ?_ _ ?_
      · intro out j hj hout w2 hw2
        dsimp only at hw2
        split at hw2
        · rcases List.mem_append.mp hw2 with h | h
          · exact hout w2 h
          · rw [List.mem_singleton.mp h]
            exact getD_mem l (j + 1) (by have := List.mem_range.mp hj; omega) _
        · exact hout w2 hw2
      · intro w2 hw2
        rcases List.mem_singleton.mp hw2 with h
        subst h
        exact getD_mem l 0 (by omega) _
    rcases List.mem_append.mp hw with h1 | h2
    · exact hfront w h1
    · have h3 := List.mem_singleton.mp h2
      subst h3
      exact getD_mem l (l.length - 1) (by omega) _

theorem worldToGrid_gridToWorld (nm : NavMesh) (hcs : 0 < nm.cellSize) (gx gz : ℤ) :
    nm.worldToGrid (nm.gridToWorld gx gz).x (nm.gridToWorld gx gz).z = (gx, gz) := by
  unfold NavMesh.worldToGrid NavMesh.gridToWorld
  simp only
  have hx : (nm.minX + ((gx : ℚ) + 1/2) * nm.cellSize - nm.minX) / nm.cellSize =
      (gx : ℚ) + 1/2 := by
    field_simp
    ring
  have hz : (nm.minZ + ((gz : ℚ) + 1/2) * nm.cellSize - nm.minZ) / nm.cellSize =
      (gz : ℚ) + 1/2 := by
    field_simp
    ring
  rw [hx, hz]
  have hfl : ∀ g : ℤ, ⌊(g : ℚ) + 1/2⌋ = g := by
    intro g
    rw [Int.floor_int_add]
    norm_num
  rw [hfl gx, hfl gz]

theorem nearestWalkable_walkable (nm : NavMesh) (hcs : 0 < nm.cellSize) (x z : ℚ)
    (p : PathPoint) (h : nm.nearestWalkable x z = some p) :
    nm.isWalkable (nm.worldToGrid p.x p.z).1 (nm.worldToGrid p.x p.z).2 = true := by
  unfold NavMesh.nearestWalkable at h
  by_cases hw : nm.isWalkable (nm.worldToGrid x z).1 (nm.worldToGrid x z).2 = true
  · rw [if_pos hw] at h
    injection h with hp
    subst hp
    exact hw
  · rw [if_neg hw] at h
    cases hf : ringOffsets.find? (fun d =>
        nm.isWalkable ((nm.worldToGrid x z).1 + d.1) ((nm.worldToGrid x z).2 + d.2)) with
    | none =>
      rw [hf] at h
      cases h
    | some d =>
      rw [hf] at h
      injection h with hp
      subst hp
      have hwd := List.find?_some hf
      have hrt := worldToGrid_gridToWorld nm hcs
        ((nm.worldToGrid x z).1 + d.1) ((nm.worldToGrid x z).2 + d.2)
      rw [hrt]
      simpa using hwd

/-- The per-step shape argument shared by all grid passes: a `mapSet` of an
allowed cell value preserves `CellsOK`-shaped grids. -/
theorem mapSet_shape (acc : List ((ℤ × ℤ) × GridCell)) (k0 : ℤ × ℤ) (v : GridCell)
    (hacc : ∀ (k : ℤ × ℤ) (c : GridCell), mapGet acc k = some c →
      c = ⟨true, none⟩ ∨ c = ⟨false, some true⟩)
    (hv : v = ⟨true, none⟩ ∨ v = ⟨false, some true⟩) :
    ∀ (k : ℤ × ℤ) (c : GridCell), mapGet (mapSet acc k0 v) k = some c →
      c = ⟨true, none⟩ ∨ c = ⟨false, some true⟩ := by
  intro k c hk
  rw [mapGet_mapSet] at hk
  by_cases hke : k = k0
  · rw [if_pos hke] at hk
    injection hk with hc
    subst hc
    exact hv
  · rw [if_neg hke] at hk
    exact hacc k c hk

theorem markRoomStep_shape (nm : NavMesh) (xMin xMax zMin zMax : ℚ)
    (acc : List ((ℤ × ℤ) × GridCell)) (gx gz : ℤ)
    (hacc : ∀ (k : ℤ × ℤ) (c : GridCell), mapGet acc k = some c →
      c = ⟨true, none⟩ ∨ c = ⟨false, some true⟩) :
    ∀ (k : ℤ × ℤ) (c : GridCell),
      mapGet (markRoomStep nm xMin xMax zMin zMax acc gx gz) k = some c →
      c = ⟨true, none⟩ ∨ c = ⟨false, some true⟩ := by
  intro k c hk
  unfold markRoomStep at hk
  by_cases hg : xMin ≤ (nm.gridToWorld gx gz).x ∧ (nm.gridToWorld gx gz).x ≤ xMax ∧
      zMin ≤ (nm.gridToWorld gx gz).z ∧ (nm.gridToWorld gx gz).z ≤ zMax
  · rw [if_pos hg] at hk
    cases hmc : mapGet acc (gx, gz) with
    | some cell =>
      simp only [hmc] at hk
      by_cases hpb : cell.propBlocked = some true
      · rw [if_pos hpb] at hk
        exact hacc k c hk
      · rw [if_neg hpb] at hk
        exact mapSet_shape acc (gx, gz) ⟨true, none⟩ hacc (Or.inl rfl) k c hk
    | none =>
      simp only [hmc] at hk
      exact mapSet_shape acc (gx, gz) ⟨true, none⟩ hacc (Or.inl rfl) k c hk
  · rw [if_neg hg] at hk
    exact hacc k c hk

theorem markDoorStep_shape (nm : NavMesh) (xMin xMax zMin zMax : ℚ)
    (acc : List ((ℤ × ℤ) × GridCell)) (gx gz : ℤ)
    (hacc : ∀ (k : ℤ × ℤ) (c : GridCell), mapGet acc k = some c →
      c = ⟨true, none⟩ ∨ c = ⟨false, some true⟩) :
    ∀ (k : ℤ × ℤ) (c : GridCell),
      mapGet (markDoorStep nm xMin xMax zMin zMax acc gx gz) k = some c →
      c = ⟨true, none⟩ ∨ c = ⟨false, some true⟩ := by
  intro k c hk
  unfold markDoorStep at hk
  by_cases hg : xMin ≤ (nm.gridToWorld gx gz).x ∧ (nm.gridToWorld gx gz).x ≤ xMax ∧
      zMin ≤ (nm.gridToWorld gx gz).z ∧ (nm.gridToWorld gx gz).z ≤ zMax
  · rw [if_pos hg] at hk
    exact mapSet_shape acc (gx, gz) ⟨true, none⟩ hacc (Or.inl rfl) k c hk
  · rw [if_neg hg] at hk
    exact hacc k c hk

theorem blockPropStep_shape (nm : NavMesh) (px pz radius : ℚ)
    (acc : List ((ℤ × ℤ) × GridCell)) (gx gz : ℤ)
    (hacc : ∀ (k : ℤ × ℤ) (c : GridCell), mapGet acc k = some c →
      c = ⟨true, none⟩ ∨ c = ⟨false, some true⟩) :
    ∀ (k : ℤ × ℤ) (c : GridCell),
      mapGet (blockPropStep nm px pz radius acc gx gz) k = some c →
      c = ⟨true, none⟩ ∨ c = ⟨false, some true⟩ := by
  intro k c hk
  unfold blockPropStep at hk
  by_cases hg : ((nm.gridToWorld gx gz).x - px) * ((nm.gridToWorld gx gz).x - px) +
      ((nm.gridToWorld gx gz).z - pz) * ((nm.gridToWorld gx gz).z - pz) ≤ radius * radius
  · rw [if_pos hg] at hk
    exact mapSet_shape acc (gx, gz) ⟨false, some true⟩ hacc (Or.inr rfl) k c hk
  · rw [if_neg hg] at hk
    exact hacc k c hk

theorem unblockStep_shape (nm : NavMesh) (x z radius : ℚ)
    (acc : List ((ℤ × ℤ) × GridCell)) (gx gz : ℤ)
    (hacc : ∀ (k : ℤ × ℤ) (c : GridCell), mapGet acc k = some c →
      c = ⟨true, none⟩ ∨ c = ⟨false, some true⟩) :
    ∀ (k : ℤ × ℤ) (c : GridCell),
      mapGet (unblockStep nm x z radius acc gx gz) k = some c →
      c = ⟨true, none⟩ ∨ c = ⟨false, some true⟩ := by
  intro k c hk
  unfold unblockStep at hk
  cases hmc : mapGet acc (gx, gz) with
  | none =>
    simp only [hmc] at hk
    exact hacc k c hk
  | some cell =>
    simp only [hmc] at hk
    by_cases hpb : cell.propBlocked = some true
    · rw [if_pos hpb] at hk
      by_cases hd : ((nm.gridToWorld gx gz).x - x) * ((nm.gridToWorld gx gz).x - x) +
          ((nm.gridToWorld gx gz).z - z) * ((nm.gridToWorld gx gz).z - z) ≤ radius * radius
      · rw [if_pos hd] at hk
        exact mapSet_shape acc (gx, gz) ⟨true, none⟩ hacc (Or.inl rfl) k c hk
      · rw [if_neg hd] at hk
        exact hacc k c hk
    · rw [if_neg hpb] at hk
      exact hacc k c hk

theorem cellsOK_reachable (nm0 : NavMesh) (level : LevelSchema) (ops : List (ℚ × ℚ × ℚ)) :
    CellsOK (applyUnblocks (build nm0 level) ops) := by
  have hbuild : CellsOK (build nm0 level) := by
    have hB : CellsOK (computeBounds { nm0 with grid := [] } level.rooms) := by
      intro k c hk
      rw [show (computeBounds { nm0 with grid := [] } level.rooms).grid = [] from rfl] at hk
      cases hk
    have hR : CellsOK (level.rooms.foldl markRoomWalkable
        (computeBounds { nm0 with grid := [] } level.rooms)) := by
      refine foldl_preserve CellsOK markRoomWalkable ?_ level.rooms _ hB
      intro nmc room hq
      show ∀ (k : ℤ × ℤ) (c : GridCell), mapGet (cellFold _ _ _ nmc.grid) k = some c → _
      exact cellFold_preserve (fun acc => ∀ (k : ℤ × ℤ) (c : GridCell),
        mapGet acc k = some c → c = ⟨true, none⟩ ∨ c = ⟨false, some true⟩) _ _ _
        (fun acc gx gz ha => markRoomStep_shape nmc _ _ _ _ acc gx gz ha) nmc.grid hq
    have hD : CellsOK (level.doors.foldl markDoorWalkable (level.rooms.foldl markRoomWalkable
        (computeBounds { nm0 with grid := [] } level.rooms))) := by
      refine foldl_preserve CellsOK markDoorWalkable ?_ level.doors _ hR
      intro nmc door hq
      show ∀ (k : ℤ × ℤ) (c : GridCell), mapGet (cellFold _ _ _ nmc.grid) k = some c → _
      exact cellFold_preserve (fun acc => ∀ (k : ℤ × ℤ) (c : GridCell),
        mapGet acc k = some c → c = ⟨true, none⟩ ∨ c = ⟨false, some true⟩) _ _ _
        (fun acc gx gz ha => markDoorStep_shape nmc _ _ _ _ acc gx gz ha) nmc.grid hq
    unfold build buildMarks
    cases level.props with
    | none => exact hD
    | some props =>
      refine foldl_preserve CellsOK blockProp ?_ props _ hD
      intro nmc prop hq
      show ∀ (k : ℤ × ℤ) (c : GridCell), mapGet (cellFold _ _ _ nmc.grid) k = some c → _
      exact cellFold_preserve (fun acc => ∀ (k : ℤ × ℤ) (c : GridCell),
        mapGet acc k = some c → c = ⟨true, none⟩ ∨ c = ⟨false, some true⟩) _ _ _
        (fun acc gx gz ha => blockPropStep_shape nmc _ _ _ acc gx gz ha) nmc.grid hq
  unfold applyUnblocks
  refine foldl_preserve CellsOK _ ?_ ops _ hbuild
  intro nmc o hq
  show ∀ (k : ℤ × ℤ) (c : GridCell), mapGet (cellFold _ _ _ nmc.grid) k = some c → _
  exact cellFold_preserve (fun acc => ∀ (k : ℤ × ℤ) (c : GridCell),
    mapGet acc k = some c → c = ⟨true, none⟩ ∨ c = ⟨false, some true⟩) _ _ _
    (fun acc gx gz ha => unblockStep_shape nmc _ _ _ acc gx gz ha) nmc.grid hq

theorem pickBest_mem (opn : List ((ℤ × ℤ) × PathNode)) (n : PathNode)
    (h : pickBest opn = some n) : ∃ p ∈ opn, p.2 = n := by
  have aux : ∀ (l : List ((ℤ × ℤ) × PathNode)) (best : Option PathNode),
      l.foldl (fun best p =>
        match best with
        | none => some p.2
        | some b => if p.2.f.lt b.f then some p.2 else best) best = some n →
      (∃ p ∈ l, p.2 = n) ∨ best = some n := by
    intro l
    induction l with
    | nil => intro best hb; exact Or.inr hb
    | cons p t ih =>
      intro best hb
      rw [List.foldl_cons] at hb
      rcases ih _ hb with h1 | h2
      · obtain ⟨p2, hp2, hpe⟩ := h1
        exact Or.inl ⟨p2, List.mem_cons_of_mem p hp2, hpe⟩
      · cases best with
        | none =>
          dsimp only at h2
          injection h2 with he
          exact Or.inl ⟨p, List.mem_cons_self p t, he⟩
        | some b =>
          dsimp only at h2
          by_cases hlt : p.2.f.lt b.f = true
          · rw [if_pos hlt] at h2
            injection h2 with he
            exact Or.inl ⟨p, List.mem_cons_self p t, he⟩
          · rw [if_neg hlt] at h2
            exact Or.inr h2
  unfold pickBest at h
  rcases aux opn none h with h1 | h2
  · exact h1
  · cases h2

theorem expand_inv (nm : NavMesh) (endGx endGz : ℤ) (cur : PathNode)
    (closed opn : List ((ℤ × ℤ) × PathNode))
    (hopn : ∀ p ∈ opn, nm.isWalkable p.2.gx p.2.gz = true) :
    ∀ p ∈ expand nm endGx endGz cur closed opn, nm.isWalkable p.2.gx p.2.gz = true := by
  unfold expand
  refine foldl_preserve (fun op => ∀ p ∈ op, nm.isWalkable p.2.gx p.2.gz = true) _ ?_ _ opn hopn
  intro op b hop
  obtain ⟨i, d⟩ := b
  dsimp only
  by_cases hcl : (mapGet closed (cur.gx + d.1, cur.gz + d.2)).isSome = true
  · rw [if_pos hcl]
    exact hop
  · rw [if_neg hcl]
    by_cases hwk : nm.isWalkable (cur.gx + d.1) (cur.gz + d.2) = true
    · rw [if_neg (by simp [hwk])]
      cases hmg : mapGet op (cur.gx + d.1, cur.gz + d.2) with
      | none =>
        simp only [hmg]
        intro p hp
        rcases mem_mapSet _ _ _ p hp with h1 | h2
        · exact hop p h1
        · rw [h2]
          exact hwk
      | some nb =>
        simp only [hmg]
        by_cases hlt : Q2.lt (cur.g.add (if i < 4 then ⟨1, 0⟩ else ⟨0, 1⟩)) nb.g = true
        · rw [if_pos hlt]
          intro p hp
          rcases mem_mapSet _ _ _ p hp with h1 | h2
          · exact hop p h1
          · rw [h2]
            exact hop (_, nb) (mapGet_mem op _ nb hmg)
        · rw [if_neg hlt]
          exact hop
    · rw [if_pos (by simp [hwk])]
      exact hop

theorem walkParents_points (nm : NavMesh) (closed : List ((ℤ × ℤ) × PathNode))
    (hclosed : ∀ (k : ℤ × ℤ) (nn : PathNode), mapGet closed k = some nn →
      nm.isWalkable nn.gx nn.gz = true) :
    ∀ (fuel : ℕ) (n : PathNode) (acc : List PathPoint),
      nm.isWalkable n.gx n.gz = true →
      (∀ w ∈ acc, ∃ gx gz, w = nm.gridToWorld gx gz ∧ nm.isWalkable gx gz = true) →
      ∀ w ∈ walkParents nm closed fuel n acc,
        ∃ gx gz, w = nm.gridToWorld gx gz ∧ nm.isWalkable gx gz = true := by
  intro fuel
  induction fuel with
  | zero =>
    intro n acc hn hacc w hw
    exact hacc w hw
  | succ f ih =>
    intro n acc hn hacc w hw
    have hacc2 : ∀ w2 ∈ nm.gridToWorld n.gx n.gz :: acc,
        ∃ gx gz, w2 = nm.gridToWorld gx gz ∧ nm.isWalkable gx gz = true := by
      intro w2 hw2
      rcases List.mem_cons.mp hw2 with h1 | h2
      · exact ⟨n.gx, n.gz, h1, hn⟩
      · exact hacc w2 h2
    unfold walkParents at hw
    cases hp : n.parent with
    | none =>
      rw [hp] at hw
      dsimp only at hw
      exact hacc2 w hw
    | some pk =>
      rw [hp] at hw
      dsimp only at hw
      cases hg : mapGet closed pk with
      | none =>
        rw [hg] at hw
        exact hacc2 w hw
      | some pn =>
        rw [hg] at hw
        exact ih pn _ (hclosed pk pn hg) hacc2 w hw

theorem astarLoop_points (nm : NavMesh) (endGx endGz : ℤ) :
    ∀ (fuel : ℕ) (opn closed : List ((ℤ × ℤ) × PathNode)),
      (∀ p ∈ opn, nm.isWalkable p.2.gx p.2.gz = true) →
      (∀ (k : ℤ × ℤ) (nn : PathNode), mapGet closed k = some nn →
        nm.isWalkable nn.gx nn.gz = true) →
      ∀ w ∈ astarLoop nm endGx endGz fuel opn closed,
        ∃ gx gz, w = nm.gridToWorld gx gz ∧ nm.isWalkable gx gz = true := by
  intro fuel
  induction fuel with
  | zero =>
    intro opn closed _ _ w hw
    cases hw
  | succ f ih =>
    intro opn closed hopn hclosed w hw
    unfold astarLoop at hw
    by_cases hemp : opn.isEmpty = true
    · rw [if_pos hemp] at hw
      cases hw
    · rw [if_neg hemp] at hw
      cases hpb : pickBest opn with
      | none =>
        rw [hpb] at hw
        cases hw
      | some cur =>
        rw [hpb] at hw
        dsimp only at hw
        have hcur : nm.isWalkable cur.gx cur.gz = true := by
          obtain ⟨p, hp, hpe⟩ := pickBest_mem opn cur hpb
          rw [← hpe]
          exact hopn p hp
        have hclosed2 : ∀ (k : ℤ × ℤ) (nn : PathNode),
            mapGet (mapSet closed (cur.gx, cur.gz) cur) k = some nn →
            nm.isWalkable nn.gx nn.gz = true := by
          intro k nn hk
          rw [mapGet_mapSet] at hk
          by_cases hke : k = (cur.gx, cur.gz)
          · rw [if_pos hke] at hk
            injection hk with he
            rw [← he]
            exact hcur
          · rw [if_neg hke] at hk
            exact hclosed k nn hk
        by_cases hgoal : cur.gx = endGx ∧ cur.gz = endGz
        · rw [if_pos hgoal] at hw
          unfold reconstructPath at hw
          have hwp := walkParents_points nm (mapSet closed (cur.gx, cur.gz) cur) hclosed2
            (List.length (mapSet closed (cur.gx, cur.gz) cur) + 1) cur [] hcur
            (by intro w2 hw2; cases hw2)
          exact hwp w (simplifyPath_subset _ w hw)
        · rw [if_neg hgoal] at hw
          refine ih _ _ ?_ hclosed2 w hw
          refine expand_inv nm endGx endGz cur _ _ ?_
          intro p hp
          exact hopn p (mem_mapDelete _ _ p hp)

theorem findPath_waypoints (nm : NavMesh) (hcs : 0 < nm.cellSize) (fx fz tx tz : ℚ)
    (w : PathPoint) (hw : w ∈ nm.findPath fx fz tx tz) :
    nm.isWalkable (nm.worldToGrid w.x w.z).1 (nm.worldToGrid w.x w.z).2 = true := by
  unfold NavMesh.findPath at hw
  cases hs : nm.nearestWalkable fx fz with
  | none =>
    rw [hs] at hw
    cases hw
  | some s =>
    cases he : nm.nearestWalkable tx tz with
    | none =>
      rw [hs, he] at hw
      cases hw
    | some e =>
      rw [hs, he] at hw
      dsimp only at hw
      by_cases hceq : nm.worldToGrid s.x s.z = nm.worldToGrid e.x e.z
      · rw [if_pos hceq] at hw
        rw [List.mem_singleton.mp hw]
        exact nearestWalkable_walkable nm hcs tx tz e he
      · rw [if_neg hceq] at hw
        have hstart : ∀ p ∈ [(((nm.worldToGrid s.x s.z).1, (nm.worldToGrid s.x s.z).2),
            ({ gx := (nm.worldToGrid s.x s.z).1, gz := (nm.worldToGrid s.x s.z).2,
               g := ⟨0, 0⟩,
               hrad := heuristicRad (nm.worldToGrid s.x s.z).1 (nm.worldToGrid s.x s.z).2
                 (nm.worldToGrid e.x e.z).1 (nm.worldToGrid e.x e.z).2,
               f := ⟨⟨0, 0⟩, heuristicRad (nm.worldToGrid s.x s.z).1 (nm.worldToGrid s.x s.z).2
                 (nm.worldToGrid e.x e.z).1 (nm.worldToGrid e.x e.z).2⟩,
               parent := none } : PathNode))],
            nm.isWalkable p.2.gx p.2.gz = true := by
          intro p hp
          rw [List.mem_singleton.mp hp]
          exact nearestWalkable_walkable nm hcs fx fz s hs
        have := astarLoop_points nm (nm.worldToGrid e.x e.z).1 (nm.worldToGrid e.x e.z).2
          (nm.grid.length + 1) _ [] hstart (by intro k nn hk; cases hk) w hw
        obtain ⟨gx, gz, hweq, hwk⟩ := this
        rw [hweq, worldToGrid_gridToWorld nm hcs gx gz]
        exact hwk

set_option maxRecDepth 8000 in
/-- Counterexample to claim C4 as stated: on the built grid `nm4`, the
same-cell query `findPath(0.1, 0.1, 0.1, 0.1)` returns the raw snapped point
`(0.1, 0.1)`, which is not the world-space center of any grid cell at all
(cell centers have `x = -4 + (gx + 1/2)/2`, never `1/10`), let alone of a
non-prop-blocked one. -/
theorem c4_counterexample :
    nm4.findPath (1/10) (1/10) (1/10) (1/10) = [⟨1/10, 1/10⟩] ∧
    ∀ g : ℤ × ℤ, nm4.gridToWorld g.1 g.2 ≠ ⟨1/10, 1/10⟩ := by
  constructor
  · decide
  · intro g hg
    have hminX : nm4.minX = -4 := by decide
    have hcs : nm4.cellSize = 1/2 := by decide
    have hx : nm4.minX + ((g.1 : ℚ) + 1/2) * nm4.cellSize = 1/10 :=
      congrArg PathPoint.x hg
    rw [hminX, hcs] at hx
    have h10 : ((10 * g.1 : ℤ) : ℚ) = 77 := by
      push_cast
      linarith
    have h10z : (10 * g.1 : ℤ) = 77 := by
      exact_mod_cast h10
    omega

/-- Claim C4, amended.  On every grid reachable by `build` followed by any
sequence of `unblockAt` calls, every waypoint of every returned path lies in
a grid cell that is walkable and whose `propBlocked` flag is not `true`
(waypoints are the centers of such cells except in the single-cell case,
where the raw snapped destination point is returned — see
`c4_counterexample`). -/
theorem c4_path_cells_walkable_not_propBlocked (level : LevelSchema)
    (ops : List (ℚ × ℚ × ℚ)) (fx fz tx tz : ℚ) (w : PathPoint)
    (hw : w ∈ (applyUnblocks (build NavMesh.init level) ops).findPath fx fz tx tz) :
    ∃ c, mapGet (applyUnblocks (build NavMesh.init level) ops).grid
        ((applyUnblocks (build NavMesh.init level) ops).worldToGrid w.x w.z) = some c ∧
      c.walkable = true ∧ c.propBlocked ≠ some true := by
  have hcs : (applyUnblocks (build NavMesh.init level) ops).cellSize = 1/2 := by
    rw [applyUnblocks_cellSize, build_cellSize]
    rfl
  have hpos : 0 < (applyUnblocks (build NavMesh.init level) ops).cellSize := by
    rw [hcs]
    norm_num
  have hwk := findPath_waypoints _ hpos fx fz tx tz w hw
  have hOK := cellsOK_reachable NavMesh.init level ops
  unfold NavMesh.isWalkable NavMesh.getCell at hwk
  cases hc : mapGet (applyUnblocks (build NavMesh.init level) ops).grid
      ((applyUnblocks (build NavMesh.init level) ops).worldToGrid w.x w.z) with
  | none =>
    simp only [hc] at hwk
    cases hwk
  | some c =>
    simp only [hc] at hwk
    rcases hOK _ c hc with h1 | h2
    · refine ⟨c, rfl, hwk, ?_⟩
      rw [h1]
      simp
    · rw [h2] at hwk
      cases hwk

set_option maxRecDepth 8000 in
/-- Witness for the amended claim C4: the single waypoint of
`findPath(0.1, 0.1, 0.1, 0.1)` on the freshly built `lvl4` grid lies in a
walkable, non-prop-blocked cell. -/
theorem c4_witness :
    ∃ c, mapGet (applyUnblocks (build NavMesh.init lvl4) []).grid
        ((applyUnblocks (build NavMesh.init lvl4) []).worldToGrid (1/10) (1/10)) = some c ∧
      c.walkable = true ∧ c.propBlocked ≠ some true :=
  c4_path_cells_walkable_not_propBlocked lvl4 [] (1/10) (1/10) (1/10) (1/10) ⟨1/10, 1/10⟩
    (by decide)

/-! ### Claim C2: the 0.5 s recompute throttle -/

theorem gmdDirect_st (sq : ℚ → ℚ) (dx dz distSq : ℚ) (st : PFState) :
    (gmdDirect sq dx dz distSq st).st = st := by
  unfold gmdDirect
  dsimp only
  split <;> rfl

theorem gmdRest_st (sq : ℚ → ℚ) (posX posZ dx dz distSq : ℚ) (st : PFState) :
    (gmdRest sq posX posZ dx dz distSq st).st =
      { st with index := advanceIndex st.path posX posZ st.index (st.path.length + 1) } := by
  unfold gmdRest
  dsimp only
  split
  · split <;> rfl
  · split
    · rfl
    · split <;> rfl

theorem needRecompute_fresh (now : ℚ) : needRecompute freshPF now = true := rfl

theorem gmd_arrived (sq : ℚ → ℚ) (nav : Option NavMesh) (posX posZ tX tZ : ℚ)
    (s : Option PFState) (now : ℚ)
    (h : (tX - posX) * (tX - posX) + (tZ - posZ) * (tZ - posZ) <
      PATH_ARRIVE_RADIUS * PATH_ARRIVE_RADIUS) :
    getMoveDirection sq nav posX posZ tX tZ s now = ⟨none, s.getD freshPF⟩ := by
  unfold getMoveDirection
  rw [if_pos h]

theorem gmd_live (sq : ℚ → ℚ) (nm : NavMesh) (posX posZ tX tZ : ℚ)
    (s : Option PFState) (now : ℚ) (hb : nm.isBuilt = true)
    (h : ¬ ((tX - posX) * (tX - posX) + (tZ - posZ) * (tZ - posZ) <
      PATH_ARRIVE_RADIUS * PATH_ARRIVE_RADIUS)) :
    getMoveDirection sq (some nm) posX posZ tX tZ s now =
      (if needRecompute (s.getD freshPF) now = true then
        (if (nm.findPath posX posZ tX tZ).isEmpty then
          gmdDirect sq (tX - posX) (tZ - posZ)
            ((tX - posX) * (tX - posX) + (tZ - posZ) * (tZ - posZ))
            ⟨nm.findPath posX posZ tX tZ, 0, now⟩
        else
          gmdRest sq posX posZ (tX - posX) (tZ - posZ)
            ((tX - posX) * (tX - posX) + (tZ - posZ) * (tZ - posZ))
            ⟨nm.findPath posX posZ tX tZ, 0, now⟩)
      else
        gmdRest sq posX posZ (tX - posX) (tZ - posZ)
          ((tX - posX) * (tX - posX) + (tZ - posZ) * (tZ - posZ)) (s.getD freshPF)) := by
  unfold getMoveDirection
  rw [if_neg h]
  dsimp only
  rw [hb]
  simp only [Bool.true_eq_false, if_false]

theorem after_call_last_ge (sq : ℚ → ℚ) (nm : NavMesh) (c : CallIn) (s : Option PFState)
    (t : ℚ) (hb : nm.isBuilt = true) (ht : t ≤ c.now)
    (hs : s = none ∨ ∃ v, s = some v ∧ t ≤ v.lastRecomputeTime) :
    keepState s (getMoveDirection sq (some nm) c.posX c.posZ c.targetX c.targetZ s c.now) =
        none ∨
      ∃ v, keepState s (getMoveDirection sq (some nm) c.posX c.posZ c.targetX c.targetZ
        s c.now) = some v ∧ t ≤ v.lastRecomputeTime := by
  by_cases ha : (c.targetX - c.posX) * (c.targetX - c.posX) +
      (c.targetZ - c.posZ) * (c.targetZ - c.posZ) <
      PATH_ARRIVE_RADIUS * PATH_ARRIVE_RADIUS
  · rw [gmd_arrived sq (some nm) c.posX c.posZ c.targetX c.targetZ s c.now ha]
    rcases hs with h1 | ⟨v, hv, hvt⟩
    · subst h1
      exact Or.inl rfl
    · subst hv
      exact Or.inr ⟨v, rfl, hvt⟩
  · rw [gmd_live sq nm c.posX c.posZ c.targetX c.targetZ s c.now hb ha]
    by_cases hrec : needRecompute (s.getD freshPF) c.now = true
    · rw [if_pos hrec]
      by_cases hemp : (nm.findPath c.posX c.posZ c.targetX c.targetZ).isEmpty = true
      · rw [if_pos hemp]
        have hst := gmdDirect_st sq (c.targetX - c.posX) (c.targetZ - c.posZ)
          ((c.targetX - c.posX) * (c.targetX - c.posX) +
            (c.targetZ - c.posZ) * (c.targetZ - c.posZ))
          ⟨nm.findPath c.posX c.posZ c.targetX c.targetZ, 0, c.now⟩
        unfold keepState
        cases hdir : (gmdDirect sq (c.targetX - c.posX) (c.targetZ - c.posZ)
            ((c.targetX - c.posX) * (c.targetX - c.posX) +
              (c.targetZ - c.posZ) * (c.targetZ - c.posZ))
            ⟨nm.findPath c.posX c.posZ c.targetX c.targetZ, 0, c.now⟩).dir with
        | none =>
          cases s with
          | none => exact Or.inl rfl
          | some v0 => exact Or.inr ⟨_, rfl, by rw [hst]; exact ht⟩
        | some d => exact Or.inr ⟨_, rfl, by rw [hst]; exact ht⟩
      · rw [if_neg hemp]
        have hst := gmdRest_st sq c.posX c.posZ (c.targetX - c.posX) (c.targetZ - c.posZ)
          ((c.targetX - c.posX) * (c.targetX - c.posX) +
            (c.targetZ - c.posZ) * (c.targetZ - c.posZ))
          ⟨nm.findPath c.posX c.posZ c.targetX c.targetZ, 0, c.now⟩
        unfold keepState
        cases hdir : (gmdRest sq c.posX c.posZ (c.targetX - c.posX) (c.targetZ - c.posZ)
            ((c.targetX - c.posX) * (c.targetX - c.posX) +
              (c.targetZ - c.posZ) * (c.targetZ - c.posZ))
            ⟨nm.findPath c.posX c.posZ c.targetX c.targetZ, 0, c.now⟩).dir with
        | none =>
          cases s with
          | none => exact Or.inl rfl
          | some v0 => exact Or.inr ⟨_, rfl, by rw [hst]; exact ht⟩
        | some d => exact Or.inr ⟨_, rfl, by rw [hst]; exact ht⟩
    · rw [if_neg hrec]
      cases s with
      | none =>
        exact absurd (needRecompute_fresh c.now) (by simpa using hrec)
      | some v =>
        rcases hs with h1 | ⟨v2, hv2, hvt⟩
        · cases h1
        · have hv2e : v2 = v := by injection hv2 with h3; exact h3.symm
          subst hv2e
          have hst := gmdRest_st sq c.posX c.posZ (c.targetX - c.posX) (c.targetZ - c.posZ)
            ((c.targetX - c.posX) * (c.targetX - c.posX) +
              (c.targetZ - c.posZ) * (c.targetZ - c.posZ)) ((some v2).getD freshPF)
          unfold keepState
          cases hdir : (gmdRest sq c.posX c.posZ (c.targetX - c.posX) (c.targetZ - c.posZ)
              ((c.targetX - c.posX) * (c.targetX - c.posX) +
                (c.targetZ - c.posZ) * (c.targetZ - c.posZ)) ((some v2).getD freshPF)).dir with
          | none => exact Or.inr ⟨_, rfl, by rw [hst]; simpa using hvt⟩
          | some d => exact Or.inr ⟨_, rfl, by rw [hst]; simpa using hvt⟩

theorem after_recompute_last (sq : ℚ → ℚ) (nm : NavMesh) (c : CallIn) (s : Option PFState)
    (hev : recomputeEvent nm c s = true) :
    keepState s (getMoveDirection sq (some nm) c.posX c.posZ c.targetX c.targetZ s c.now) =
        none ∨
      ∃ v, keepState s (getMoveDirection sq (some nm) c.posX c.posZ c.targetX c.targetZ
        s c.now) = some v ∧ v.lastRecomputeTime = c.now := by
  unfold recomputeEvent at hev
  simp only [Bool.and_eq_true, decide_eq_true_eq] at hev
  obtain ⟨⟨ha, hb⟩, hrec⟩ := hev
  rw [gmd_live sq nm c.posX c.posZ c.targetX c.targetZ s c.now hb ha]
  rw [if_pos hrec]
  by_cases hemp : (nm.findPath c.posX c.posZ c.targetX c.targetZ).isEmpty = true
  · rw [if_pos hemp]
    have hst := gmdDirect_st sq (c.targetX - c.posX) (c.targetZ - c.posZ)
      ((c.targetX - c.posX) * (c.targetX - c.posX) +
        (c.targetZ - c.posZ) * (c.targetZ - c.posZ))
      ⟨nm.findPath c.posX c.posZ c.targetX c.targetZ, 0, c.now⟩
    unfold keepState
    cases hdir : (gmdDirect sq (c.targetX - c.posX) (c.targetZ - c.posZ)
        ((c.targetX - c.posX) * (c.targetX - c.posX) +
          (c.targetZ - c.posZ) * (c.targetZ - c.posZ))
        ⟨nm.findPath c.posX c.posZ c.targetX c.targetZ, 0, c.now⟩).dir with
    | none =>
      cases s with
      | none => exact Or.inl rfl
      | some v0 => exact Or.inr ⟨_, rfl, by rw [hst]⟩
    | some d => exact Or.inr ⟨_, rfl, by rw [hst]⟩
  · rw [if_neg hemp]
    have hst := gmdRest_st sq c.posX c.posZ (c.targetX - c.posX) (c.targetZ - c.posZ)
      ((c.targetX - c.posX) * (c.targetX - c.posX) +
        (c.targetZ - c.posZ) * (c.targetZ - c.posZ))
      ⟨nm.findPath c.posX c.posZ c.targetX c.targetZ, 0, c.now⟩
    unfold keepState
    cases hdir : (gmdRest sq c.posX c.posZ (c.targetX - c.posX) (c.targetZ - c.posZ)
        ((c.targetX - c.posX) * (c.targetX - c.posX) +
          (c.targetZ - c.posZ) * (c.targetZ - c.posZ))
        ⟨nm.findPath c.posX c.posZ c.targetX c.targetZ, 0, c.now⟩).dir with
    | none =>
      cases s with
      | none => exact Or.inl rfl
      | some v0 => exact Or.inr ⟨_, rfl, by rw [hst]⟩
    | some d => exact Or.inr ⟨_, rfl, by rw [hst]⟩

theorem stateAfter_cons (sq : ℚ → ℚ) (nm : NavMesh) (c : CallIn) (l : List CallIn)
    (s : Option PFState) :
    stateAfter sq nm (c :: l) s = stateAfter sq nm l
      (keepState s (getMoveDirection sq (some nm) c.posX c.posZ c.targetX c.targetZ s c.now)) :=
  rfl

theorem stateAfter_append (sq : ℚ → ℚ) (nm : NavMesh) (l1 l2 : List CallIn)
    (s : Option PFState) :
    stateAfter sq nm (l1 ++ l2) s = stateAfter sq nm l2 (stateAfter sq nm l1 s) := by
  unfold stateAfter
  rw [List.foldl_append]

theorem stateAfter_last_ge (sq : ℚ → ℚ) (nm : NavMesh) (t : ℚ) (hb : nm.isBuilt = true) :
    ∀ (l : List CallIn) (s : Option PFState), (∀ c ∈ l, t ≤ c.now) →
      (s = none ∨ ∃ v, s = some v ∧ t ≤ v.lastRecomputeTime) →
      (stateAfter sq nm l s = none ∨
        ∃ v, stateAfter sq nm l s = some v ∧ t ≤ v.lastRecomputeTime) := by
  intro l
  induction l with
  | nil =>
    intro s _ hs
    exact hs
  | cons c rest ih =>
    intro s hl hs
    rw [stateAfter_cons]
    exact ih _ (fun c2 hc2 => hl c2 (List.mem_cons_of_mem c hc2))
      (after_call_last_ge sq nm c s t hb (hl c (List.mem_cons_self c rest)) hs)

theorem chain_head_lt :
    ∀ (l : List CallIn) (a : CallIn),
      List.Chain (fun x y : CallIn => x.now < y.now) a l → ∀ b ∈ l, a.now < b.now := by
  intro l
  induction l with
  | nil =>
    intro a _ b hb
    cases hb
  | cons x t ih =>
    intro a hch b hb
    cases hch with
    | cons hax hxt =>
      rcases List.mem_cons.mp hb with h1 | h2
      · rw [h1]
        exact hax
      · exact lt_trans hax (ih x hxt b h2)

/-- Claim C2.  For every sequence of `getMoveDirection` calls against a
built grid that thread the same `PathFollowState`, whenever two recompute
events (invocations of `findPath` that overwrite the cached path) occur at
call times `now1 < now2` with `now2 - now1 ≤ 0.5` (the recompute interval),
the state passed to the second call is exhausted: its waypoint index is at
or beyond the cached path's length (which covers an empty cached path). -/
theorem c2_recompute_throttle (sq : ℚ → ℚ) (nm : NavMesh) (s0 : Option PFState)
    (calls1 : List CallIn) (cA : CallIn) (calls2 : List CallIn) (cB : CallIn)
    (calls3 : List CallIn) (hb : nm.isBuilt = true)
    (hchain : List.Chain' (fun x y : CallIn => x.now < y.now)
      (calls1 ++ cA :: (calls2 ++ cB :: calls3)))
    (hev1 : recomputeEvent nm cA (stateAfter sq nm calls1 s0) = true)
    (hev2 : recomputeEvent nm cB (stateAfter sq nm (calls1 ++ cA :: calls2) s0) = true)
    (hgap : cB.now - cA.now ≤ RECOMPUTE_PATH_INTERVAL) :
    exhausted (stateAfter sq nm (calls1 ++ cA :: calls2) s0) := by
  have hsuffix : List.Chain' (fun x y : CallIn => x.now < y.now)
      (cA :: (calls2 ++ cB :: calls3)) :=
    List.Chain'.suffix hchain (List.suffix_append calls1 (cA :: (calls2 ++ cB :: calls3)))
  have hmono : ∀ b ∈ calls2 ++ cB :: calls3, cA.now < b.now :=
    chain_head_lt (calls2 ++ cB :: calls3) cA hsuffix
  have hmono2 : ∀ b ∈ calls2, cA.now ≤ b.now := fun b hbm =>
    le_of_lt (hmono b (List.mem_append_left _ hbm))
  have hs1 := after_recompute_last sq nm cA (stateAfter sq nm calls1 s0) hev1
  have hs2 : stateAfter sq nm (calls1 ++ cA :: calls2) s0 = none ∨
      ∃ v, stateAfter sq nm (calls1 ++ cA :: calls2) s0 = some v ∧
        cA.now ≤ v.lastRecomputeTime := by
    rw [stateAfter_append, stateAfter_cons]
    refine stateAfter_last_ge sq nm cA.now hb calls2 _ hmono2 ?_
    rcases hs1 with h1 | ⟨v, hv, hvt⟩
    · exact Or.inl h1
    · exact Or.inr ⟨v, hv, le_of_eq hvt.symm⟩
  unfold recomputeEvent at hev2
  simp only [Bool.and_eq_true, decide_eq_true_eq] at hev2
  obtain ⟨⟨_, _⟩, hrec⟩ := hev2
  unfold needRecompute at hrec
  simp only [Bool.or_eq_true, decide_eq_true_eq] at hrec
  unfold exhausted
  rcases hs2 with h1 | ⟨v, hv, hvt⟩
  · rw [h1]
    exact le_refl 0
  · rw [hv]
    simp only [Option.getD_some]
    rw [hv] at hrec
    simp only [Option.getD_some] at hrec
    rcases hrec with (hz | hle) | hint
    · omega
    · exact hle
    · exfalso
      unfold RECOMPUTE_PATH_INTERVAL at hgap hint
      linarith

set_option maxRecDepth 20000 in
/-- Witness for claim C2: on the built grid `nm2`, three concrete calls at
times 1, 1.2 and 1.4 with recompute events at the first and third calls,
0.4 s apart; the state passed to the third call has index 3 at path length
3 — the cached path is exhausted. -/
theorem c2_witness : exhausted (stateAfter sqOne nm2 ([] ++ pfCall1 :: [pfCall2]) none) :=
  c2_recompute_throttle sqOne nm2 none [] pfCall1 [pfCall2] pfCall3 [] (by decide)
    (by norm_num [List.chain'_cons, pfCall1, pfCall2, pfCall3])
    (by decide) (by decide) (by norm_num [RECOMPUTE_PATH_INTERVAL, pfCall1, pfCall3])

/-! ### Claim C6: alert propagation on state entry -/

/-- Counterexample to claim C6 as stated: the patrol state's `enter` on a
concrete agent with one waypoint plays `walk` and faces the waypoint but
never calls `propagateAlert`. -/
theorem c6_counterexample :
    (patrolEnter enemy1 ⟨0, 0, none⟩).2 = [Eff.play "walk", Eff.lookAt 5 0] ∧
    Eff.propagateAlert ∉ (patrolEnter enemy1 ⟨0, 0, none⟩).2 := by
  constructor
  · rfl
  · decide

/-- Claim C6, amended.  The alert and attack states invoke `propagateAlert`
from their `enter` handlers for every agent and closure state; the patrol
state's `enter` never does (on either of its branches). -/
theorem c6_alert_attack_propagate_patrol_not (e : Enemy) (sA : AlertSt) (sT : AttackSt)
    (sP : PatrolSt) (r1 r2 : ℚ) :
    Eff.propagateAlert ∈ (alertEnter e sA).2 ∧
    Eff.propagateAlert ∈ (attackEnter r1 r2 e sT).2 ∧
    Eff.propagateAlert ∉ (patrolEnter e sP).2 := by
  refine ⟨?_, ?_, ?_⟩
  · unfold alertEnter
    cases e.lastKnownPlayerPos <;> simp
  · unfold attackEnter
    simp
  · unfold patrolEnter
    cases e.waypoints <;> simp

/-! ### Claim C7: attack movement branch selection by distance -/

/-- Claim C7.  The attack state's movement branch is a function of the
perceived distance alone: it approaches exactly when the distance exceeds
`PREFERRED_RANGE + 2 = 10`, retreats exactly when it is below
`PREFERRED_RANGE - 2 = 6`, and strafes exactly on the band `6 ≤ d ≤ 10`; in
particular distance 20 approaches, 3 retreats and 8 strafes. -/
theorem c7_attack_branch_by_distance :
    (∀ d : ℚ, attackBranchOf d = AttackBranch.approach ↔ d > PREFERRED_RANGE + 2) ∧
    (∀ d : ℚ, attackBranchOf d = AttackBranch.retreat ↔ d < PREFERRED_RANGE - 2) ∧
    (∀ d : ℚ, attackBranchOf d = AttackBranch.strafe ↔
      PREFERRED_RANGE - 2 ≤ d ∧ d ≤ PREFERRED_RANGE + 2) ∧
    attackBranchOf 20 = AttackBranch.approach ∧
    attackBranchOf 3 = AttackBranch.retreat ∧
    attackBranchOf 8 = AttackBranch.strafe := by
  refine ⟨?_, ?_, ?_, by decide, by decide, by decide⟩ <;>
    intro d <;> unfold attackBranchOf <;> unfold PREFERRED_RANGE <;>
    split_ifs with h1 h2 <;> simp_all <;> linarith

/-! ### Claim C8: the 3 s lose-sight timeout -/

theorem mem_append_ite_transition (l : List Eff) (c : Prop) [Decidable c]
    (hl : Eff.transition "alert" ∉ l) :
    (Eff.transition "alert" ∈ l ++ (if c then [Eff.transition "alert"] else [])) ↔ c := by
  by_cases h : c
  · simp [h]
  · simp [h, hl]

theorem attackUnseen_step (sq : ℚ → ℚ) (fin : FrameIn) (dt : ℚ) (e2 : Enemy)
    (s2 : AttackSt) :
    (attackUnseen sq fin dt e2 s2).2.1.lostSightTimer = s2.lostSightTimer + dt ∧
    (Eff.transition "alert" ∈ (attackUnseen sq fin dt e2 s2).2.2 ↔
      LOSE_SIGHT_TIMEOUT ≤ s2.lostSightTimer + dt) := by
  unfold attackUnseen
  dsimp only
  cases hlk : e2.lastKnownPlayerPos with
  | none =>
    refine ⟨rfl, ?_⟩
    rw [mem_append_ite_transition [] _ (by simp)]
  | some target =>
    dsimp only
    by_cases hd : sq ((target.x - e2.posX) * (target.x - e2.posX) +
        (target.z - e2.posZ) * (target.z - e2.posZ)) > CHASE_ARRIVE_RADIUS
    · rw [if_pos hd]
      cases hdir : (getMoveDirection sq fin.navMesh e2.posX e2.posZ target.x target.z
          s2.pathState fin.now).dir with
      | some dvec =>
        simp only [hdir]
        refine ⟨trivial, ?_⟩
        rw [mem_append_ite_transition _ _ (by simp)]
      | none =>
        simp only [hdir]
        refine ⟨trivial, ?_⟩
        rw [mem_append_ite_transition _ _ (by simp)]
    · rw [if_neg hd]
      refine ⟨rfl, ?_⟩
      rw [mem_append_ite_transition _ _ (by simp)]

theorem attackUpdate_unseen_step (sq : ℚ → ℚ) (fin : FrameIn) (dt : ℚ) (e : Enemy)
    (s : AttackSt) (hns : noSeeHear fin) :
    (attackUpdate sq fin dt e s).2.1.lostSightTimer = s.lostSightTimer + dt ∧
    (Eff.transition "alert" ∈ (attackUpdate sq fin dt e s).2.2 ↔
      LOSE_SIGHT_TIMEOUT ≤ s.lostSightTimer + dt) := by
  unfold attackUpdate
  cases hp : fin.perception with
  | none =>
    exact attackUnseen_step sq fin dt e s
  | some p =>
    unfold noSeeHear at hns
    rw [hp] at hns
    obtain ⟨hsee, hhear⟩ := hns
    dsimp only
    rw [hsee, hhear]
    simp only [Bool.false_eq_true, if_false]
    exact attackUnseen_step sq fin dt e s

theorem sumDts_nonneg (frames : List (FrameIn × ℚ)) (h : ∀ f ∈ frames, 0 ≤ f.2) :
    0 ≤ sumDts frames := by
  unfold sumDts
  refine List.sum_nonneg ?_
  intro q hq
  obtain ⟨f, hf, hfe⟩ := List.mem_map.mp hq
  rw [← hfe]
  exact h f hf

theorem runAttack_transition (sq : ℚ → ℚ) :
    ∀ (frames : List (FrameIn × ℚ)) (e : Enemy) (s : AttackSt),
      (∀ f ∈ frames, noSeeHear f.1) → (∀ f ∈ frames, 0 ≤ f.2) →
      (transitioned (runAttack sq frames e s).2.2 "alert" ↔
        LOSE_SIGHT_TIMEOUT ≤ s.lostSightTimer + sumDts frames ∧ frames ≠ []) := by
  intro frames
  induction frames with
  | nil =>
    intro e s _ _
    simp [runAttack, transitioned]
  | cons f rest ih =>
    intro e s hns hdt
    obtain ⟨hstep1, hstep2⟩ := attackUpdate_unseen_step sq f.1 f.2 e s
      (hns f (List.mem_cons_self f rest))
    have hrest := ih (attackUpdate sq f.1 f.2 e s).1 (attackUpdate sq f.1 f.2 e s).2.1
      (fun f2 hf2 => hns f2 (List.mem_cons_of_mem f hf2))
      (fun f2 hf2 => hdt f2 (List.mem_cons_of_mem f hf2))
    have hsum : 0 ≤ sumDts rest :=
      sumDts_nonneg rest (fun f2 hf2 => hdt f2 (List.mem_cons_of_mem f hf2))
    have hrun : (runAttack sq (f :: rest) e s).2.2 =
        (attackUpdate sq f.1 f.2 e s).2.2 ::
          (runAttack sq rest (attackUpdate sq f.1 f.2 e s).1
            (attackUpdate sq f.1 f.2 e s).2.1).2.2 := rfl
    rw [hrun]
    have hsumc : sumDts (f :: rest) = f.2 + sumDts rest := by
      unfold sumDts
      simp
    unfold transitioned at hrest ⊢
    constructor
    · intro hmem
      obtain ⟨l, hl, hml⟩ := hmem
      rcases List.mem_cons.mp hl with h1 | h2
      · subst h1
        have h3 := hstep2.mp hml
        refine ⟨?_, by simp⟩
        rw [hsumc]
        linarith
      · have h4 := hrest.mp ⟨l, h2, hml⟩
        refine ⟨?_, by simp⟩
        rw [hstep1] at h4
        rw [hsumc]
        linarith [h4.1]
    · intro hle
      by_cases hrestnil : rest = []
      · subst hrestnil
        have h5 : LOSE_SIGHT_TIMEOUT ≤ s.lostSightTimer + f.2 := by
          rw [hsumc] at hle
          simpa [sumDts] using hle.1
        exact ⟨_, List.mem_cons_self _ _, hstep2.mpr h5⟩
      · have h6 : LOSE_SIGHT_TIMEOUT ≤
            (attackUpdate sq f.1 f.2 e s).2.1.lostSightTimer + sumDts rest := by
          rw [hstep1]
          rw [hsumc] at hle
          linarith [hle.1]
        obtain ⟨l, hl, hml⟩ := hrest.mpr ⟨h6, hrestnil⟩
        exact ⟨l, List.mem_cons_of_mem _ hl, hml⟩

/-- Claim C8.  In the attack state, with the player never seen nor heard and
the lose-sight timer starting at zero, the transition to `alert` occurs in
some frame of a run exactly when the total elapsed update time reaches the
3-second timeout (so it has occurred after 3.01 s of updates and has not
after 2.99 s); and any frame in which the player is heard resets the
lose-sight timer to zero and refreshes the last known player position. -/
theorem c8_lose_sight_timeout :
    (∀ (sq : ℚ → ℚ) (frames : List (FrameIn × ℚ)) (e : Enemy) (s : AttackSt),
      s.lostSightTimer = 0 → (∀ f ∈ frames, noSeeHear f.1) → (∀ f ∈ frames, 0 ≤ f.2) →
      (transitioned (runAttack sq frames e s).2.2 "alert" ↔
        LOSE_SIGHT_TIMEOUT ≤ sumDts frames)) ∧
    (∀ (sq : ℚ → ℚ) (fin : FrameIn) (dt : ℚ) (e : Enemy) (s : AttackSt),
      (match fin.perception with
       | some p => p.canHearPlayer
       | none => false) = true →
      (attackUpdate sq fin dt e s).2.1.lostSightTimer = 0 ∧
      (attackUpdate sq fin dt e s).1.lastKnownPlayerPos =
        some ⟨fin.playerPosX, fin.playerPosZ⟩) := by
  constructor
  · intro sq frames e s hz hns hdt
    rw [runAttack_transition sq frames e s hns hdt, hz]
    constructor
    · intro h
      rw [zero_add] at h
      exact h.1
    · intro h
      refine ⟨by rw [zero_add]; exact h, ?_⟩
      intro hnil
      subst hnil
      rw [show sumDts [] = 0 from rfl] at h
      have : (0 : ℚ) < LOSE_SIGHT_TIMEOUT := by norm_num [LOSE_SIGHT_TIMEOUT]
      linarith
  · intro sq fin dt e s hhear
    unfold attackUpdate
    cases hp : fin.perception with
    | none =>
      rw [hp] at hhear
      cases hhear
    | some p =>
      rw [hp] at hhear
      have hh : p.canHearPlayer = true := hhear
      dsimp only
      rw [hh]
      simp only [if_true]
      exact ⟨rfl, rfl⟩

/-- Witness for claim C8: with no perception at all, frames of 2.99 s plus
0.02 s produce the transition to `alert` (total 3.01 s ≥ 3), while the
single 2.99 s frame does not. -/
theorem c8_witness :
    transitioned (runAttack sqOne [(quietFrame, 299/100), (quietFrame, 1/50)]
      enemy0 attackSt0).2.2 "alert" ∧
    ¬ transitioned (runAttack sqOne [(quietFrame, 299/100)] enemy0 attackSt0).2.2 "alert" := by
  have hns1 : ∀ f ∈ [((quietFrame, 299/100) : FrameIn × ℚ), (quietFrame, 1/50)],
      noSeeHear f.1 := by
    intro f hf
    rcases List.mem_cons.mp hf with h1 | h2
    · subst h1; trivial
    · rcases List.mem_cons.mp h2 with h3 | h4
      · subst h3; trivial
      · cases h4
  have hns2 : ∀ f ∈ [((quietFrame, 299/100) : FrameIn × ℚ)], noSeeHear f.1 := by
    intro f hf
    rcases List.mem_cons.mp hf with h1 | h2
    · subst h1; trivial
    · cases h2
  constructor
  · exact (c8_lose_sight_timeout.1 sqOne [(quietFrame, 299/100), (quietFrame, 1/50)]
      enemy0 attackSt0 rfl hns1 (by intro f hf; fin_cases hf <;> norm_num)).mpr
      (by norm_num [sumDts, LOSE_SIGHT_TIMEOUT])
  · intro hmem
    have h2 := (c8_lose_sight_timeout.1 sqOne [(quietFrame, 299/100)]
      enemy0 attackSt0 rfl hns2 (by intro f hf; fin_cases hf; norm_num)).mp hmem
    norm_num [sumDts, LOSE_SIGHT_TIMEOUT] at h2

theorem sq_sqrt_two : Real.sqrt 2 ^ 2 = 2 := Real.sq_sqrt (by norm_num)

theorem sqrt_two_pos : (0 : ℝ) < Real.sqrt 2 := Real.sqrt_pos.mpr (by norm_num)

theorem rat_sq_ne_two (q : ℚ) : (q : ℝ) ^ 2 ≠ 2 := by
  intro h
  have h2 : ((|q| : ℚ) : ℝ) = Real.sqrt 2 := by
    rw [← h, Real.sqrt_sq_eq_abs]
    push_cast
    rfl
  exact irrational_sqrt_two ⟨|q|, h2⟩

theorem rat_sq_ne_two_mul (a b : ℚ) (hb : b ≠ 0) : a ^ 2 ≠ 2 * b ^ 2 := by
  intro h
  have hq : ((a / b : ℚ) : ℝ) ^ 2 = 2 := by
    have h1 : (a / b) ^ 2 = 2 := by
      field_simp
      linarith [h]
    exact_mod_cast h1
  exact rat_sq_ne_two _ hq

theorem lt_iff_sq_lt (x y : ℝ) (hx : 0 ≤ x) (hy : 0 ≤ y) : x < y ↔ x ^ 2 < y ^ 2 :=
  ⟨fun h => by nlinarith, fun h => by nlinarith⟩

theorem eq_iff_sq_eq (x y : ℝ) (hx : 0 ≤ x) (hy : 0 ≤ y) : x = y ↔ x ^ 2 = y ^ 2 :=
  ⟨fun h => by rw [h], fun h => by nlinarith⟩

theorem Q2.sign_iff (p : Q2) :
    (p.sign = 1 ↔ 0 < p.toReal) ∧ (p.sign = 0 ↔ p.toReal = 0) ∧
    (p.sign = -1 ↔ p.toReal < 0) := by
  have hs := sqrt_two_pos
  have hs2 := sq_sqrt_two
  unfold Q2.sign Q2.toReal
  split_ifs with h1 h1z h2 h3 c1 c2 d1 d2
  · rw [h1z.1, h1z.2]
    norm_num
  · have hpos : 0 < (p.a : ℝ) + (p.b : ℝ) * Real.sqrt 2 := by
      rcases lt_or_eq_of_le h1.1 with ha | ha
      · have ha' : (0 : ℝ) < (p.a : ℝ) := by exact_mod_cast ha
        nlinarith [mul_nonneg (by exact_mod_cast h1.2 : (0:ℝ) ≤ (p.b : ℝ)) hs.le]
      · have hb : 0 < p.b := by
          rcases lt_or_eq_of_le h1.2 with hb | hb
          · exact hb
          · exact absurd ⟨ha.symm, hb.symm⟩ h1z
        have hb' : (0 : ℝ) < (p.b : ℝ) := by exact_mod_cast hb
        have ha' : (p.a : ℝ) = 0 := by exact_mod_cast ha.symm
        nlinarith [mul_pos hb' hs]
    refine ⟨by simp [hpos], by simp [ne_of_gt hpos], by simp [not_lt.mpr hpos.le]⟩
  · have hneg : (p.a : ℝ) + (p.b : ℝ) * Real.sqrt 2 < 0 := by
      have hcase : p.a < 0 ∨ p.b < 0 := by
        by_contra hno
        push_neg at hno
        exact h1 ⟨le_antisymm h2.1 hno.1 ▸ hno.1, le_antisymm h2.2 hno.2 ▸ hno.2⟩
      rcases hcase with ha | hb
      · have ha' : (p.a : ℝ) < 0 := by exact_mod_cast ha
        nlinarith [mul_nonpos_of_nonpos_of_nonneg
          (by exact_mod_cast h2.2 : (p.b : ℝ) ≤ 0) hs.le]
      · have hb' : (p.b : ℝ) < 0 := by exact_mod_cast hb
        have ha' : (p.a : ℝ) ≤ 0 := by exact_mod_cast h2.1
        nlinarith [mul_neg_of_neg_of_pos hb' hs]
    refine ⟨by simp [ne_of_gt hneg, not_lt.mpr hneg.le], by simp [ne_of_lt hneg],
      by simp [hneg]⟩
  · have hb : p.b < 0 := by
      by_contra hbn
      push_neg at hbn
      exact h1 ⟨h3.le, hbn⟩
    have ha' : (0 : ℝ) < (p.a : ℝ) := by exact_mod_cast h3
    have hsq : 2 * (p.b : ℝ) ^ 2 < (p.a : ℝ) ^ 2 := by exact_mod_cast c1
    have hpos : 0 < (p.a : ℝ) + (p.b : ℝ) * Real.sqrt 2 := by
      by_contra hle
      push_neg at hle
      have h4 : (p.a : ℝ) ≤ (-(p.b : ℝ)) * Real.sqrt 2 := by linarith
      have h5 : (p.a : ℝ) ^ 2 ≤ ((-(p.b : ℝ)) * Real.sqrt 2) ^ 2 :=
        pow_le_pow_left₀ ha'.le h4 2
      nlinarith [h5]
    refine ⟨by simp [hpos], by simp [ne_of_gt hpos], by simp [not_lt.mpr hpos.le]⟩
  · have hb : p.b < 0 := by
      by_contra hbn
      push_neg at hbn
      exact h1 ⟨h3.le, hbn⟩
    exact absurd c2 (rat_sq_ne_two_mul p.a p.b hb.ne)
  · have hb : p.b < 0 := by
      by_contra hbn
      push_neg at hbn
      exact h1 ⟨h3.le, hbn⟩
    have hlt : p.a ^ 2 < 2 * p.b ^ 2 := by
      rcases lt_trichotomy (p.a ^ 2) (2 * p.b ^ 2) with h | h | h
      · exact h
      · exact absurd h c2
      · exact absurd h c1
    have ha' : (0 : ℝ) < (p.a : ℝ) := by exact_mod_cast h3
    have hb' : (p.b : ℝ) < 0 := by exact_mod_cast hb
    have hsq : (p.a : ℝ) ^ 2 < 2 * (p.b : ℝ) ^ 2 := by exact_mod_cast hlt
    have hneg : (p.a : ℝ) + (p.b : ℝ) * Real.sqrt 2 < 0 := by
      have h4 : (p.a : ℝ) < (-(p.b : ℝ)) * Real.sqrt 2 := by
        rw [lt_iff_sq_lt _ _ ha'.le (mul_nonneg (by linarith) hs.le)]
        nlinarith
      linarith
    refine ⟨by simp [ne_of_gt hneg, not_lt.mpr hneg.le], by simp [ne_of_lt hneg],
      by simp [hneg]⟩
  · have ha : p.a ≤ 0 := not_lt.mp h3
    have hb : 0 < p.b := by
      by_contra hbn
      push_neg at hbn
      exact h2 ⟨ha, hbn⟩
    have ha2 : p.a < 0 := by
      rcases lt_or_eq_of_le ha with h | h
      · exact h
      · exact absurd ⟨h.ge, hb.le⟩ h1
    have ha' : (p.a : ℝ) < 0 := by exact_mod_cast ha2
    have hb' : (0 : ℝ) < (p.b : ℝ) := by exact_mod_cast hb
    have hsq : (p.a : ℝ) ^ 2 < 2 * (p.b : ℝ) ^ 2 := by exact_mod_cast d1
    have hpos : 0 < (p.a : ℝ) + (p.b : ℝ) * Real.sqrt 2 := by
      have h4 : -(p.a : ℝ) < (p.b : ℝ) * Real.sqrt 2 := by
        rw [lt_iff_sq_lt _ _ (by linarith) (mul_nonneg hb'.le hs.le)]
        nlinarith
      linarith
    refine ⟨by simp [hpos], by simp [ne_of_gt hpos], by simp [not_lt.mpr hpos.le]⟩
  · have ha : p.a ≤ 0 := not_lt.mp h3
    have hb : 0 < p.b := by
      by_contra hbn
      push_neg at hbn
      exact h2 ⟨ha, hbn⟩
    exact absurd d2 (rat_sq_ne_two_mul p.a p.b hb.ne')
  · have ha : p.a ≤ 0 := not_lt.mp h3
    have hb : 0 < p.b := by
      by_contra hbn
      push_neg at hbn
      exact h2 ⟨ha, hbn⟩
    have ha2 : p.a < 0 := by
      rcases lt_or_eq_of_le ha with h | h
      · exact h
      · exact absurd ⟨h.ge, hb.le⟩ h1
    have hgt : 2 * p.b ^ 2 < p.a ^ 2 := by
      rcases lt_trichotomy (p.a ^ 2) (2 * p.b ^ 2) with h | h | h
      · exact absurd h d1
      · exact absurd h d2
      · exact h
    have ha' : (p.a : ℝ) < 0 := by exact_mod_cast ha2
    have hb' : (0 : ℝ) < (p.b : ℝ) := by exact_mod_cast hb
    have hsq : 2 * (p.b : ℝ) ^ 2 < (p.a : ℝ) ^ 2 := by exact_mod_cast hgt
    have hneg : (p.a : ℝ) + (p.b : ℝ) * Real.sqrt 2 < 0 := by
      have h4 : (p.b : ℝ) * Real.sqrt 2 < -(p.a : ℝ) := by
        rw [lt_iff_sq_lt _ _ (mul_nonneg hb'.le hs.le) (by linarith)]
        nlinarith
      linarith
    refine ⟨by simp [ne_of_gt hneg, not_lt.mpr hneg.le], by simp [ne_of_lt hneg],
      by simp [hneg]⟩


theorem Q2.toReal_add (p q : Q2) : (p.add q).toReal = p.toReal + q.toReal := by
  unfold Q2.add Q2.toReal
  push_cast
  ring

theorem Q2.toReal_sub (p q : Q2) : (p.sub q).toReal = p.toReal - q.toReal := by
  unfold Q2.sub Q2.toReal
  push_cast
  ring

theorem Q2.toReal_mul (p q : Q2) : (p.mul q).toReal = p.toReal * q.toReal := by
  unfold Q2.mul Q2.toReal
  push_cast
  linear_combination (-((p.b : ℝ) * (q.b : ℝ))) * sq_sqrt_two

theorem Q2.toReal_ofRat (q : ℚ) : (Q2.ofRat q).toReal = (q : ℝ) := by
  unfold Q2.ofRat Q2.toReal
  simp

theorem Q2.sign_vals (p : Q2) : p.sign = 1 ∨ p.sign = 0 ∨ p.sign = -1 := by
  obtain ⟨h1, h2, h3⟩ := Q2.sign_iff p
  rcases lt_trichotomy (0 : ℝ) p.toReal with h | h | h
  · exact Or.inl (h1.mpr h)
  · exact Or.inr (Or.inl (h2.mpr h.symm))
  · exact Or.inr (Or.inr (h3.mpr h))

theorem q2rsign_iff (al be : Q2) (c : ℚ) (hc : 0 ≤ c) :
    (q2rsign al be c = 1 ↔ 0 < al.toReal + be.toReal * Real.sqrt (c : ℝ)) ∧
    (q2rsign al be c = 0 ↔ al.toReal + be.toReal * Real.sqrt (c : ℝ) = 0) ∧
    (q2rsign al be c = -1 ↔ al.toReal + be.toReal * Real.sqrt (c : ℝ) < 0) := by
  obtain ⟨ha1, ha0, ham⟩ := Q2.sign_iff al
  obtain ⟨hb1, hb0, hbm⟩ := Q2.sign_iff be
  unfold q2rsign
  by_cases hc0 : c ≤ 0
  · have hceq : c = 0 := le_antisymm hc0 hc
    rw [if_pos hc0, hceq]
    norm_num
    exact ⟨ha1, ha0, ham⟩
  · rw [if_neg hc0]
    push_neg at hc0
    have hsc : (0 : ℝ) < Real.sqrt (c : ℝ) :=
      Real.sqrt_pos.mpr (by exact_mod_cast hc0)
    have hsc2 : Real.sqrt (c : ℝ) ^ 2 = (c : ℝ) :=
      Real.sq_sqrt (by exact_mod_cast hc)
    dsimp only
    by_cases hb : be.sign = 0
    · rw [if_pos hb]
      have hbz : be.toReal = 0 := hb0.mp hb
      rw [hbz]
      norm_num
      exact ⟨ha1, ha0, ham⟩
    · rw [if_neg hb]
      by_cases ha : al.sign = 0
      · rw [if_pos ha]
        have haz : al.toReal = 0 := ha0.mp ha
        rw [haz, zero_add]
        refine ⟨?_, ?_, ?_⟩
        · rw [hb1]
          exact ⟨fun h => mul_pos h hsc, fun h => by nlinarith⟩
        · rw [hb0]
          constructor
          · intro h
            rw [h, zero_mul]
          · intro h
            rcases mul_eq_zero.mp h with h2 | h2
            · exact h2
            · exact absurd h2 (ne_of_gt hsc)
        · rw [hbm]
          exact ⟨fun h => by nlinarith, fun h => by nlinarith⟩
      · rw [if_neg ha]
        by_cases hab : al.sign = be.sign
        · rw [if_pos hab]
          rcases Q2.sign_vals al with hv | hv | hv
          · have hbv : be.sign = 1 := hab ▸ hv
            have hap : 0 < al.toReal := ha1.mp hv
            have hbp : 0 < be.toReal := hb1.mp hbv
            have hpos : 0 < al.toReal + be.toReal * Real.sqrt (c : ℝ) := by
              nlinarith
            rw [hv]
            refine ⟨by simp [hpos], by simp [ne_of_gt hpos], by simp [not_lt.mpr hpos.le]⟩
          · exact absurd hv ha
          · have hbv : be.sign = -1 := hab ▸ hv
            have hap : al.toReal < 0 := ham.mp hv
            have hbp : be.toReal < 0 := hbm.mp hbv
            have hneg : al.toReal + be.toReal * Real.sqrt (c : ℝ) < 0 := by
              nlinarith
            rw [hv]
            refine ⟨by simp [ne_of_gt hneg, not_lt.mpr hneg.le], by simp [ne_of_lt hneg],
              by simp [hneg]⟩
        · rw [if_neg hab]
          obtain ⟨hd1, hd0, hdm⟩ := Q2.sign_iff
            (((al.mul al).sub ((be.mul be).mul (Q2.ofRat c))))
          have hdval : ((al.mul al).sub ((be.mul be).mul (Q2.ofRat c))).toReal =
              al.toReal ^ 2 - be.toReal ^ 2 * (c : ℝ) := by
            rw [Q2.toReal_sub, Q2.toReal_mul, Q2.toReal_mul, Q2.toReal_mul,
              Q2.toReal_ofRat]
            ring
          rcases Q2.sign_vals al with hv | hv | hv
          · -- al > 0, be < 0
            have hbv : be.sign = -1 := by
              rcases Q2.sign_vals be with h | h | h
              · exact absurd (hv.trans h.symm) hab
              · exact absurd h hb
              · exact h
            have hap : 0 < al.toReal := ha1.mp hv
            have hbp : be.toReal < 0 := hbm.mp hbv
            rw [if_pos hv]
            have e1 : 0 < al.toReal + be.toReal * Real.sqrt (c : ℝ) ↔
                0 < al.toReal ^ 2 - be.toReal ^ 2 * (c : ℝ) := by
              constructor
              · intro h
                have h4 : (-be.toReal) * Real.sqrt (c : ℝ) < al.toReal := by linarith
                have h5 : ((-be.toReal) * Real.sqrt (c : ℝ)) ^ 2 < al.toReal ^ 2 :=
                  (lt_iff_sq_lt _ _ (mul_nonneg (by linarith) hsc.le) hap.le).mp h4
                nlinarith [h5, hsc2]
              · intro h
                have h4 : (-be.toReal) * Real.sqrt (c : ℝ) < al.toReal := by
                  rw [lt_iff_sq_lt _ _ (mul_nonneg (by linarith) hsc.le) hap.le]
                  nlinarith [hsc2]
                linarith
            have e0 : al.toReal + be.toReal * Real.sqrt (c : ℝ) = 0 ↔
                al.toReal ^ 2 - be.toReal ^ 2 * (c : ℝ) = 0 := by
              constructor
              · intro h
                have h4 : (-be.toReal) * Real.sqrt (c : ℝ) = al.toReal := by linarith
                have h5 : ((-be.toReal) * Real.sqrt (c : ℝ)) ^ 2 = al.toReal ^ 2 := by
                  rw [h4]
                nlinarith [h5, hsc2]
              · intro h
                have h4 : (-be.toReal) * Real.sqrt (c : ℝ) = al.toReal := by
                  rw [eq_iff_sq_eq _ _ (mul_nonneg (by linarith) hsc.le) hap.le]
                  nlinarith [hsc2]
                linarith
            rw [hdval] at hd1 hd0 hdm
            refine ⟨by rw [hd1, e1], by rw [hd0, e0], ?_⟩
            rw [hdm]
            constructor
            · intro h
              by_contra hno
              push_neg at hno
              rcases lt_or_eq_of_le hno with h2 | h2
              · exact absurd (e1.mp h2) (by linarith)
              · exact absurd (e0.mp h2.symm) (by linarith)
            · intro h
              by_contra hno
              rcases lt_trichotomy (al.toReal ^ 2 - be.toReal ^ 2 * (c : ℝ)) 0 with h2 | h2 | h2
              · exact hno h2
              · exact absurd (e0.mpr h2) (ne_of_lt h)
              · exact absurd (e1.mpr h2) (not_lt.mpr (by linarith))
          · exact absurd hv ha
          · -- al < 0, be > 0
            have hbv : be.sign = 1 := by
              rcases Q2.sign_vals be with h | h | h
              · exact h
              · exact absurd h hb
              · exact absurd (hv.trans h.symm) hab
            have hap : al.toReal < 0 := ham.mp hv
            have hbp : 0 < be.toReal := hb1.mp hbv
            rw [if_neg (by rw [hv]; decide)]
            have e1 : 0 < al.toReal + be.toReal * Real.sqrt (c : ℝ) ↔
                al.toReal ^ 2 - be.toReal ^ 2 * (c : ℝ) < 0 := by
              constructor
              · intro h
                have h4 : (-al.toReal) < be.toReal * Real.sqrt (c : ℝ) := by linarith
                have h5 : (-al.toReal) ^ 2 < (be.toReal * Real.sqrt (c : ℝ)) ^ 2 :=
                  (lt_iff_sq_lt _ _ (by linarith) (mul_nonneg hbp.le hsc.le)).mp h4
                nlinarith [h5, hsc2]
              · intro h
                have h4 : (-al.toReal) < be.toReal * Real.sqrt (c : ℝ) := by
                  rw [lt_iff_sq_lt _ _ (by linarith) (mul_nonneg hbp.le hsc.le)]
                  nlinarith [hsc2]
                linarith
            have e0 : al.toReal + be.toReal * Real.sqrt (c : ℝ) = 0 ↔
                al.toReal ^ 2 - be.toReal ^ 2 * (c : ℝ) = 0 := by
              constructor
              · intro h
                have h4 : (-al.toReal) = be.toReal * Real.sqrt (c : ℝ) := by linarith
                have h5 : (-al.toReal) ^ 2 = (be.toReal * Real.sqrt (c : ℝ)) ^ 2 := by
                  rw [h4]
                nlinarith [h5, hsc2]
              · intro h
                have h4 : (-al.toReal) = be.toReal * Real.sqrt (c : ℝ) := by
                  rw [eq_iff_sq_eq _ _ (by linarith) (mul_nonneg hbp.le hsc.le)]
                  nlinarith [hsc2]
                linarith
            rw [hdval] at hd1 hd0 hdm
            have hneg : ∀ n : ℤ, (-n = 1 ↔ n = -1) ∧ (-n = 0 ↔ n = 0) ∧
                (-n = -1 ↔ n = 1) := by
              intro n
              omega
            refine ⟨?_, ?_, ?_⟩
            · rw [(hneg _).1, hdm, e1]
            · rw [(hneg _).2.1, hd0, e0]
            · rw [(hneg _).2.2, hd1]
              constructor
              · intro h
                by_contra hno
                push_neg at hno
                rcases lt_or_eq_of_le hno with h2 | h2
                · exact absurd (e1.mp h2) (by linarith)
                · exact absurd (e0.mp h2.symm) (by linarith)
              · intro h
                by_contra hno
                rcases lt_trichotomy (al.toReal ^ 2 - be.toReal ^ 2 * (c : ℝ)) 0
                  with h2 | h2 | h2
                · exact absurd (e1.mpr h2) (by linarith)
                · exact absurd (e0.mpr h2) (by linarith)
                · exact hno h2


theorem q2rsign_vals (al be : Q2) (c : ℚ) (hc : 0 ≤ c) :
    q2rsign al be c = 1 ∨ q2rsign al be c = 0 ∨ q2rsign al be c = -1 := by
  obtain ⟨h1, h0, hm⟩ := q2rsign_iff al be c hc
  rcases lt_trichotomy (0 : ℝ) (al.toReal + be.toReal * Real.sqrt (c : ℝ)) with h | h | h
  · exact Or.inl (h1.mpr h)
  · exact Or.inr (Or.inl (h0.mpr h.symm))
  · exact Or.inr (Or.inr (hm.mpr h))

theorem fCmpSign_iff (f g : FVal) (hf : 0 ≤ f.r) (hg : 0 ≤ g.r) :
    (fCmpSign f g = 1 ↔ g.toReal < f.toReal) ∧
    (fCmpSign f g = 0 ↔ f.toReal = g.toReal) ∧
    (fCmpSign f g = -1 ↔ f.toReal < g.toReal) := by
  have hfc : fCmpSign f g =
      (if q2rsign (f.q.sub g.q) ⟨1, 0⟩ f.r < 0 then -1
       else if q2rsign (f.q.sub g.q) ⟨1, 0⟩ f.r = 0 then (if 0 < g.r then -1 else 0)
       else q2rsign ((((f.q.sub g.q).mul (f.q.sub g.q)).add (Q2.ofRat f.r)).sub
         (Q2.ofRat g.r)) ((f.q.sub g.q).add (f.q.sub g.q)) f.r) := rfl
  have hone : (⟨1, 0⟩ : Q2).toReal = 1 := by
    unfold Q2.toReal
    norm_num
  obtain ⟨hu1, hu0, hum⟩ := q2rsign_iff (f.q.sub g.q) ⟨1, 0⟩ f.r hf
  rw [hone, one_mul, Q2.toReal_sub] at hu1 hu0 hum
  have hsf2 : Real.sqrt ((f.r : ℚ) : ℝ) ^ 2 = ((f.r : ℚ) : ℝ) :=
    Real.sq_sqrt (by exact_mod_cast hf)
  have hsg2 : Real.sqrt ((g.r : ℚ) : ℝ) ^ 2 = ((g.r : ℚ) : ℝ) :=
    Real.sq_sqrt (by exact_mod_cast hg)
  have hsgn : (0 : ℝ) ≤ Real.sqrt ((g.r : ℚ) : ℝ) := Real.sqrt_nonneg _
  have hfto : f.toReal = f.q.toReal + Real.sqrt ((f.r : ℚ) : ℝ) := rfl
  have hgto : g.toReal = g.q.toReal + Real.sqrt ((g.r : ℚ) : ℝ) := rfl
  rw [hfc]
  split_ifs with hlt hz hgr
  · -- su < 0 : u < 0, so f.toReal < g.toReal
    have hsum : q2rsign (f.q.sub g.q) ⟨1, 0⟩ f.r = -1 := by
      rcases q2rsign_vals (f.q.sub g.q) ⟨1, 0⟩ f.r hf with h | h | h
      · rw [h] at hlt
        exact absurd hlt (by decide)
      · rw [h] at hlt
        exact absurd hlt (by decide)
      · exact h
    have hu : f.q.toReal - g.q.toReal + Real.sqrt ((f.r : ℚ) : ℝ) < 0 := hum.mp hsum
    have hD : f.toReal < g.toReal := by
      rw [hfto, hgto]
      linarith
    refine ⟨?_, ?_, ?_⟩
    · constructor
      · intro h
        exact absurd h (by decide)
      · intro h
        exact absurd h (not_lt.mpr hD.le)
    · constructor
      · intro h
        exact absurd h (by decide)
      · intro h
        exact absurd h (ne_of_lt hD)
    · exact ⟨fun _ => hD, fun _ => rfl⟩
  · -- su = 0, 0 < g.r : f.toReal < g.toReal
    have hu : f.q.toReal - g.q.toReal + Real.sqrt ((f.r : ℚ) : ℝ) = 0 := hu0.mp hz
    have hsgp : (0 : ℝ) < Real.sqrt ((g.r : ℚ) : ℝ) :=
      Real.sqrt_pos.mpr (by exact_mod_cast hgr)
    have hD : f.toReal < g.toReal := by
      rw [hfto, hgto]
      linarith
    refine ⟨?_, ?_, ?_⟩
    · constructor
      · intro h
        exact absurd h (by decide)
      · intro h
        exact absurd h (not_lt.mpr hD.le)
    · constructor
      · intro h
        exact absurd h (by decide)
      · intro h
        exact absurd h (ne_of_lt hD)
    · exact ⟨fun _ => hD, fun _ => rfl⟩
  · -- su = 0, g.r = 0 : equal
    have hu : f.q.toReal - g.q.toReal + Real.sqrt ((f.r : ℚ) : ℝ) = 0 := hu0.mp hz
    have hgr0 : g.r = 0 := le_antisymm (not_lt.mp hgr) hg
    have hD : f.toReal = g.toReal := by
      rw [hfto, hgto, hgr0]
      push_cast
      rw [Real.sqrt_zero]
      linarith
    refine ⟨?_, ?_, ?_⟩
    · constructor
      · intro h
        exact absurd h (by decide)
      · intro h
        exact absurd h (not_lt.mpr hD.le)
    · exact ⟨fun _ => hD, fun _ => rfl⟩
    · constructor
      · intro h
        exact absurd h (by decide)
      · intro h
        exact absurd h (not_lt.mpr hD.ge)
  · -- su = 1 : compare u^2 with g.r
    have hsu1 : q2rsign (f.q.sub g.q) ⟨1, 0⟩ f.r = 1 := by
      rcases q2rsign_vals (f.q.sub g.q) ⟨1, 0⟩ f.r hf with h | h | h
      · exact h
      · exact absurd h hz
      · rw [h] at hlt
        exact absurd (by decide) hlt
    have hu : 0 < f.q.toReal - g.q.toReal + Real.sqrt ((f.r : ℚ) : ℝ) := hu1.mp hsu1
    obtain ⟨hr1, hr0, hrm⟩ := q2rsign_iff
      ((((f.q.sub g.q).mul (f.q.sub g.q)).add (Q2.ofRat f.r)).sub (Q2.ofRat g.r))
      ((f.q.sub g.q).add (f.q.sub g.q)) f.r hf
    have hαv : ((((f.q.sub g.q).mul (f.q.sub g.q)).add (Q2.ofRat f.r)).sub
        (Q2.ofRat g.r)).toReal =
        (f.q.toReal - g.q.toReal) ^ 2 + ((f.r : ℚ) : ℝ) - ((g.r : ℚ) : ℝ) := by
      rw [Q2.toReal_sub, Q2.toReal_add, Q2.toReal_mul, Q2.toReal_sub,
        Q2.toReal_ofRat, Q2.toReal_ofRat]
      ring
    have hβv : ((f.q.sub g.q).add (f.q.sub g.q)).toReal =
        2 * (f.q.toReal - g.q.toReal) := by
      rw [Q2.toReal_add, Q2.toReal_sub]
      ring
    rw [hαv, hβv] at hr1 hr0 hrm
    have hV : (f.q.toReal - g.q.toReal) ^ 2 + ((f.r : ℚ) : ℝ) - ((g.r : ℚ) : ℝ) +
        2 * (f.q.toReal - g.q.toReal) * Real.sqrt ((f.r : ℚ) : ℝ) =
        (f.q.toReal - g.q.toReal + Real.sqrt ((f.r : ℚ) : ℝ)) ^ 2 - ((g.r : ℚ) : ℝ) := by
      linear_combination (-1 : ℝ) * hsf2
    rw [hV] at hr1 hr0 hrm
    have e1 : 0 < (f.q.toReal - g.q.toReal + Real.sqrt ((f.r : ℚ) : ℝ)) ^ 2 -
        ((g.r : ℚ) : ℝ) ↔ g.toReal < f.toReal := by
      rw [hfto, hgto]
      constructor
      · intro h
        have h4 : Real.sqrt ((g.r : ℚ) : ℝ) <
            f.q.toReal - g.q.toReal + Real.sqrt ((f.r : ℚ) : ℝ) := by
          rw [lt_iff_sq_lt _ _ hsgn hu.le]
          nlinarith [hsg2]
        linarith
      · intro h
        have h4 : Real.sqrt ((g.r : ℚ) : ℝ) <
            f.q.toReal - g.q.toReal + Real.sqrt ((f.r : ℚ) : ℝ) := by linarith
        have h5 := (lt_iff_sq_lt _ _ hsgn hu.le).mp h4
        nlinarith [h5, hsg2]
    have e0 : (f.q.toReal - g.q.toReal + Real.sqrt ((f.r : ℚ) : ℝ)) ^ 2 -
        ((g.r : ℚ) : ℝ) = 0 ↔ f.toReal = g.toReal := by
      rw [hfto, hgto]
      constructor
      · intro h
        have h4 : Real.sqrt ((g.r : ℚ) : ℝ) =
            f.q.toReal - g.q.toReal + Real.sqrt ((f.r : ℚ) : ℝ) := by
          rw [eq_iff_sq_eq _ _ hsgn hu.le]
          nlinarith [hsg2]
        linarith
      · intro h
        have h4 : Real.sqrt ((g.r : ℚ) : ℝ) =
            f.q.toReal - g.q.toReal + Real.sqrt ((f.r : ℚ) : ℝ) := by linarith
        have h5 : Real.sqrt ((g.r : ℚ) : ℝ) ^ 2 =
            (f.q.toReal - g.q.toReal + Real.sqrt ((f.r : ℚ) : ℝ)) ^ 2 := by
          rw [h4]
        nlinarith [h5, hsg2]
    have em : (f.q.toReal - g.q.toReal + Real.sqrt ((f.r : ℚ) : ℝ)) ^ 2 -
        ((g.r : ℚ) : ℝ) < 0 ↔ f.toReal < g.toReal := by
      constructor
      · intro h
        rcases lt_trichotomy f.toReal g.toReal with h2 | h2 | h2
        · exact h2
        · exact absurd (e0.mpr h2) (ne_of_lt h)
        · exact absurd (e1.mpr h2) (not_lt.mpr (by linarith))
      · intro h
        rcases lt_trichotomy ((f.q.toReal - g.q.toReal + Real.sqrt ((f.r : ℚ) : ℝ)) ^ 2 -
            ((g.r : ℚ) : ℝ)) 0 with h2 | h2 | h2
        · exact h2
        · exact absurd (e0.mp h2) (ne_of_lt h)
        · exact absurd (e1.mp h2) (not_lt.mpr h.le)
    exact ⟨by rw [hr1, e1], by rw [hr0, e0], by rw [hrm, em]⟩

theorem fCmpSign_vals (f g : FVal) (hf : 0 ≤ f.r) (hg : 0 ≤ g.r) :
    fCmpSign f g = 1 ∨ fCmpSign f g = 0 ∨ fCmpSign f g = -1 := by
  obtain ⟨h1, h0, hm⟩ := fCmpSign_iff f g hf hg
  rcases lt_trichotomy f.toReal g.toReal with h | h | h
  · exact Or.inr (Or.inr (hm.mpr h))
  · exact Or.inr (Or.inl (h0.mpr h))
  · exact Or.inl (h1.mpr h)

theorem fvalLt_iff_toReal (f g : FVal) (hf : 0 ≤ f.r) (hg : 0 ≤ g.r) :
    f.lt g = true ↔ f.toReal < g.toReal := by
  unfold FVal.lt
  obtain ⟨h1, h0, hm⟩ := fCmpSign_iff f g hf hg
  simp only [decide_eq_true_eq]
  constructor
  · intro h
    rcases fCmpSign_vals f g hf hg with hv | hv | hv
    · rw [hv] at h
      exact absurd h (by decide)
    · rw [hv] at h
      exact absurd h (by decide)
    · exact hm.mp hv
  · intro h
    rw [hm.mpr h]
    decide

theorem q2Lt_iff_toReal (p q : Q2) : p.lt q = true ↔ p.toReal < q.toReal := by
  unfold Q2.lt
  obtain ⟨h1, h0, hm⟩ := Q2.sign_iff (p.sub q)
  rw [Q2.toReal_sub] at h1 h0 hm
  simp only [decide_eq_true_eq]
  constructor
  · intro h
    rcases Q2.sign_vals (p.sub q) with hv | hv | hv
    · rw [hv] at h
      exact absurd h (by decide)
    · rw [hv] at h
      exact absurd h (by decide)
    · have := hm.mp hv
      linarith
  · intro h
    rw [hm.mpr (by linarith)]
    decide

theorem Q2.toReal_one : (⟨1, 0⟩ : Q2).toReal = 1 := by
  unfold Q2.toReal
  norm_num

theorem Q2.toReal_sqrt2 : (⟨0, 1⟩ : Q2).toReal = Real.sqrt 2 := by
  unfold Q2.toReal
  norm_num

theorem stepCostR_nonneg (u v : ℤ × ℤ) : 0 ≤ stepCostR u v := by
  unfold stepCostR
  split_ifs
  · norm_num
  · exact sqrt_two_pos.le

theorem pathCostR_nil : pathCostR [] = 0 := rfl

theorem pathCostR_single (u : ℤ × ℤ) : pathCostR [u] = 0 := rfl

theorem pathCostR_cons (u v : ℤ × ℤ) (rest : List (ℤ × ℤ)) :
    pathCostR (u :: v :: rest) = stepCostR u v + pathCostR (v :: rest) := rfl

theorem pathCostR_nonneg (l : List (ℤ × ℤ)) : 0 ≤ pathCostR l := by
  induction l with
  | nil => exact le_of_eq pathCostR_nil.symm
  | cons u t ih =>
    cases t with
    | nil => exact le_of_eq (pathCostR_single u).symm
    | cons v r =>
      rw [pathCostR_cons]
      exact add_nonneg (stepCostR_nonneg u v) ih

theorem pathCostR_append (xs : List (ℤ × ℤ)) (y : ℤ × ℤ) (ys : List (ℤ × ℤ)) :
    pathCostR (xs ++ y :: ys) = pathCostR (xs ++ [y]) + pathCostR (y :: ys) := by
  induction xs with
  | nil =>
    simp only [List.nil_append, pathCostR_single]
    cases ys with
    | nil => norm_num
    | cons z r => ring
  | cons x t ih =>
    cases t with
    | nil =>
      simp only [List.cons_append, List.nil_append]
      rw [pathCostR_cons, pathCostR_cons, pathCostR_single]
      ring
    | cons x2 r =>
      simp only [List.cons_append] at ih ⊢
      rw [pathCostR_cons, pathCostR_cons, ih]
      ring

theorem hrad_nonneg (gx gz ex ez : ℤ) : 0 ≤ heuristicRad gx gz ex ez := by
  unfold heuristicRad
  have h : (0 : ℤ) ≤ (ex - gx) ^ 2 + (ez - gz) ^ 2 := by positivity
  exact_mod_cast h

theorem sqrt_hrad_eq (gx gz ex ez : ℤ) :
    Real.sqrt ((heuristicRad gx gz ex ez : ℚ) : ℝ) =
      Complex.abs ⟨((ex - gx : ℤ) : ℝ), ((ez - gz : ℤ) : ℝ)⟩ := by
  rw [Complex.abs_apply, Complex.normSq_mk]
  congr 1
  unfold heuristicRad
  push_cast
  ring

theorem dirs_enum_eq : dirs.enum = [(0, ((0 : ℤ), (-1 : ℤ))), (1, (1, 0)), (2, (0, 1)),
    (3, (-1, 0)), (4, (1, -1)), (5, (1, 1)), (6, (-1, 1)), (7, (-1, -1))] := rfl

theorem dirs_enum_mem_dirs (i : ℕ) (d : ℤ × ℤ) (hm : (i, d) ∈ dirs.enum) : d ∈ dirs := by
  rcases d with ⟨d1, d2⟩
  rw [dirs_enum_eq] at hm
  unfold dirs
  simp only [List.mem_cons, List.not_mem_nil, or_false, Prod.mk.injEq] at hm ⊢
  omega

theorem stepCostR_dir (i : ℕ) (d : ℤ × ℤ) (hm : (i, d) ∈ dirs.enum) (u : ℤ × ℤ) :
    stepCostR u (u.1 + d.1, u.2 + d.2) = (if i < 4 then (⟨1, 0⟩ : Q2) else ⟨0, 1⟩).toReal := by
  rcases d with ⟨d1, d2⟩
  rw [dirs_enum_eq] at hm
  simp only [List.mem_cons, List.not_mem_nil, or_false, Prod.mk.injEq] at hm
  rcases hm with ⟨hi, h1, h2⟩ | ⟨hi, h1, h2⟩ | ⟨hi, h1, h2⟩ | ⟨hi, h1, h2⟩ |
    ⟨hi, h1, h2⟩ | ⟨hi, h1, h2⟩ | ⟨hi, h1, h2⟩ | ⟨hi, h1, h2⟩ <;>
    subst hi <;> subst h1 <;> subst h2 <;> unfold stepCostR <;>
    first
    | rw [if_pos (by omega), if_pos (by norm_num), Q2.toReal_one]
    | rw [if_neg (by omega), if_neg (by norm_num), Q2.toReal_sqrt2]

theorem hrad_consistent (u d e : ℤ × ℤ) (hd : d ∈ dirs) :
    Real.sqrt ((heuristicRad u.1 u.2 e.1 e.2 : ℚ) : ℝ) ≤
    stepCostR u (u.1 + d.1, u.2 + d.2) +
    Real.sqrt ((heuristicRad (u.1 + d.1) (u.2 + d.2) e.1 e.2 : ℚ) : ℝ) := by
  rw [sqrt_hrad_eq, sqrt_hrad_eq]
  have hstep : Complex.abs ⟨(d.1 : ℝ), (d.2 : ℝ)⟩ = stepCostR u (u.1 + d.1, u.2 + d.2) := by
    unfold dirs at hd
    simp only [List.mem_cons, List.not_mem_nil, or_false] at hd
    rcases hd with h | h | h | h | h | h | h | h <;> subst h <;> dsimp only <;>
      unfold stepCostR <;>
      rw [Complex.abs_apply, Complex.normSq_mk] <;>
      first
      | (rw [if_pos (by omega)]; norm_num [Real.sqrt_one])
      | (rw [if_neg (by omega)]; norm_num)
  have heq : (⟨((e.1 - u.1 : ℤ) : ℝ), ((e.2 - u.2 : ℤ) : ℝ)⟩ : ℂ) =
      ⟨(d.1 : ℝ), (d.2 : ℝ)⟩ +
      ⟨((e.1 - (u.1 + d.1) : ℤ) : ℝ), ((e.2 - (u.2 + d.2) : ℤ) : ℝ)⟩ := by
    apply Complex.ext <;> (simp only [Complex.add_re, Complex.add_im]; push_cast; ring)
  rw [heq, ← hstep]
  exact Complex.abs.add_le _ _

theorem hrad_chain (e : ℤ × ℤ) (l : List (ℤ × ℤ))
    (hch : l.Chain' (fun u v => (v.1 - u.1, v.2 - u.2) ∈ dirs)) (a b : ℤ × ℤ)
    (ha : l.head? = some a) (hb : l.getLast? = some b) :
    Real.sqrt ((heuristicRad a.1 a.2 e.1 e.2 : ℚ) : ℝ) ≤
    pathCostR l + Real.sqrt ((heuristicRad b.1 b.2 e.1 e.2 : ℚ) : ℝ) := by
  induction l generalizing a with
  | nil => cases ha
  | cons u t ih =>
    cases t with
    | nil =>
      injection ha with ha2
      subst ha2
      rw [List.getLast?_singleton] at hb
      injection hb with hb2
      subst hb2
      rw [pathCostR_single, zero_add]
    | cons v r =>
      injection ha with ha2
      subst ha2
      rw [List.chain'_cons] at hch
      have hstep := hrad_consistent u (v.1 - u.1, v.2 - u.2) e hch.1
      dsimp only at hstep
      have hv : (u.1 + (v.1 - u.1), u.2 + (v.2 - u.2)) = v := by
        rw [Prod.ext_iff]
        constructor <;> simp
      have hc1 : u.1 + (v.1 - u.1) = v.1 := by ring
      have hc2 : u.2 + (v.2 - u.2) = v.2 := by ring
      rw [hv, hc1, hc2] at hstep
      rw [List.getLast?_cons_cons] at hb
      have hrest := ih hch.2 v rfl hb
      rw [pathCostR_cons]
      linarith [hstep, hrest]

theorem mapGet_eq_none_iff {α : Type} (m : List ((ℤ × ℤ) × α)) (k : ℤ × ℤ) :
    mapGet m k = none ↔ k ∉ m.map Prod.fst := by
  induction m with
  | nil => simp [mapGet]
  | cons p t ih =>
    unfold mapGet
    by_cases hp : p.1 = k
    · simp [hp]
    · simp only [if_neg hp, ih, List.map_cons, List.mem_cons]
      constructor
      · intro h hmem
        rcases hmem with h2 | h2
        · exact hp h2.symm
        · exact h h2
      · intro h
        exact fun h2 => h (Or.inr h2)

theorem mapGet_of_mem_nodup {α : Type} (m : List ((ℤ × ℤ) × α)) (k : ℤ × ℤ) (v : α)
    (hmem : (k, v) ∈ m) (hnd : (m.map Prod.fst).Nodup) : mapGet m k = some v := by
  induction m with
  | nil => cases hmem
  | cons p t ih =>
    rw [List.map_cons, List.nodup_cons] at hnd
    rcases List.mem_cons.mp hmem with h | h
    · rw [← h]
      unfold mapGet
      rw [if_pos rfl]
    · unfold mapGet
      by_cases hp : p.1 = k
      · exfalso
        apply hnd.1
        rw [hp]
        exact List.mem_map.mpr ⟨(k, v), h, rfl⟩
      · rw [if_neg hp]
        exact ih h hnd.2

theorem mapSet_fresh {α : Type} (m : List ((ℤ × ℤ) × α)) (k : ℤ × ℤ) (v : α)
    (h : mapGet m k = none) : mapSet m k v = m ++ [(k, v)] := by
  induction m with
  | nil => rfl
  | cons p t ih =>
    unfold mapGet at h
    by_cases hp : p.1 = k
    · rw [if_pos hp] at h
      cases h
    · rw [if_neg hp] at h
      unfold mapSet
      rw [if_neg hp, ih h, List.cons_append]

theorem mapSet_keys {α : Type} (m : List ((ℤ × ℤ) × α)) (k : ℤ × ℤ) (v : α) :
    (mapSet m k v).map Prod.fst =
      if k ∈ m.map Prod.fst then m.map Prod.fst else m.map Prod.fst ++ [k] := by
  induction m with
  | nil => simp [mapSet]
  | cons p t ih =>
    unfold mapSet
    by_cases hp : p.1 = k
    · rw [if_pos hp]
      have hmem : k ∈ (p :: t).map Prod.fst := by
        rw [List.map_cons, ← hp]
        exact List.mem_cons_self _ _
      rw [if_pos hmem, List.map_cons, List.map_cons, hp]
    · rw [if_neg hp, List.map_cons, List.map_cons, ih]
      by_cases hmem : k ∈ t.map Prod.fst
      · rw [if_pos hmem, if_pos (List.mem_cons_of_mem _ hmem)]
      · rw [if_neg hmem, if_neg ?_, List.cons_append]
        intro h
        rcases List.mem_cons.mp h with h2 | h2
        · exact hp h2.symm
        · exact hmem h2

theorem mapSet_keys_nodup {α : Type} (m : List ((ℤ × ℤ) × α)) (k : ℤ × ℤ) (v : α)
    (hnd : (m.map Prod.fst).Nodup) : ((mapSet m k v).map Prod.fst).Nodup := by
  rw [mapSet_keys]
  by_cases hmem : k ∈ m.map Prod.fst
  · rw [if_pos hmem]
    exact hnd
  · rw [if_neg hmem]
    refine List.Nodup.append hnd (by simp) ?_
    intro a ha hb
    rw [List.mem_singleton] at hb
    subst hb
    exact hmem ha

theorem mapDelete_keys {α : Type} (m : List ((ℤ × ℤ) × α)) (k : ℤ × ℤ) :
    ∀ a, a ∈ (mapDelete m k).map Prod.fst → a ∈ m.map Prod.fst := by
  intro a ha
  rcases List.mem_map.mp ha with ⟨p, hp, hp2⟩
  exact List.mem_map.mpr ⟨p, mem_mapDelete m k p hp, hp2⟩

theorem mapDelete_keys_nodup {α : Type} (m : List ((ℤ × ℤ) × α)) (k : ℤ × ℤ)
    (hnd : (m.map Prod.fst).Nodup) : ((mapDelete m k).map Prod.fst).Nodup := by
  induction m with
  | nil => simp [mapDelete]
  | cons p t ih =>
    rw [List.map_cons, List.nodup_cons] at hnd
    unfold mapDelete
    by_cases hp : p.1 = k
    · rw [if_pos hp]
      exact hnd.2
    · rw [if_neg hp, List.map_cons, List.nodup_cons]
      exact ⟨fun h => hnd.1 (mapDelete_keys t k p.1 h), ih hnd.2⟩

theorem mapGet_mapDelete_self {α : Type} (m : List ((ℤ × ℤ) × α)) (k : ℤ × ℤ)
    (hnd : (m.map Prod.fst).Nodup) : mapGet (mapDelete m k) k = none := by
  induction m with
  | nil => rfl
  | cons p t ih =>
    rw [List.map_cons, List.nodup_cons] at hnd
    unfold mapDelete
    by_cases hp : p.1 = k
    · rw [if_pos hp]
      rw [mapGet_eq_none_iff, ← hp]
      exact hnd.1
    · rw [if_neg hp]
      rw [show mapGet (p :: mapDelete t k) k =
        if p.1 = k then some p.2 else mapGet (mapDelete t k) k from rfl]
      rw [if_neg hp]
      exact ih hnd.2

theorem mapGet_mapDelete_ne {α : Type} (m : List ((ℤ × ℤ) × α)) (k k2 : ℤ × ℤ)
    (hne : k2 ≠ k) : mapGet (mapDelete m k) k2 = mapGet m k2 := by
  induction m with
  | nil => rfl
  | cons p t ih =>
    unfold mapDelete
    by_cases hp : p.1 = k
    · rw [if_pos hp]
      have hp2 : ¬ p.1 = k2 := fun h => hne (h.symm.trans hp)
      rw [show mapGet (p :: t) k2 =
        if p.1 = k2 then some p.2 else mapGet t k2 from rfl, if_neg hp2]
    · rw [if_neg hp]
      rw [show mapGet (p :: mapDelete t k) k2 =
        if p.1 = k2 then some p.2 else mapGet (mapDelete t k) k2 from rfl]
      rw [show mapGet (p :: t) k2 =
        if p.1 = k2 then some p.2 else mapGet t k2 from rfl]
      by_cases hp2 : p.1 = k2
      · rw [if_pos hp2, if_pos hp2]
      · rw [if_neg hp2, if_neg hp2, ih]

theorem mapGet_append_some {α : Type} (m l : List ((ℤ × ℤ) × α)) (k : ℤ × ℤ) (v : α)
    (h : mapGet m k = some v) : mapGet (m ++ l) k = some v := by
  induction m with
  | nil => cases h
  | cons p t ih =>
    rw [List.cons_append]
    rw [show mapGet (p :: (t ++ l)) k =
      if p.1 = k then some p.2 else mapGet (t ++ l) k from rfl]
    rw [show mapGet (p :: t) k = if p.1 = k then some p.2 else mapGet t k from rfl] at h
    by_cases hp : p.1 = k
    · rw [if_pos hp] at h ⊢
      exact h
    · rw [if_neg hp] at h ⊢
      exact ih h

theorem mapGet_append_none {α : Type} (m l : List ((ℤ × ℤ) × α)) (k : ℤ × ℤ)
    (h : mapGet m k = none) : mapGet (m ++ l) k = mapGet l k := by
  induction m with
  | nil => rfl
  | cons p t ih =>
    rw [List.cons_append]
    rw [show mapGet (p :: (t ++ l)) k =
      if p.1 = k then some p.2 else mapGet (t ++ l) k from rfl]
    rw [show mapGet (p :: t) k = if p.1 = k then some p.2 else mapGet t k from rfl] at h
    by_cases hp : p.1 = k
    · rw [if_pos hp] at h
      cases h
    · rw [if_neg hp] at h ⊢
      exact ih h

theorem IsSpine_mapSet (closed : List ((ℤ × ℤ) × PathNode)) (k0 : ℤ × ℤ) (v : PathNode)
    (n : PathNode) (cells : List (ℤ × ℤ)) (h : IsSpine closed n cells)
    (hk : mapGet closed k0 = none) : IsSpine (mapSet closed k0 v) n cells := by
  induction h with
  | base n hp => exact IsSpine.base n hp
  | step n pk pn cells hp hlook hprev ih =>
    refine IsSpine.step n pk pn cells hp ?_ ih
    rw [mapGet_mapSet]
    rw [if_neg ?_]
    · exact hlook
    · intro heq
      rw [heq, hk] at hlook
      cases hlook

theorem walkParents_spine (nm : NavMesh) (closed : List ((ℤ × ℤ) × PathNode))
    (n : PathNode) (cells : List (ℤ × ℤ)) (h : IsSpine closed n cells) :
    ∀ (fuel : ℕ) (acc : List PathPoint), cells.length ≤ fuel →
    walkParents nm closed fuel n acc =
      cells.map (fun c => nm.gridToWorld c.1 c.2) ++ acc := by
  induction h with
  | base n hp =>
    intro fuel acc hlen
    rw [List.length_singleton] at hlen
    cases fuel with
    | zero => omega
    | succ f =>
      rw [show walkParents nm closed (f + 1) n acc =
        (match n.parent with
         | none => nm.gridToWorld n.gx n.gz :: acc
         | some pk =>
           match mapGet closed pk with
           | none => nm.gridToWorld n.gx n.gz :: acc
           | some pn => walkParents nm closed f pn (nm.gridToWorld n.gx n.gz :: acc))
        from rfl]
      simp only [hp]
      rw [List.map_singleton, List.singleton_append]
  | step n pk pn cells hp hlook hprev ih =>
    intro fuel acc hlen
    rw [List.length_append, List.length_singleton] at hlen
    cases fuel with
    | zero => omega
    | succ f =>
      rw [show walkParents nm closed (f + 1) n acc =
        (match n.parent with
         | none => nm.gridToWorld n.gx n.gz :: acc
         | some pk =>
           match mapGet closed pk with
           | none => nm.gridToWorld n.gx n.gz :: acc
           | some pn => walkParents nm closed f pn (nm.gridToWorld n.gx n.gz :: acc))
        from rfl]
      simp only [hp, hlook]
      rw [ih f (nm.gridToWorld n.gx n.gz :: acc) (by omega)]
      rw [List.map_append, List.map_singleton, List.append_assoc, List.singleton_append]

theorem pickBest_aux (l : List ((ℤ × ℤ) × PathNode)) :
    ∀ (acc : Option PathNode) (cur : PathNode),
    (∀ p ∈ l, 0 ≤ p.2.f.r) →
    (∀ b, acc = some b → 0 ≤ b.f.r) →
    l.foldl (fun best p =>
      match best with
      | none => some p.2
      | some b => if p.2.f.lt b.f then some p.2 else best) acc = some cur →
    (acc = some cur ∨ ∃ k, (k, cur) ∈ l) ∧ 0 ≤ cur.f.r ∧
    (∀ p ∈ l, cur.f.toReal ≤ p.2.f.toReal) ∧
    (∀ b, acc = some b → cur.f.toReal ≤ b.f.toReal) := by
  induction l with
  | nil =>
    intro acc cur hl hacc h
    rw [List.foldl_nil] at h
    refine ⟨Or.inl h, hacc cur h, by simp, ?_⟩
    intro b hb
    rw [h] at hb
    injection hb with hb
    rw [hb]
  | cons p t ih =>
    intro acc cur hl hacc h
    rw [List.foldl_cons] at h
    have hpr : 0 ≤ p.2.f.r := hl p (List.mem_cons_self p t)
    have hlt : ∀ q ∈ t, 0 ≤ q.2.f.r := fun q hq => hl q (List.mem_cons_of_mem p hq)
    cases acc with
    | none =>
      simp only at h
      obtain ⟨hmem, hr, hall, hb⟩ := ih (some p.2) cur hlt
        (by intro b hb; injection hb with hb; rw [← hb]; exact hpr) h
      refine ⟨?_, hr, ?_, ?_⟩
      · rcases hmem with h2 | ⟨k, h2⟩
        · injection h2 with h2
          exact Or.inr ⟨p.1, by rw [← h2]; exact List.mem_cons_self p t⟩
        · exact Or.inr ⟨k, List.mem_cons_of_mem p h2⟩
      · intro q hq
        rcases List.mem_cons.mp hq with h2 | h2
        · rw [h2]
          exact hb p.2 rfl
        · exact hall q h2
      · intro b hb2
        cases hb2
    | some b =>
      simp only at h
      have hbr : 0 ≤ b.f.r := hacc b rfl
      by_cases hcmp : p.2.f.lt b.f = true
      · rw [if_pos hcmp] at h
        obtain ⟨hmem, hr, hall, hb⟩ := ih (some p.2) cur hlt
          (by intro b2 hb2; injection hb2 with hb2; rw [← hb2]; exact hpr) h
        have hp2b : p.2.f.toReal < b.f.toReal := (fvalLt_iff_toReal _ _ hpr hbr).mp hcmp
        refine ⟨?_, hr, ?_, ?_⟩
        · rcases hmem with h2 | ⟨k, h2⟩
          · injection h2 with h2
            exact Or.inr ⟨p.1, by rw [← h2]; exact List.mem_cons_self p t⟩
          · exact Or.inr ⟨k, List.mem_cons_of_mem p h2⟩
        · intro q hq
          rcases List.mem_cons.mp hq with h2 | h2
          · rw [h2]
            exact hb p.2 rfl
          · exact hall q h2
        · intro b2 hb2
          injection hb2 with hb2
          rw [← hb2]
          exact le_of_lt (lt_of_le_of_lt (hb p.2 rfl) hp2b)
      · rw [if_neg hcmp] at h
        obtain ⟨hmem, hr, hall, hb⟩ := ih (some b) cur hlt
          (by intro b2 hb2; injection hb2 with hb2; rw [← hb2]; exact hbr) h
        have hbp2 : b.f.toReal ≤ p.2.f.toReal := by
          by_contra hno
          push_neg at hno
          exact hcmp ((fvalLt_iff_toReal _ _ hpr hbr).mpr hno)
        refine ⟨?_, hr, ?_, ?_⟩
        · rcases hmem with h2 | ⟨k, h2⟩
          · exact Or.inl h2
          · exact Or.inr ⟨k, List.mem_cons_of_mem p h2⟩
        · intro q hq
          rcases List.mem_cons.mp hq with h2 | h2
          · rw [h2]
            exact le_trans (hb b rfl) hbp2
          · exact hall q h2
        · exact hb
    
theorem pickBest_min (opn : List ((ℤ × ℤ) × PathNode)) (cur : PathNode)
    (hr : ∀ p ∈ opn, 0 ≤ p.2.f.r) (h : pickBest opn = some cur) :
    (∃ k, (k, cur) ∈ opn) ∧ 0 ≤ cur.f.r ∧ ∀ p ∈ opn, cur.f.toReal ≤ p.2.f.toReal := by
  unfold pickBest at h
  obtain ⟨hmem, hr2, hall, _⟩ := pickBest_aux opn none cur hr (by intro b hb; cases hb) h
  rcases hmem with h2 | h2
  · cases h2
  · exact ⟨h2, hr2, hall⟩

theorem pickBest_some (opn : List ((ℤ × ℤ) × PathNode)) (h : opn ≠ []) :
    ∃ cur, pickBest opn = some cur := by
  have haux : ∀ (l : List ((ℤ × ℤ) × PathNode)) (b : PathNode),
      ∃ c, l.foldl (fun best p =>
        match best with
        | none => some p.2
        | some b2 => if p.2.f.lt b2.f then some p.2 else best) (some b) = some c := by
    intro l
    induction l with
    | nil => intro b; exact ⟨b, rfl⟩
    | cons q r ih =>
      intro b
      rw [List.foldl_cons]
      dsimp only
      by_cases hq : q.2.f.lt b.f = true
      · rw [if_pos hq]
        exact ih q.2
      · rw [if_neg hq]
        exact ih b
  cases opn with
  | nil => exact absurd rfl h
  | cons p t =>
    unfold pickBest
    rw [List.foldl_cons]
    dsimp only
    exact haux t p.2

theorem Q2.toReal_zero : (⟨0, 0⟩ : Q2).toReal = 0 := by
  unfold Q2.toReal
  norm_num

theorem mem_of_getLast {α : Type} (l : List α) (a : α) (h : l.getLast? = some a) :
    a ∈ l := by
  induction l with
  | nil => cases h
  | cons b t ih =>
    cases t with
    | nil =>
      rw [List.getLast?_singleton] at h
      injection h with h
      rw [h]
      exact List.mem_cons_self _ _
    | cons c r =>
      rw [List.getLast?_cons_cons] at h
      exact List.mem_cons_of_mem b (ih h)

theorem getLast_of_ne_nil {α : Type} (l : List α) (h : l ≠ []) :
    ∃ u, l.getLast? = some u := by
  induction l with
  | nil => exact absurd rfl h
  | cons b t ih =>
    cases t with
    | nil => exact ⟨b, List.getLast?_singleton b⟩
    | cons c r =>
      obtain ⟨u, hu⟩ := ih (by simp)
      exact ⟨u, by rw [List.getLast?_cons_cons]; exact hu⟩

theorem first_fail {α : Type} (P : α → Bool) (l : List α) (x : α) (hx : x ∈ l)
    (hPx : P x = false) :
    ∃ l1 y l2, l = l1 ++ y :: l2 ∧ (∀ z ∈ l1, P z = true) ∧ P y = false := by
  induction l with
  | nil => cases hx
  | cons a t ih =>
    by_cases ha : P a = true
    · have hxt : x ∈ t := by
        rcases List.mem_cons.mp hx with h | h
        · rw [h] at hPx
          rw [hPx] at ha
          cases ha
        · exact h
      obtain ⟨l1, y, l2, heq, hall, hy⟩ := ih hxt
      refine ⟨a :: l1, y, l2, by rw [heq, List.cons_append], ?_, hy⟩
      intro z hz
      rcases List.mem_cons.mp hz with h | h
      · rw [h]
        exact ha
      · exact hall z h
    · refine ⟨[], a, t, rfl, ?_, ?_⟩
      · intro z hz
        cases hz
      · rw [Bool.not_eq_true] at ha
        exact ha

theorem pathCostR_snoc (l1 : List (ℤ × ℤ)) (u v : ℤ × ℤ) (h : l1.getLast? = some u) :
    pathCostR (l1 ++ [v]) = pathCostR l1 + stepCostR u v := by
  induction l1 with
  | nil => cases h
  | cons a t ih =>
    cases t with
    | nil =>
      rw [List.getLast?_singleton] at h
      injection h with h
      subst h
      rw [List.singleton_append, pathCostR_cons, pathCostR_single, pathCostR_single]
      ring
    | cons b r =>
      rw [List.getLast?_cons_cons] at h
      have h1 : pathCostR ((a :: b :: r) ++ [v]) =
          stepCostR a b + pathCostR ((b :: r) ++ [v]) := rfl
      rw [h1, ih h, pathCostR_cons]
      ring

theorem IsGridPath_decomp (nm : NavMesh) (l1 : List (ℤ × ℤ)) (v : ℤ × ℤ)
    (l2 : List (ℤ × ℤ)) (h : IsGridPath nm (l1 ++ v :: l2)) :
    IsGridPath nm (v :: l2) ∧ (l1 ≠ [] → IsGridPath nm l1) ∧
    (∀ u, l1.getLast? = some u → (v.1 - u.1, v.2 - u.2) ∈ dirs) := by
  obtain ⟨hne, hwalk, hchain⟩ := h
  obtain ⟨hch1, hch2, hrel⟩ := List.chain'_append.mp hchain
  refine ⟨⟨by simp, ?_, hch2⟩, ?_, ?_⟩
  · intro u hu
    exact hwalk u (List.mem_append.mpr (Or.inr hu))
  · intro h1
    refine ⟨h1, ?_, hch1⟩
    intro u hu
    exact hwalk u (List.mem_append.mpr (Or.inl hu))
  · intro u hu
    exact hrel u hu v rfl

theorem popped_opt (nm : NavMesh) (sg eg : ℤ × ℤ)
    (opn closed : List ((ℤ × ℤ) × PathNode)) (inv : AInv nm sg eg opn closed)
    (cur : PathNode) (hpick : pickBest opn = some cur) :
    ∀ l, IsGridPath nm l → l.head? = some sg →
    l.getLast? = some (cur.gx, cur.gz) → cur.g.toReal ≤ pathCostR l := by
  have hfr : ∀ p ∈ opn, 0 ≤ p.2.f.r := by
    intro p hp
    rw [inv.fO p hp]
    show 0 ≤ p.2.hrad
    rw [inv.hradO p hp]
    exact hrad_nonneg _ _ _ _
  obtain ⟨⟨kc, hkc⟩, hcr, hmin⟩ := pickBest_min opn cur hfr hpick
  have hkey : (cur.gx, cur.gz) = kc := inv.keyO (kc, cur) hkc
  have hopnkc : mapGet opn kc = some cur := mapGet_of_mem_nodup opn kc cur hkc inv.ndO
  have hclkc : mapGet closed kc = none := by
    rcases inv.disj kc with h | h
    · rw [hopnkc] at h
      cases h
    · exact h
  intro l hgp hhead hlast
  rw [hkey] at hlast
  have hmeml : kc ∈ l := mem_of_getLast l kc hlast
  have hPkc : (mapGet closed kc).isSome = false := by
    rw [hclkc]
    rfl
  obtain ⟨l1, v, l2, heq, hall1, hPv⟩ :=
    first_fail (fun c => (mapGet closed c).isSome) l kc hmeml hPkc
  have hgp2 := hgp
  rw [heq] at hgp2
  obtain ⟨hsfx, hpfx, hstep12⟩ := IsGridPath_decomp nm l1 v l2 hgp2
  have hnb : ∃ nb, (v, nb) ∈ opn ∧ nb.g.toReal ≤ pathCostR (l1 ++ [v]) := by
    cases l1 with
    | nil =>
      have hv : v = sg := by
        have h2 := hhead
        rw [heq, List.nil_append, List.head?_cons] at h2
        exact Option.some.inj h2
      rcases inv.start with hs | ⟨hcl0, n0, hopn0, hg0⟩
      · rw [hv, hs] at hPv
        cases hPv
      · refine ⟨n0, ?_, ?_⟩
        · rw [hopn0, hv]
          exact List.mem_cons_self _ _
        · rw [List.nil_append, pathCostR_single, hg0, Q2.toReal_zero]
    | cons a t =>
      obtain ⟨u, hu⟩ := getLast_of_ne_nil (a :: t) (by simp)
      have hPu : (mapGet closed u).isSome = true := hall1 u (mem_of_getLast _ u hu)
      obtain ⟨pu, hpu⟩ := Option.isSome_iff_exists.mp hPu
      have hpumem : (u, pu) ∈ closed := mapGet_mem closed u pu hpu
      have hd : (v.1 - u.1, v.2 - u.2) ∈ dirs := hstep12 u hu
      have hwv : nm.isWalkable v.1 v.2 = true := hsfx.2.1 v (List.mem_cons_self _ _)
      have hedge := inv.edge (u, pu) hpumem (v.1 - u.1, v.2 - u.2) hd
      dsimp only at hedge
      have hc1 : u.1 + (v.1 - u.1) = v.1 := by ring
      have hc2 : u.2 + (v.2 - u.2) = v.2 := by ring
      rw [hc1, hc2, Prod.mk.eta] at hedge
      rcases hedge hwv with hcl | ⟨nb, hnbget, hnbbound⟩
      · rw [hcl] at hPv
        cases hPv
      · have hl1path : IsGridPath nm (a :: t) := hpfx (by simp)
        have hl1head : (a :: t).head? = some sg := by
          have h2 := hhead
          rw [heq, List.cons_append, List.head?_cons] at h2
          rw [List.head?_cons, Option.some.inj h2]
        have hopt := inv.optC (u, pu) hpumem (a :: t) hl1path hl1head hu
        refine ⟨nb, mapGet_mem opn v nb hnbget, ?_⟩
        rw [pathCostR_snoc (a :: t) u v hu]
        dsimp only at hopt
        linarith [hnbbound, hopt]
  obtain ⟨nb, hnbmem, hnbbound⟩ := hnb
  have hminb := hmin (v, nb) hnbmem
  dsimp only at hminb
  have hcurhrad : cur.hrad = heuristicRad cur.gx cur.gz eg.1 eg.2 := by
    have h := inv.hradO (kc, cur) hkc
    dsimp only at h
    rw [← hkey] at h
    exact h
  have hnbhrad : nb.hrad = heuristicRad v.1 v.2 eg.1 eg.2 := by
    have h := inv.hradO (v, nb) hnbmem
    dsimp only at h
    exact h
  have hfcur : cur.f.toReal = cur.g.toReal + Real.sqrt ((cur.hrad : ℚ) : ℝ) := by
    have h := inv.fO (kc, cur) hkc
    dsimp only at h
    rw [h]
    rfl
  have hfnb : nb.f.toReal = nb.g.toReal + Real.sqrt ((nb.hrad : ℚ) : ℝ) := by
    have h := inv.fO (v, nb) hnbmem
    dsimp only at h
    rw [h]
    rfl
  have hlast2 : (v :: l2).getLast? = some (cur.gx, cur.gz) := by
    rw [heq, List.getLast?_append_of_ne_nil l1 (by simp)] at hlast
    rw [hkey]
    exact hlast
  have hsqchain := hrad_chain eg (v :: l2) hsfx.2.2 v (cur.gx, cur.gz)
    (List.head?_cons) hlast2
  dsimp only at hsqchain
  have hcostsplit : pathCostR l = pathCostR (l1 ++ [v]) + pathCostR (v :: l2) := by
    rw [heq]
    exact pathCostR_append l1 v l2
  rw [hcurhrad] at hfcur
  rw [hnbhrad] at hfnb
  linarith [hminb, hfcur, hfnb, hsqchain, hnbbound, hcostsplit]

theorem expand_eq_foldl (nm : NavMesh) (endGx endGz : ℤ) (cur : PathNode)
    (closed op : List ((ℤ × ℤ) × PathNode)) :
    expand nm endGx endGz cur closed op =
      dirs.enum.foldl (expandStep nm endGx endGz cur closed) op := rfl

theorem expandStep_eq (nm : NavMesh) (endGx endGz : ℤ) (cur : PathNode)
    (cl op : List ((ℤ × ℤ) × PathNode)) (b : ℕ × (ℤ × ℤ)) :
    expandStep nm endGx endGz cur cl op b =
      (if (mapGet cl (cur.gx + b.2.1, cur.gz + b.2.2)).isSome then op
       else if ¬ nm.isWalkable (cur.gx + b.2.1) (cur.gz + b.2.2) then op
       else
         match mapGet op (cur.gx + b.2.1, cur.gz + b.2.2) with
         | none =>
           mapSet op (cur.gx + b.2.1, cur.gz + b.2.2)
             ⟨cur.gx + b.2.1, cur.gz + b.2.2,
              cur.g.add (if b.1 < 4 then ⟨1, 0⟩ else ⟨0, 1⟩),
              heuristicRad (cur.gx + b.2.1) (cur.gz + b.2.2) endGx endGz,
              ⟨cur.g.add (if b.1 < 4 then ⟨1, 0⟩ else ⟨0, 1⟩),
               heuristicRad (cur.gx + b.2.1) (cur.gz + b.2.2) endGx endGz⟩,
              some (cur.gx, cur.gz)⟩
         | some nb =>
           if (cur.g.add (if b.1 < 4 then ⟨1, 0⟩ else ⟨0, 1⟩)).lt nb.g then
             mapSet op (cur.gx + b.2.1, cur.gz + b.2.2)
               { nb with
                 g := cur.g.add (if b.1 < 4 then ⟨1, 0⟩ else ⟨0, 1⟩),
                 f := ⟨cur.g.add (if b.1 < 4 then ⟨1, 0⟩ else ⟨0, 1⟩), nb.hrad⟩,
                 parent := some (cur.gx, cur.gz) }
           else op) := rfl

theorem isSome_false_iff {α : Type} (o : Option α) : o.isSome = false ↔ o = none := by
  cases o <;> simp

theorem head?_append_left {α : Type} (l l2 : List α) (h : l ≠ []) :
    (l ++ l2).head? = l.head? := by
  cases l with
  | nil => exact absurd rfl h
  | cons a t => rfl

theorem IsGridPath_snoc (nm : NavMesh) (l : List (ℤ × ℤ)) (u v : ℤ × ℤ)
    (h : IsGridPath nm l) (hu : l.getLast? = some u)
    (hd : (v.1 - u.1, v.2 - u.2) ∈ dirs) (hw : nm.isWalkable v.1 v.2 = true) :
    IsGridPath nm (l ++ [v]) := by
  obtain ⟨hne, hwalk, hch⟩ := h
  refine ⟨by simp, ?_, ?_⟩
  · intro x hx
    rcases List.mem_append.mp hx with h2 | h2
    · exact hwalk x h2
    · rw [List.mem_singleton.mp h2]
      exact hw
  · rw [List.chain'_append]
    refine ⟨hch, List.chain'_singleton v, ?_⟩
    intro x hx y hy
    rw [hu, Option.mem_some_iff] at hx
    rw [List.head?_cons, Option.mem_some_iff] at hy
    rw [← hx, ← hy]
    exact hd

theorem expandStep_closed (nm : NavMesh) (endGx endGz : ℤ) (cur : PathNode)
    (cl op : List ((ℤ × ℤ) × PathNode)) (b : ℕ × (ℤ × ℤ))
    (h : (mapGet cl (cur.gx + b.2.1, cur.gz + b.2.2)).isSome = true) :
    expandStep nm endGx endGz cur cl op b = op := by
  rw [expandStep_eq, if_pos h]

theorem expandStep_nowalk (nm : NavMesh) (endGx endGz : ℤ) (cur : PathNode)
    (cl op : List ((ℤ × ℤ) × PathNode)) (b : ℕ × (ℤ × ℤ))
    (h1 : (mapGet cl (cur.gx + b.2.1, cur.gz + b.2.2)).isSome = false)
    (h2 : nm.isWalkable (cur.gx + b.2.1) (cur.gz + b.2.2) = false) :
    expandStep nm endGx endGz cur cl op b = op := by
  rw [expandStep_eq, if_neg (by rw [h1]; decide), if_pos (by rw [h2]; decide)]

theorem expandStep_new (nm : NavMesh) (endGx endGz : ℤ) (cur : PathNode)
    (cl op : List ((ℤ × ℤ) × PathNode)) (b : ℕ × (ℤ × ℤ))
    (h1 : (mapGet cl (cur.gx + b.2.1, cur.gz + b.2.2)).isSome = false)
    (h2 : nm.isWalkable (cur.gx + b.2.1) (cur.gz + b.2.2) = true)
    (h3 : mapGet op (cur.gx + b.2.1, cur.gz + b.2.2) = none) :
    expandStep nm endGx endGz cur cl op b =
      mapSet op (cur.gx + b.2.1, cur.gz + b.2.2)
        ⟨cur.gx + b.2.1, cur.gz + b.2.2,
         cur.g.add (if b.1 < 4 then ⟨1, 0⟩ else ⟨0, 1⟩),
         heuristicRad (cur.gx + b.2.1) (cur.gz + b.2.2) endGx endGz,
         ⟨cur.g.add (if b.1 < 4 then ⟨1, 0⟩ else ⟨0, 1⟩),
          heuristicRad (cur.gx + b.2.1) (cur.gz + b.2.2) endGx endGz⟩,
         some (cur.gx, cur.gz)⟩ := by
  rw [expandStep_eq, if_neg (by rw [h1]; decide), if_neg (by rw [h2]; decide)]
  simp only [h3]

theorem expandStep_relax (nm : NavMesh) (endGx endGz : ℤ) (cur : PathNode)
    (cl op : List ((ℤ × ℤ) × PathNode)) (b : ℕ × (ℤ × ℤ)) (nb : PathNode)
    (h1 : (mapGet cl (cur.gx + b.2.1, cur.gz + b.2.2)).isSome = false)
    (h2 : nm.isWalkable (cur.gx + b.2.1) (cur.gz + b.2.2) = true)
    (h3 : mapGet op (cur.gx + b.2.1, cur.gz + b.2.2) = some nb)
    (h4 : (cur.g.add (if b.1 < 4 then ⟨1, 0⟩ else ⟨0, 1⟩)).lt nb.g = true) :
    expandStep nm endGx endGz cur cl op b =
      mapSet op (cur.gx + b.2.1, cur.gz + b.2.2)
        { nb with
          g := cur.g.add (if b.1 < 4 then ⟨1, 0⟩ else ⟨0, 1⟩),
          f := ⟨cur.g.add (if b.1 < 4 then ⟨1, 0⟩ else ⟨0, 1⟩), nb.hrad⟩,
          parent := some (cur.gx, cur.gz) } := by
  rw [expandStep_eq, if_neg (by rw [h1]; decide), if_neg (by rw [h2]; decide)]
  simp only [h3]
  rw [if_pos h4]

theorem expandStep_keep (nm : NavMesh) (endGx endGz : ℤ) (cur : PathNode)
    (cl op : List ((ℤ × ℤ) × PathNode)) (b : ℕ × (ℤ × ℤ)) (nb : PathNode)
    (h1 : (mapGet cl (cur.gx + b.2.1, cur.gz + b.2.2)).isSome = false)
    (h2 : nm.isWalkable (cur.gx + b.2.1) (cur.gz + b.2.2) = true)
    (h3 : mapGet op (cur.gx + b.2.1, cur.gz + b.2.2) = some nb)
    (h4 : (cur.g.add (if b.1 < 4 then ⟨1, 0⟩ else ⟨0, 1⟩)).lt nb.g = false) :
    expandStep nm endGx endGz cur cl op b = op := by
  rw [expandStep_eq, if_neg (by rw [h1]; decide), if_neg (by rw [h2]; decide)]
  simp only [h3]
  rw [if_neg (by rw [h4]; decide)]

theorem OInv_insert (nm : NavMesh) (sg eg : ℤ × ℤ)
    (cl : List ((ℤ × ℤ) × PathNode)) (cur : PathNode) (scur : List (ℤ × ℤ))
    (hclcur : mapGet cl (cur.gx, cur.gz) = some cur)
    (hspine : IsSpine cl cur scur) (hsgp : IsGridPath nm scur)
    (hshead : scur.head? = some sg)
    (hslast : scur.getLast? = some (cur.gx, cur.gz))
    (hscost : pathCostR scur = cur.g.toReal) (hslen : scur.length ≤ cl.length)
    (op : List ((ℤ × ℤ) × PathNode)) (hinv : OInv nm sg eg cl op)
    (ngx ngz : ℤ) (node : PathNode) (c : Q2)
    (hng1 : node.gx = ngx) (hng2 : node.gz = ngz)
    (hngd : (ngx - cur.gx, ngz - cur.gz) ∈ dirs)
    (hcg : node.g = cur.g.add c)
    (hcr : c.toReal = stepCostR (cur.gx, cur.gz) (ngx, ngz))
    (hhr : node.hrad = heuristicRad ngx ngz eg.1 eg.2)
    (hfe : node.f = ⟨node.g, node.hrad⟩)
    (hpar : node.parent = some (cur.gx, cur.gz))
    (hclv : mapGet cl (ngx, ngz) = none)
    (hwv : nm.isWalkable ngx ngz = true) :
    OInv nm sg eg cl (mapSet op (ngx, ngz) node) := by
  obtain ⟨hkey, hwalk, hnd, hdisj, hhrad, hf, hchain⟩ := hinv
  refine ⟨?_, ?_, mapSet_keys_nodup op _ node hnd, ?_, ?_, ?_, ?_⟩
  · intro p hp
    rcases mem_mapSet op (ngx, ngz) node p hp with hmem | heqp
    · exact hkey p hmem
    · rw [heqp]
      dsimp only
      rw [hng1, hng2]
  · intro p hp
    rcases mem_mapSet op (ngx, ngz) node p hp with hmem | heqp
    · exact hwalk p hmem
    · rw [heqp]
      dsimp only
      exact hwv
  · intro k
    rw [mapGet_mapSet]
    by_cases hk : k = (ngx, ngz)
    · rw [if_pos hk, hk]
      exact Or.inr hclv
    · rw [if_neg hk]
      exact hdisj k
  · intro p hp
    rcases mem_mapSet op (ngx, ngz) node p hp with hmem | heqp
    · exact hhrad p hmem
    · rw [heqp]
      dsimp only
      exact hhr
  · intro p hp
    rcases mem_mapSet op (ngx, ngz) node p hp with hmem | heqp
    · exact hf p hmem
    · rw [heqp]
      dsimp only
      exact hfe
  · intro p hp
    rcases mem_mapSet op (ngx, ngz) node p hp with hmem | heqp
    · exact hchain p hmem
    · rw [heqp]
      dsimp only
      refine ⟨scur ++ [(node.gx, node.gz)], ?_, ?_, ?_, ?_, ?_, ?_⟩
      · exact IsSpine.step node (cur.gx, cur.gz) cur scur hpar hclcur hspine
      · refine IsGridPath_snoc nm scur (cur.gx, cur.gz) (node.gx, node.gz) hsgp hslast
          ?_ ?_
        · dsimp only
          rw [hng1, hng2]
          exact hngd
        · rw [hng1, hng2]
          exact hwv
      · rw [head?_append_left scur _ hsgp.1]
        exact hshead
      · rw [List.getLast?_append_of_ne_nil scur (by simp), List.getLast?_singleton]
      · rw [pathCostR_snoc scur (cur.gx, cur.gz) _ hslast, hscost, hcg, Q2.toReal_add]
        rw [hcr, hng1, hng2]
      · rw [List.length_append, List.length_singleton]
        omega

theorem expandStep_inv (nm : NavMesh) (sg eg : ℤ × ℤ)
    (cl : List ((ℤ × ℤ) × PathNode)) (cur : PathNode) (scur : List (ℤ × ℤ))
    (hclcur : mapGet cl (cur.gx, cur.gz) = some cur)
    (hspine : IsSpine cl cur scur) (hsgp : IsGridPath nm scur)
    (hshead : scur.head? = some sg)
    (hslast : scur.getLast? = some (cur.gx, cur.gz))
    (hscost : pathCostR scur = cur.g.toReal) (hslen : scur.length ≤ cl.length)
    (op : List ((ℤ × ℤ) × PathNode)) (b : ℕ × (ℤ × ℤ)) (hb : b ∈ dirs.enum)
    (hinv : OInv nm sg eg cl op) :
    OInv nm sg eg cl (expandStep nm eg.1 eg.2 cur cl op b) := by
  by_cases h1 : (mapGet cl (cur.gx + b.2.1, cur.gz + b.2.2)).isSome = true
  · rw [expandStep_closed nm eg.1 eg.2 cur cl op b h1]
    exact hinv
  · rw [Bool.not_eq_true] at h1
    by_cases h2 : nm.isWalkable (cur.gx + b.2.1) (cur.gz + b.2.2) = true
    · have hbmem : (b.1, b.2) ∈ dirs.enum := by
        rw [Prod.mk.eta]
        exact hb
      have hdmem : (cur.gx + b.2.1 - cur.gx, cur.gz + b.2.2 - cur.gz) ∈ dirs := by
        have he1 : cur.gx + b.2.1 - cur.gx = b.2.1 := by ring
        have he2 : cur.gz + b.2.2 - cur.gz = b.2.2 := by ring
        rw [he1, he2, Prod.mk.eta]
        exact dirs_enum_mem_dirs b.1 b.2 hbmem
      have hstepc : (if b.1 < 4 then (⟨1, 0⟩ : Q2) else ⟨0, 1⟩).toReal =
          stepCostR (cur.gx, cur.gz) (cur.gx + b.2.1, cur.gz + b.2.2) := by
        have h := stepCostR_dir b.1 b.2 hbmem (cur.gx, cur.gz)
        dsimp only at h
        exact h.symm
      cases h3 : mapGet op (cur.gx + b.2.1, cur.gz + b.2.2) with
      | none =>
        rw [expandStep_new nm eg.1 eg.2 cur cl op b h1 h2 h3]
        exact OInv_insert nm sg eg cl cur scur hclcur hspine hsgp hshead hslast hscost
          hslen op hinv (cur.gx + b.2.1) (cur.gz + b.2.2) _
          (if b.1 < 4 then ⟨1, 0⟩ else ⟨0, 1⟩) rfl rfl hdmem rfl hstepc rfl rfl rfl
          ((isSome_false_iff _).mp h1) h2
      | some nb =>
        have hnbmem : ((cur.gx + b.2.1, cur.gz + b.2.2), nb) ∈ op := mapGet_mem op _ nb h3
        have hnbkey := hinv.1 _ hnbmem
        dsimp only at hnbkey
        rw [Prod.mk.injEq] at hnbkey
        obtain ⟨hk1, hk2⟩ := hnbkey
        have hnbhrad := hinv.2.2.2.2.1 _ hnbmem
        dsimp only at hnbhrad
        by_cases h4 : (cur.g.add (if b.1 < 4 then ⟨1, 0⟩ else ⟨0, 1⟩)).lt nb.g = true
        · rw [expandStep_relax nm eg.1 eg.2 cur cl op b nb h1 h2 h3 h4]
          exact OInv_insert nm sg eg cl cur scur hclcur hspine hsgp hshead hslast hscost
            hslen op hinv (cur.gx + b.2.1) (cur.gz + b.2.2) _
            (if b.1 < 4 then ⟨1, 0⟩ else ⟨0, 1⟩) hk1 hk2 hdmem rfl hstepc hnbhrad rfl rfl
            ((isSome_false_iff _).mp h1) h2
        · rw [Bool.not_eq_true] at h4
          rw [expandStep_keep nm eg.1 eg.2 cur cl op b nb h1 h2 h3 h4]
          exact hinv
    · rw [Bool.not_eq_true] at h2
      rw [expandStep_nowalk nm eg.1 eg.2 cur cl op b h1 h2]
      exact hinv

theorem expandStep_mono (nm : NavMesh) (eg1 eg2 : ℤ) (cur : PathNode)
    (cl op : List ((ℤ × ℤ) × PathNode)) (b : ℕ × (ℤ × ℤ)) (k : ℤ × ℤ) (nb : PathNode)
    (h : mapGet op k = some nb) :
    ∃ nb2, mapGet (expandStep nm eg1 eg2 cur cl op b) k = some nb2 ∧
      nb2.g.toReal ≤ nb.g.toReal := by
  by_cases h1 : (mapGet cl (cur.gx + b.2.1, cur.gz + b.2.2)).isSome = true
  · rw [expandStep_closed nm eg1 eg2 cur cl op b h1]
    exact ⟨nb, h, le_refl _⟩
  · rw [Bool.not_eq_true] at h1
    by_cases h2 : nm.isWalkable (cur.gx + b.2.1) (cur.gz + b.2.2) = true
    · cases h3 : mapGet op (cur.gx + b.2.1, cur.gz + b.2.2) with
      | none =>
        rw [expandStep_new nm eg1 eg2 cur cl op b h1 h2 h3, mapGet_mapSet]
        by_cases hk : k = (cur.gx + b.2.1, cur.gz + b.2.2)
        · rw [hk, h3] at h
          cases h
        · rw [if_neg hk]
          exact ⟨nb, h, le_refl _⟩
      | some nb0 =>
        by_cases h4 : (cur.g.add (if b.1 < 4 then ⟨1, 0⟩ else ⟨0, 1⟩)).lt nb0.g = true
        · rw [expandStep_relax nm eg1 eg2 cur cl op b nb0 h1 h2 h3 h4, mapGet_mapSet]
          by_cases hk : k = (cur.gx + b.2.1, cur.gz + b.2.2)
          · rw [if_pos hk]
            refine ⟨_, rfl, ?_⟩
            rw [hk, h3] at h
            injection h with h
            subst h
            exact le_of_lt ((q2Lt_iff_toReal _ _).mp h4)
          · rw [if_neg hk]
            exact ⟨nb, h, le_refl _⟩
        · rw [Bool.not_eq_true] at h4
          rw [expandStep_keep nm eg1 eg2 cur cl op b nb0 h1 h2 h3 h4]
          exact ⟨nb, h, le_refl _⟩
    · rw [Bool.not_eq_true] at h2
      rw [expandStep_nowalk nm eg1 eg2 cur cl op b h1 h2]
      exact ⟨nb, h, le_refl _⟩

theorem expandFold_mono (nm : NavMesh) (eg1 eg2 : ℤ) (cur : PathNode)
    (cl : List ((ℤ × ℤ) × PathNode)) (l : List (ℕ × (ℤ × ℤ))) :
    ∀ (op : List ((ℤ × ℤ) × PathNode)) (k : ℤ × ℤ) (nb : PathNode),
    mapGet op k = some nb →
    ∃ nb2, mapGet (l.foldl (expandStep nm eg1 eg2 cur cl) op) k = some nb2 ∧
      nb2.g.toReal ≤ nb.g.toReal := by
  induction l with
  | nil =>
    intro op k nb h
    exact ⟨nb, h, le_refl _⟩
  | cons b t ih =>
    intro op k nb h
    rw [List.foldl_cons]
    obtain ⟨nb1, h1, hle1⟩ := expandStep_mono nm eg1 eg2 cur cl op b k nb h
    obtain ⟨nb2, h2, hle2⟩ := ih _ k nb1 h1
    exact ⟨nb2, h2, le_trans hle2 hle1⟩

theorem expandStep_edge (nm : NavMesh) (eg1 eg2 : ℤ) (cur : PathNode)
    (cl op : List ((ℤ × ℤ) × PathNode)) (b : ℕ × (ℤ × ℤ))
    (hw : nm.isWalkable (cur.gx + b.2.1) (cur.gz + b.2.2) = true)
    (hcl : (mapGet cl (cur.gx + b.2.1, cur.gz + b.2.2)).isSome = false) :
    ∃ nb, mapGet (expandStep nm eg1 eg2 cur cl op b)
        (cur.gx + b.2.1, cur.gz + b.2.2) = some nb ∧
      nb.g.toReal ≤ (cur.g.add (if b.1 < 4 then ⟨1, 0⟩ else ⟨0, 1⟩)).toReal := by
  cases h3 : mapGet op (cur.gx + b.2.1, cur.gz + b.2.2) with
  | none =>
    rw [expandStep_new nm eg1 eg2 cur cl op b hcl hw h3, mapGet_mapSet, if_pos rfl]
    exact ⟨_, rfl, le_refl _⟩
  | some nb0 =>
    by_cases h4 : (cur.g.add (if b.1 < 4 then ⟨1, 0⟩ else ⟨0, 1⟩)).lt nb0.g = true
    · rw [expandStep_relax nm eg1 eg2 cur cl op b nb0 hcl hw h3 h4, mapGet_mapSet,
        if_pos rfl]
      exact ⟨_, rfl, le_refl _⟩
    · rw [Bool.not_eq_true] at h4
      rw [expandStep_keep nm eg1 eg2 cur cl op b nb0 hcl hw h3 h4]
      refine ⟨nb0, h3, ?_⟩
      by_contra hno
      push_neg at hno
      have := (q2Lt_iff_toReal (cur.g.add (if b.1 < 4 then ⟨1, 0⟩ else ⟨0, 1⟩)) nb0.g).mpr hno
      rw [h4] at this
      cases this

theorem expandFold_edge (nm : NavMesh) (eg1 eg2 : ℤ) (cur : PathNode)
    (cl : List ((ℤ × ℤ) × PathNode)) :
    ∀ (l : List (ℕ × (ℤ × ℤ))) (op : List ((ℤ × ℤ) × PathNode)) (i : ℕ) (d : ℤ × ℤ),
    (i, d) ∈ l →
    nm.isWalkable (cur.gx + d.1) (cur.gz + d.2) = true →
    (mapGet cl (cur.gx + d.1, cur.gz + d.2)).isSome = true ∨
    ∃ nb, mapGet (l.foldl (expandStep nm eg1 eg2 cur cl) op)
        (cur.gx + d.1, cur.gz + d.2) = some nb ∧
      nb.g.toReal ≤ (cur.g.add (if i < 4 then ⟨1, 0⟩ else ⟨0, 1⟩)).toReal := by
  intro l
  induction l with
  | nil =>
    intro op i d h
    cases h
  | cons b t ih =>
    intro op i d hmem hw
    rw [List.foldl_cons]
    rcases List.mem_cons.mp hmem with heq | hmem2
    · by_cases hcl : (mapGet cl (cur.gx + d.1, cur.gz + d.2)).isSome = true
      · exact Or.inl hcl
      · rw [Bool.not_eq_true] at hcl
        subst heq
        obtain ⟨nb, hnb, hle⟩ := expandStep_edge nm eg1 eg2 cur cl op (i, d)
          (by dsimp only; exact hw) (by dsimp only; exact hcl)
        dsimp only at hnb hle
        obtain ⟨nb2, hnb2, hle2⟩ := expandFold_mono nm eg1 eg2 cur cl t _ _ nb hnb
        exact Or.inr ⟨nb2, hnb2, le_trans hle2 hle⟩
    · exact ih (expandStep nm eg1 eg2 cur cl op b) i d hmem2 hw

theorem mapSet_fresh_length {α : Type} (m : List ((ℤ × ℤ) × α)) (k : ℤ × ℤ) (v : α)
    (h : mapGet m k = none) : (mapSet m k v).length = m.length + 1 := by
  rw [mapSet_fresh m k v h, List.length_append, List.length_singleton]

theorem dirs_mem_enum (d : ℤ × ℤ) (hd : d ∈ dirs) : ∃ i, (i, d) ∈ dirs.enum := by
  unfold dirs at hd
  simp only [List.mem_cons, List.not_mem_nil, or_false] at hd
  rcases hd with h | h | h | h | h | h | h | h <;> subst h
  · exact ⟨0, by rw [dirs_enum_eq]; simp⟩
  · exact ⟨1, by rw [dirs_enum_eq]; simp⟩
  · exact ⟨2, by rw [dirs_enum_eq]; simp⟩
  · exact ⟨3, by rw [dirs_enum_eq]; simp⟩
  · exact ⟨4, by rw [dirs_enum_eq]; simp⟩
  · exact ⟨5, by rw [dirs_enum_eq]; simp⟩
  · exact ⟨6, by rw [dirs_enum_eq]; simp⟩
  · exact ⟨7, by rw [dirs_enum_eq]; simp⟩

theorem AInv_step (nm : NavMesh) (sg eg : ℤ × ℤ)
    (opn closed : List ((ℤ × ℤ) × PathNode)) (inv : AInv nm sg eg opn closed)
    (cur : PathNode) (hpick : pickBest opn = some cur)
    (hng : ¬(cur.gx = eg.1 ∧ cur.gz = eg.2)) :
    AInv nm sg eg
      (expand nm eg.1 eg.2 cur (mapSet closed (cur.gx, cur.gz) cur)
        (mapDelete opn (cur.gx, cur.gz)))
      (mapSet closed (cur.gx, cur.gz) cur) := by
  have hfr : ∀ p ∈ opn, 0 ≤ p.2.f.r := by
    intro p hp
    rw [inv.fO p hp]
    show 0 ≤ p.2.hrad
    rw [inv.hradO p hp]
    exact hrad_nonneg _ _ _ _
  obtain ⟨⟨kc, hkc⟩, hcr2, hmin⟩ := pickBest_min opn cur hfr hpick
  have hkey : (cur.gx, cur.gz) = kc := inv.keyO (kc, cur) hkc
  subst hkey
  have hopnkc : mapGet opn (cur.gx, cur.gz) = some cur :=
    mapGet_of_mem_nodup opn (cur.gx, cur.gz) cur hkc inv.ndO
  have hclkc : mapGet closed (cur.gx, cur.gz) = none := by
    rcases inv.disj (cur.gx, cur.gz) with h | h
    · rw [hopnkc] at h
      cases h
    · exact h
  have hset : mapSet closed (cur.gx, cur.gz) cur = closed ++ [((cur.gx, cur.gz), cur)] :=
    mapSet_fresh closed (cur.gx, cur.gz) cur hclkc
  have hlen2 : (mapSet closed (cur.gx, cur.gz) cur).length = closed.length + 1 :=
    mapSet_fresh_length closed (cur.gx, cur.gz) cur hclkc
  have hget2 : ∀ k, mapGet (mapSet closed (cur.gx, cur.gz) cur) k =
      if k = (cur.gx, cur.gz) then some cur else mapGet closed k := by
    intro k
    exact mapGet_mapSet closed (cur.gx, cur.gz) k cur
  have hmem2 : ∀ p, p ∈ mapSet closed (cur.gx, cur.gz) cur ↔
      p ∈ closed ∨ p = ((cur.gx, cur.gz), cur) := by
    intro p
    rw [hset, List.mem_append, List.mem_singleton]
  have hclcur2 : mapGet (mapSet closed (cur.gx, cur.gz) cur) (cur.gx, cur.gz) =
      some cur := by
    rw [hget2, if_pos rfl]
  obtain ⟨scur, hsp, hsgp, hshead, hslast, hscost, hslenb⟩ := inv.chainO _ hkc
  dsimp only at hslast
  have hsp2 : IsSpine (mapSet closed (cur.gx, cur.gz) cur) cur scur :=
    IsSpine_mapSet closed (cur.gx, cur.gz) cur cur scur hsp hclkc
  have hslen2 : scur.length ≤ (mapSet closed (cur.gx, cur.gz) cur).length := by
    rw [hlen2]
    exact hslenb
  have hcuropt := popped_opt nm sg eg opn closed inv cur hpick
  -- the open map immediately after the pop satisfies the expansion invariant
  have hOInv0 : OInv nm sg eg (mapSet closed (cur.gx, cur.gz) cur)
      (mapDelete opn (cur.gx, cur.gz)) := by
    refine ⟨?_, ?_, mapDelete_keys_nodup opn _ inv.ndO, ?_, ?_, ?_, ?_⟩
    · intro p hp
      exact inv.keyO p (mem_mapDelete opn _ p hp)
    · intro p hp
      exact inv.walkO p (mem_mapDelete opn _ p hp)
    · intro k
      by_cases hk : k = (cur.gx, cur.gz)
      · rw [hk]
        exact Or.inl (mapGet_mapDelete_self opn _ inv.ndO)
      · rw [mapGet_mapDelete_ne opn _ k hk, hget2, if_neg hk]
        exact inv.disj k
    · intro p hp
      exact inv.hradO p (mem_mapDelete opn _ p hp)
    · intro p hp
      exact inv.fO p (mem_mapDelete opn _ p hp)
    · intro p hp
      obtain ⟨cells, hsp3, hgp3, hh3, hl3, hc3, hlen3⟩ :=
        inv.chainO p (mem_mapDelete opn _ p hp)
      refine ⟨cells, IsSpine_mapSet closed _ cur p.2 cells hsp3 hclkc, hgp3, hh3, hl3,
        hc3, ?_⟩
      rw [hlen2]
      omega
  have hOInv := foldl_preserve_mem
    (OInv nm sg eg (mapSet closed (cur.gx, cur.gz) cur))
    (expandStep nm eg.1 eg.2 cur (mapSet closed (cur.gx, cur.gz) cur)) dirs.enum
    (fun op2 b hb hinv2 => expandStep_inv nm sg eg _ cur scur hclcur2 hsp2 hsgp hshead
      hslast hscost hslen2 op2 b hb hinv2)
    (mapDelete opn (cur.gx, cur.gz)) hOInv0
  rw [← expand_eq_foldl] at hOInv
  obtain ⟨hk1, hw1, hn1, hd1, hh1, hf1, hc1⟩ := hOInv
  refine ⟨hk1, ?_, hw1, ?_, hn1, mapSet_keys_nodup closed _ cur inv.ndC, hd1, hh1,
    hf1, ?_, hc1, ?_, ?_, ?_⟩
  · -- keyC
    intro p hp
    rcases (hmem2 p).mp hp with h | h
    · exact inv.keyC p h
    · rw [h]
  · -- walkC
    intro p hp
    rcases (hmem2 p).mp hp with h | h
    · exact inv.walkC p h
    · rw [h]
      exact inv.walkO ((cur.gx, cur.gz), cur) hkc
  · -- goalC
    rw [hget2]
    rw [if_neg ?_]
    · exact inv.goalC
    · intro h
      apply hng
      rw [Prod.ext_iff] at h
      exact ⟨h.1.symm, h.2.symm⟩
  · -- optC
    intro p hp l hl hhd hlt
    rcases (hmem2 p).mp hp with h | h
    · exact inv.optC p h l hl hhd hlt
    · rw [h] at hlt ⊢
      dsimp only at hlt ⊢
      exact hcuropt l hl hhd hlt
  · -- edge
    intro p hp d hd hwd
    rcases (hmem2 p).mp hp with h | h
    · -- previously closed node
      rcases inv.edge p h d hd hwd with hcl | ⟨nb, hnb, hble⟩
      · left
        rw [hget2]
        by_cases hk : (p.1.1 + d.1, p.1.2 + d.2) = (cur.gx, cur.gz)
        · rw [if_pos hk]
          rfl
        · rw [if_neg hk]
          exact hcl
      · by_cases hk : (p.1.1 + d.1, p.1.2 + d.2) = (cur.gx, cur.gz)
        · left
          rw [hget2, if_pos hk]
          rfl
        · right
          have hnb2 : mapGet (mapDelete opn (cur.gx, cur.gz)) (p.1.1 + d.1, p.1.2 + d.2) =
              some nb := by
            rw [mapGet_mapDelete_ne opn _ _ hk]
            exact hnb
          rw [expand_eq_foldl]
          obtain ⟨nb2, hnb3, hle3⟩ := expandFold_mono nm eg.1 eg.2 cur _ dirs.enum _ _ nb hnb2
          exact ⟨nb2, hnb3, le_trans hle3 hble⟩
    · -- the newly closed node: its edges were expanded
      subst h
      dsimp only at hd hwd ⊢
      obtain ⟨i, hienum⟩ := dirs_mem_enum d hd
      rw [expand_eq_foldl]
      rcases expandFold_edge nm eg.1 eg.2 cur _ dirs.enum
        (mapDelete opn (cur.gx, cur.gz)) i d hienum hwd with hcl | ⟨nb, hnb, hle⟩
      · exact Or.inl hcl
      · right
        refine ⟨nb, hnb, ?_⟩
        rw [Q2.toReal_add] at hle
        have hsc := stepCostR_dir i d hienum (cur.gx, cur.gz)
        dsimp only at hsc
        rw [← hsc] at hle
        exact hle
  · -- start
    by_cases hsg : sg = (cur.gx, cur.gz)
    · left
      rw [hsg, hclcur2]
      rfl
    · rcases inv.start with h | ⟨hcl0, n0, hopn0, hg0⟩
      · left
        rw [hget2, if_neg hsg]
        exact h
      · exfalso
        rw [hopn0, List.mem_singleton] at hkc
        apply hsg
        rw [Prod.ext_iff] at hkc
        exact hkc.1.symm

theorem isWalkable_isSome (nm : NavMesh) (gx gz : ℤ) (h : nm.isWalkable gx gz = true) :
    (mapGet nm.grid (gx, gz)).isSome = true := by
  unfold NavMesh.isWalkable NavMesh.getCell at h
  cases hg : mapGet nm.grid (gx, gz) with
  | none =>
    simp only [hg] at h
    exact absurd h (by decide)
  | some c => rfl

theorem closed_le_grid (nm : NavMesh) (m : List ((ℤ × ℤ) × PathNode))
    (hnd : (m.map Prod.fst).Nodup)
    (hw : ∀ p ∈ m, nm.isWalkable p.1.1 p.1.2 = true) :
    m.length ≤ nm.grid.length := by
  have h1 : (m.map Prod.fst).toFinset.card = (m.map Prod.fst).length :=
    List.toFinset_card_of_nodup hnd
  have h2 : (m.map Prod.fst).toFinset ⊆ (nm.grid.map Prod.fst).toFinset := by
    intro k hk
    rw [List.mem_toFinset] at hk ⊢
    rcases List.mem_map.mp hk with ⟨p, hp, hpk⟩
    have hsome := isWalkable_isSome nm p.1.1 p.1.2 (hw p hp)
    rw [Prod.mk.eta] at hsome
    have hnn : ¬ mapGet nm.grid p.1 = none := by
      intro hnone
      rw [hnone] at hsome
      cases hsome
    have hmem : p.1 ∈ nm.grid.map Prod.fst := by
      by_contra hno
      exact hnn ((mapGet_eq_none_iff nm.grid p.1).mpr hno)
    rw [← hpk]
    exact hmem
  calc m.length = (m.map Prod.fst).length := (List.length_map m Prod.fst).symm
    _ = (m.map Prod.fst).toFinset.card := h1.symm
    _ ≤ (nm.grid.map Prod.fst).toFinset.card := Finset.card_le_card h2
    _ ≤ (nm.grid.map Prod.fst).length := List.toFinset_card_le _
    _ = nm.grid.length := List.length_map nm.grid Prod.fst

theorem open_nonempty (nm : NavMesh) (sg eg : ℤ × ℤ)
    (opn closed : List ((ℤ × ℤ) × PathNode)) (inv : AInv nm sg eg opn closed)
    (hreach : ∃ l, IsGridPath nm l ∧ l.head? = some sg ∧ l.getLast? = some eg) :
    opn ≠ [] := by
  obtain ⟨l, hgp, hhead, hlast⟩ := hreach
  have hmeml : eg ∈ l := mem_of_getLast l eg hlast
  have hPeg : (mapGet closed eg).isSome = false := by
    rw [inv.goalC]
    rfl
  obtain ⟨l1, v, l2, heq, hall1, hPv⟩ :=
    first_fail (fun c => (mapGet closed c).isSome) l eg hmeml hPeg
  have hgp2 := hgp
  rw [heq] at hgp2
  obtain ⟨hsfx, hpfx, hstep12⟩ := IsGridPath_decomp nm l1 v l2 hgp2
  cases l1 with
  | nil =>
    have hv : v = sg := by
      have h2 := hhead
      rw [heq, List.nil_append, List.head?_cons] at h2
      exact Option.some.inj h2
    rcases inv.start with hs | ⟨hcl0, n0, hopn0, hg0⟩
    · rw [hv, hs] at hPv
      cases hPv
    · rw [hopn0]
      simp
  | cons a t =>
    obtain ⟨u, hu⟩ := getLast_of_ne_nil (a :: t) (by simp)
    have hPu : (mapGet closed u).isSome = true := hall1 u (mem_of_getLast _ u hu)
    obtain ⟨pu, hpu⟩ := Option.isSome_iff_exists.mp hPu
    have hpumem : (u, pu) ∈ closed := mapGet_mem closed u pu hpu
    have hd : (v.1 - u.1, v.2 - u.2) ∈ dirs := hstep12 u hu
    have hwv : nm.isWalkable v.1 v.2 = true := hsfx.2.1 v (List.mem_cons_self _ _)
    have hedge := inv.edge (u, pu) hpumem (v.1 - u.1, v.2 - u.2) hd
    dsimp only at hedge
    have hc1 : u.1 + (v.1 - u.1) = v.1 := by ring
    have hc2 : u.2 + (v.2 - u.2) = v.2 := by ring
    rw [hc1, hc2, Prod.mk.eta] at hedge
    rcases hedge hwv with hcl | ⟨nb, hnbget, hnbbound⟩
    · rw [hcl] at hPv
      cases hPv
    · have hmem : (v, nb) ∈ opn := mapGet_mem opn v nb hnbget
      intro hnil
      rw [hnil] at hmem
      cases hmem

theorem astarLoop_opt (nm : NavMesh) (sg eg : ℤ × ℤ)
    (hreach : ∃ l, IsGridPath nm l ∧ l.head? = some sg ∧ l.getLast? = some eg) :
    ∀ (fuel : ℕ) (opn closed : List ((ℤ × ℤ) × PathNode)),
    AInv nm sg eg opn closed →
    nm.grid.length + 1 ≤ fuel + closed.length →
    ∃ cells, IsGridPath nm cells ∧ cells.head? = some sg ∧
      cells.getLast? = some eg ∧
      (∀ l2, IsGridPath nm l2 → l2.head? = some sg → l2.getLast? = some eg →
        pathCostR cells ≤ pathCostR l2) ∧
      astarLoop nm eg.1 eg.2 fuel opn closed =
        simplifyPath (cells.map (fun c => nm.gridToWorld c.1 c.2)) := by
  intro fuel
  induction fuel with
  | zero =>
    intro opn closed inv hfuel
    exfalso
    have hle := closed_le_grid nm closed inv.ndC inv.walkC
    omega
  | succ f ih =>
    intro opn closed inv hfuel
    have hne := open_nonempty nm sg eg opn closed inv hreach
    obtain ⟨cur, hpick⟩ := pickBest_some opn hne
    have hfr : ∀ p ∈ opn, 0 ≤ p.2.f.r := by
      intro p hp
      rw [inv.fO p hp]
      show 0 ≤ p.2.hrad
      rw [inv.hradO p hp]
      exact hrad_nonneg _ _ _ _
    obtain ⟨⟨kc, hkc⟩, hcr2, hmin⟩ := pickBest_min opn cur hfr hpick
    have hkey : (cur.gx, cur.gz) = kc := inv.keyO (kc, cur) hkc
    subst hkey
    have hopnkc : mapGet opn (cur.gx, cur.gz) = some cur :=
      mapGet_of_mem_nodup opn (cur.gx, cur.gz) cur hkc inv.ndO
    have hclkc : mapGet closed (cur.gx, cur.gz) = none := by
      rcases inv.disj (cur.gx, cur.gz) with h | h
      · rw [hopnkc] at h
        cases h
      · exact h
    have hlen2 : (mapSet closed (cur.gx, cur.gz) cur).length = closed.length + 1 :=
      mapSet_fresh_length closed (cur.gx, cur.gz) cur hclkc
    have hloop : astarLoop nm eg.1 eg.2 (f + 1) opn closed =
        (if opn.isEmpty then []
         else
           match pickBest opn with
           | none => []
           | some cur =>
             if cur.gx = eg.1 ∧ cur.gz = eg.2 then
               reconstructPath nm (mapSet closed (cur.gx, cur.gz) cur) cur
             else
               astarLoop nm eg.1 eg.2 f
                 (expand nm eg.1 eg.2 cur (mapSet closed (cur.gx, cur.gz) cur)
                   (mapDelete opn (cur.gx, cur.gz)))
                 (mapSet closed (cur.gx, cur.gz) cur)) := rfl
    have hempty : opn.isEmpty = false := by
      cases opn with
      | nil => exact absurd rfl hne
      | cons p t => rfl
    rw [hloop, if_neg (by rw [hempty]; decide)]
    simp only [hpick]
    by_cases hgoal : cur.gx = eg.1 ∧ cur.gz = eg.2
    · rw [if_pos hgoal]
      obtain ⟨scur, hsp, hsgp, hshead, hslast, hscost, hslenb⟩ := inv.chainO _ hkc
      dsimp only at hslast
      have hsp2 : IsSpine (mapSet closed (cur.gx, cur.gz) cur) cur scur :=
        IsSpine_mapSet closed (cur.gx, cur.gz) cur cur scur hsp hclkc
      have hegeq : (cur.gx, cur.gz) = eg := by
        rw [Prod.ext_iff]
        exact hgoal
      refine ⟨scur, hsgp, hshead, by rw [← hegeq]; exact hslast, ?_, ?_⟩
      · intro l2 hl2 hh2 hlt2
        have := popped_opt nm sg eg opn closed inv cur hpick l2 hl2 hh2
          (by rw [hegeq]; exact hlt2)
        rw [hscost]
        exact this
      · have hrec : reconstructPath nm (mapSet closed (cur.gx, cur.gz) cur) cur =
            simplifyPath (walkParents nm (mapSet closed (cur.gx, cur.gz) cur)
              ((mapSet closed (cur.gx, cur.gz) cur).length + 1) cur []) := rfl
        rw [hrec, walkParents_spine nm _ cur scur hsp2 _ [] (by rw [hlen2]; omega),
          List.append_nil]
    · rw [if_neg hgoal]
      have hinv2 := AInv_step nm sg eg opn closed inv cur hpick hgoal
      exact ih _ _ hinv2 (by rw [hlen2]; omega)

theorem simplifyPath_ne_nil (l : List PathPoint) (h : l ≠ []) : simplifyPath l ≠ [] := by
  unfold simplifyPath
  by_cases hlen : l.length ≤ 2
  · rw [if_pos hlen]
    exact h
  · rw [if_neg hlen]
    intro hc
    have hcl := congrArg List.length hc
    rw [List.length_append, List.length_singleton] at hcl
    simp at hcl

/-- C1: on a grid with positive cell size, when both endpoint snaps succeed
and land in two distinct cells of one connected component of the 8-connected
walkable-cell graph, `findPath` returns a non-empty waypoint list obtained by
collinear simplification (`simplifyPath`) of a minimum-total-cost grid path
from the start cell to the end cell, under step costs 1 (orthogonal) and
`sqrt 2` (diagonal). -/
theorem c1_astar_optimal (nm : NavMesh) (hcs : 0 < nm.cellSize)
    (fromX fromZ toX toZ : ℚ) (s e : PathPoint)
    (hs : nm.nearestWalkable fromX fromZ = some s)
    (he : nm.nearestWalkable toX toZ = some e)
    (hne : nm.worldToGrid s.x s.z ≠ nm.worldToGrid e.x e.z)
    (hconn : SameComponent nm (nm.worldToGrid s.x s.z) (nm.worldToGrid e.x e.z)) :
    nm.findPath fromX fromZ toX toZ ≠ [] ∧
    ∃ cells : List (ℤ × ℤ),
      IsGridPath nm cells ∧
      cells.head? = some (nm.worldToGrid s.x s.z) ∧
      cells.getLast? = some (nm.worldToGrid e.x e.z) ∧
      (∀ l2, IsGridPath nm l2 → l2.head? = some (nm.worldToGrid s.x s.z) →
        l2.getLast? = some (nm.worldToGrid e.x e.z) →
        pathCostR cells ≤ pathCostR l2) ∧
      nm.findPath fromX fromZ toX toZ =
        simplifyPath (cells.map (fun c => nm.gridToWorld c.1 c.2)) := by
  have hfp : nm.findPath fromX fromZ toX toZ =
      (if nm.worldToGrid s.x s.z = nm.worldToGrid e.x e.z then [e]
       else astarLoop nm (nm.worldToGrid e.x e.z).1 (nm.worldToGrid e.x e.z).2
         (nm.grid.length + 1)
         [(((nm.worldToGrid s.x s.z).1, (nm.worldToGrid s.x s.z).2),
           ⟨(nm.worldToGrid s.x s.z).1, (nm.worldToGrid s.x s.z).2, ⟨0, 0⟩,
            heuristicRad (nm.worldToGrid s.x s.z).1 (nm.worldToGrid s.x s.z).2
              (nm.worldToGrid e.x e.z).1 (nm.worldToGrid e.x e.z).2,
            ⟨⟨0, 0⟩,
             heuristicRad (nm.worldToGrid s.x s.z).1 (nm.worldToGrid s.x s.z).2
               (nm.worldToGrid e.x e.z).1 (nm.worldToGrid e.x e.z).2⟩,
            none⟩)] []) := by
    unfold NavMesh.findPath
    rw [hs, he]
  rw [hfp, if_neg hne]
  have hwalks : nm.isWalkable (nm.worldToGrid s.x s.z).1 (nm.worldToGrid s.x s.z).2 =
      true := nearestWalkable_walkable nm hcs fromX fromZ s hs
  have hinv0 : AInv nm (nm.worldToGrid s.x s.z) (nm.worldToGrid e.x e.z)
      [(((nm.worldToGrid s.x s.z).1, (nm.worldToGrid s.x s.z).2),
        ⟨(nm.worldToGrid s.x s.z).1, (nm.worldToGrid s.x s.z).2, ⟨0, 0⟩,
         heuristicRad (nm.worldToGrid s.x s.z).1 (nm.worldToGrid s.x s.z).2
           (nm.worldToGrid e.x e.z).1 (nm.worldToGrid e.x e.z).2,
         ⟨⟨0, 0⟩,
          heuristicRad (nm.worldToGrid s.x s.z).1 (nm.worldToGrid s.x s.z).2
            (nm.worldToGrid e.x e.z).1 (nm.worldToGrid e.x e.z).2⟩,
         none⟩)] [] := by
    refine ⟨?_, ?_, ?_, ?_, ?_, ?_, ?_, ?_, ?_, rfl, ?_, ?_, ?_, ?_⟩
    · intro p hp
      rw [List.mem_singleton] at hp
      rw [hp]
    · intro p hp
      cases hp
    · intro p hp
      rw [List.mem_singleton] at hp
      rw [hp]
      exact hwalks
    · intro p hp
      cases hp
    · simp
    · simp
    · intro k
      exact Or.inr rfl
    · intro p hp
      rw [List.mem_singleton] at hp
      rw [hp]
    · intro p hp
      rw [List.mem_singleton] at hp
      rw [hp]
    · intro p hp
      rw [List.mem_singleton] at hp
      rw [hp]
      refine ⟨[((nm.worldToGrid s.x s.z).1, (nm.worldToGrid s.x s.z).2)],
        IsSpine.base _ rfl, ⟨by simp, ?_, List.chain'_singleton _⟩, rfl, rfl, ?_, by simp⟩
      · intro u hu
        rw [List.mem_singleton] at hu
        rw [hu]
        exact hwalks
      · rw [pathCostR_single]
        exact Q2.toReal_zero.symm
    · intro p hp
      cases hp
    · intro p hp
      cases hp
    · right
      exact ⟨rfl, _, rfl, rfl⟩
  obtain ⟨cells, hcgp, hchead, hclast, hcopt, heqn⟩ :=
    astarLoop_opt nm (nm.worldToGrid s.x s.z) (nm.worldToGrid e.x e.z) hconn
      (nm.grid.length + 1)
      [(((nm.worldToGrid s.x s.z).1, (nm.worldToGrid s.x s.z).2),
        ⟨(nm.worldToGrid s.x s.z).1, (nm.worldToGrid s.x s.z).2, ⟨0, 0⟩,
         heuristicRad (nm.worldToGrid s.x s.z).1 (nm.worldToGrid s.x s.z).2
           (nm.worldToGrid e.x e.z).1 (nm.worldToGrid e.x e.z).2,
         ⟨⟨0, 0⟩,
          heuristicRad (nm.worldToGrid s.x s.z).1 (nm.worldToGrid s.x s.z).2
            (nm.worldToGrid e.x e.z).1 (nm.worldToGrid e.x e.z).2⟩,
         none⟩)] [] hinv0 (by omega)
  refine ⟨?_, cells, hcgp, hchead, hclast, hcopt, heqn⟩
  rw [heqn]
  apply simplifyPath_ne_nil
  cases cells with
  | nil => exact absurd rfl hcgp.1
  | cons a t => simp

set_option maxRecDepth 8000 in
theorem c1_witness :
    nm2.findPath (1/10) (1/10) (-9/10) (-9/10) ≠ [] ∧
    ∃ cells : List (ℤ × ℤ),
      IsGridPath nm2 cells ∧
      cells.head? = some (nm2.worldToGrid (1/10) (1/10)) ∧
      cells.getLast? = some (nm2.worldToGrid (-9/10) (-9/10)) ∧
      (∀ l2, IsGridPath nm2 l2 → l2.head? = some (nm2.worldToGrid (1/10) (1/10)) →
        l2.getLast? = some (nm2.worldToGrid (-9/10) (-9/10)) →
        pathCostR cells ≤ pathCostR l2) ∧
      nm2.findPath (1/10) (1/10) (-9/10) (-9/10) =
        simplifyPath (cells.map (fun c => nm2.gridToWorld c.1 c.2)) :=
  c1_astar_optimal nm2 (by decide) (1/10) (1/10) (-9/10) (-9/10)
    ⟨1/10, 1/10⟩ ⟨-9/10, -9/10⟩ (by decide) (by decide) (by decide)
    ⟨[(6, 6), (5, 5), (4, 4)],
     ⟨by decide, by decide, by
       rw [List.chain'_cons, List.chain'_cons]
       exact ⟨by decide, by decide, List.chain'_singleton _⟩⟩,
     by decide, by decide⟩

end Nav
